import Mathlib

/-!
# Flowcus component registry (`src/2_webpage/components/component.js`)

A shallow embedding of the `Component` class: the static table
`Component.components`, the constructor, `getAll`, `getById`,
`getRequiredComponents`, and the promise-driven lifecycle started by
`Component.init`.

JavaScript objects are modelled by a heap: every `new` allocates a fresh
address, the static table maps identifiers to addresses, and arrays such as
`required_components` hold values (addresses, strings, `undefined`), so that
`Array.prototype.includes` is comparison of addresses, as in the source.
-/

namespace Flowcus

/-- Address of an object on the heap. -/
abbrev Ref := Nat

/-- The JavaScript values that flow through the registry code. -/
inductive Value where
  /-- The value `undefined`. -/
  | undefined
  /-- A primitive string. -/
  | string (s : String)
  /-- A reference to a `Component` instance on the heap. -/
  | object (r : Ref)
  /-- What `Object.prototype` holds under `name` (found through the prototype
  chain of the plain object `components`); never a component. -/
  | inherited (name : String)
deriving DecidableEq, Repr

/-- The fields of one `Component` instance (constructor, lines 8-28).
`kind` is `this.constructor.name`; `enabled` records `this.enabled === true`
and `displayed` records the truthiness of `this.displayed`, the only ways the
source reads them; `button` records whether `this.button` has been created. -/
structure Component where
  kind : String
  display_name : String
  slug : String
  icon : String
  hotkey : String
  dependencies : List String
  id : String
  button : Bool
  is_ready : Bool
  displayed : Bool
  enabled : Bool
deriving DecidableEq, Repr, Inhabited

/-- The registry: the heap of constructed instances and the static property
table `Component.components`, whose own string keys are kept in insertion
order. -/
structure State where
  heap : List Component
  components : List (String × Ref)
deriving DecidableEq, Repr

/-- The state before any component is constructed: `static components = {}`. -/
def State.empty : State := ⟨[], []⟩

/-- Dereference an address. -/
def State.deref (s : State) (r : Ref) : Component := s.heap.getD r default

/-- Own-property lookup in the table. -/
def State.lookup (s : State) (id : String) : Option Ref :=
  (s.components.find? (fun p => p.1 == id)).map Prod.snd

/-- The property assignment `components[key] = r`: an existing key keeps its
position and gets the new value, a new key is appended. -/
def setProperty (key : String) (r : Ref) : List (String × Ref) → List (String × Ref)
  | [] => [(key, r)]
  | p :: ps => if p.1 == key then (key, r) :: ps else p :: setProperty key r ps

/-- Update the object at address `r`. -/
def State.modify (s : State) (r : Ref) (f : Component → Component) : State :=
  { s with heap := s.heap.modify f r }

/-- The assignment `component.displayed = v`. -/
def State.setDisplayed (s : State) (r : Ref) (v : Bool) : State :=
  s.modify r (fun c => { c with displayed := v })

/-- The assignment `component.is_ready = v`. -/
def State.setReady (s : State) (r : Ref) (v : Bool) : State :=
  s.modify r (fun c => { c with is_ready := v })

/-- The assignment of a created element to `component.button`. -/
def State.setButton (s : State) (r : Ref) : State :=
  s.modify r (fun c => { c with button := true })

/-- The fields the constructor sets on the new instance (lines 8-28). `kind`
is the name of the class being instantiated; `settings` is the external store
read by `Settings.get`, which hands the callback the boolean stored under the
key. -/
def instantiate (settings : String → Bool) (kind display_name slug icon hotkey : String)
    (dependencies : List String) : Component :=
  let id := kind ++ "." ++ slug
  let value := settings (id ++ "-enabled")
  { kind := kind, display_name := display_name, slug := slug, icon := icon,
    hotkey := hotkey, dependencies := dependencies, id := id,
    button := false, is_ready := false, displayed := value, enabled := value }

/-- The constructor (lines 3-32): allocates the instance and stores it in the
table under its identifier (line 31). Returns the new state and the address
of the new instance. -/
def construct (settings : String → Bool) (kind display_name slug icon hotkey : String)
    (dependencies : List String) (s : State) : State × Ref :=
  let this := instantiate settings kind display_name slug icon hotkey dependencies
  ({ heap := s.heap ++ [this], components := setProperty this.id s.heap.length s.components },
    s.heap.length)

/-- Names of the properties of `Object.prototype`, which a lookup on the plain
object `components` finds when the table has no own property of that name. -/
def objectPrototypeKeys : List String :=
  ["constructor", "__defineGetter__", "__defineSetter__", "hasOwnProperty",
   "__lookupGetter__", "__lookupSetter__", "isPrototypeOf", "propertyIsEnumerable",
   "toString", "valueOf", "__proto__", "toLocaleString"]

/-- `Component.getById(id)`: `this.components[id]` (lines 65-67). -/
def getById (s : State) (id : String) : Value :=
  match s.lookup id with
  | some r => Value.object r
  | none => if id ∈ objectPrototypeKeys then Value.inherited id else Value.undefined

/-- `component_id.startsWith(prefix)`. -/
def startsWith (component_id pre : String) : Bool :=
  pre.data.isPrefixOf component_id.data

/-- `getAll(ids_only)` called on the class named `name` (lines 36-63). -/
def getAll (name : String) (ids_only : Bool) (s : State) : List Value :=
  if name = "Component" then
    if ids_only = false then
      (s.components.map (fun p => Value.object p.2)).reverse
    else
      (s.components.map (fun p => Value.string p.1)).reverse
  else
    (s.components.filter (fun p => startsWith p.1 (name ++ "."))).map
      (fun p => if ids_only = false then getById s p.1 else Value.string p.1)

deriving instance DecidableEq for Except

/-- How a call can end abnormally. -/
inductive Failure where
  /-- A `TypeError` thrown by the JavaScript engine. -/
  | typeError
  /-- The evaluation budget of the model ran out (never a JavaScript outcome). -/
  | outOfFuel
  /-- A promise rejected with the given reason. -/
  | rejected (reason : String)
deriving DecidableEq, Repr

/-- First loop of `getRequiredComponents` (lines 95-104) over the array
returned by `this.getAll()`: an enabled component is pushed, any other gets
`displayed = false`. The array holds components only (see `getAll_registered`),
so the last case is never taken on it. -/
def seedRequired : List Value → State → List Value → State × List Value
  | [], s, required_components => (s, required_components)
  | Value.object r :: rest, s, required_components =>
    if (s.deref r).enabled = true then
      seedRequired rest s (required_components ++ [Value.object r])
    else
      seedRequired rest (s.setDisplayed r false) required_components
  | _ :: rest, s, required_components => seedRequired rest s required_components

/-- The inner loop (lines 112-119) over the dependencies of one component:
each identifier is looked up and the value found is pushed unless
`required_components.includes` it already. -/
def scanDependencies (s : State) : List String → List Value → List Value
  | [], required_components => required_components
  | dependency :: rest, required_components =>
    let dependency_component := getById s dependency
    if required_components.contains dependency_component = false then
      scanDependencies s rest (required_components ++ [dependency_component])
    else
      scanDependencies s rest required_components

/-- The `for ... of required_components` loop (lines 111-120), from index
`i` on. The array iterator reads the length anew at every step, so elements
pushed during the scan are visited by the same scan. Reading `.dependencies`
of `undefined`, or iterating the `undefined` dependencies of a value that is
not a component, throws a `TypeError`. -/
def scanRequired (s : State) : Nat → Nat → List Value → Except Failure (List Value)
  | 0, _, _ => Except.error Failure.outOfFuel
  | fuel + 1, i, required_components =>
    match required_components.get? i with
    | none => Except.ok required_components
    | some (Value.object r) =>
      scanRequired s fuel (i + 1) (scanDependencies s (s.deref r).dependencies required_components)
    | some _ => Except.error Failure.typeError

/-- The `while (continue_loop === true)` loop (lines 107-126). -/
def whileLoop (s : State) (scanFuel : Nat) : Nat → List Value → Except Failure (List Value)
  | 0, _ => Except.error Failure.outOfFuel
  | fuel + 1, required_components =>
    let length_before_loop := required_components.length
    match scanRequired s scanFuel 0 required_components with
    | Except.error e => Except.error e
    | Except.ok required_components =>
      if length_before_loop = required_components.length then
        Except.ok required_components
      else
        whileLoop s scanFuel fuel required_components

/-- `getRequiredComponents()` called on the class named `name` (lines 91-129).
Returns the state after the call (the `displayed` flags the first loop has
cleared stay cleared also when the second loop throws) and the array returned
or the failure thrown. The budgets are functions of the table size only. -/
def getRequiredComponents (name : String) (s : State) :
    State × Except Failure (List Value) :=
  let seeded := seedRequired (getAll name false s) s []
  let n := s.components.length
  (seeded.1, whileLoop seeded.1 (2 * n + 2) (n + 2) seeded.2)

/-- The arguments of one constructor call, with the name of the class that is
instantiated. -/
structure Args where
  kind : String
  display_name : String
  slug : String
  icon : String
  hotkey : String
  dependencies : List String
deriving DecidableEq, Repr

/-- The identifier the constructor computes (line 15). -/
def Args.id (a : Args) : String := a.kind ++ "." ++ a.slug

/-- The instance a constructor call with arguments `a` builds. -/
def Args.build (settings : String → Bool) (a : Args) : Component :=
  instantiate settings a.kind a.display_name a.slug a.icon a.hotkey a.dependencies

/-- A sequence of constructor calls, in order; returns the final state and the
addresses of the instances in registration order. -/
def registerAll (settings : String → Bool) : List Args → State → State × List Ref
  | [], s => (s, [])
  | a :: rest, s =>
    let made := construct settings a.kind a.display_name a.slug a.icon a.hotkey a.dependencies s
    let more := registerAll settings rest made.1
    (more.1, made.2 :: more.2)

/-- Well-formed registry: keys are distinct, each key refers to a distinct
allocated instance, and that instance carries the key as its `id`. Every
state built by constructor calls is well formed. -/
def State.WF (s : State) : Prop :=
  (s.components.map Prod.fst).Nodup ∧ (s.components.map Prod.snd).Nodup ∧
  (∀ p ∈ s.components, p.2 < s.heap.length) ∧
  (∀ p ∈ s.components, (s.deref p.2).id = p.1)

instance (s : State) : Decidable s.WF := by
  unfold State.WF; infer_instance

/-- Every dependency identifier declared by a registered component is an own
key of the table. -/
def State.AllResolve (s : State) : Prop :=
  ∀ p ∈ s.components, ∀ d ∈ (s.deref p.2).dependencies, (s.lookup d).isSome = true

instance (s : State) : Decidable s.AllResolve := by
  unfold State.AllResolve; infer_instance

/-- The instance at `r` is in the table. -/
def State.Registered (s : State) (r : Ref) : Prop := r ∈ s.components.map Prod.snd

instance (s : State) (r : Ref) : Decidable (s.Registered r) := by
  unfold State.Registered; infer_instance

/-- A dependency edge: `r` declares an identifier that `getById` resolves to
the instance `r2`. -/
def DependsOn (s : State) (r r2 : Ref) : Prop :=
  ∃ d ∈ (s.deref r).dependencies, getById s d = Value.object r2

/-- Reachable by zero or more dependency edges from a registered component
whose `enabled` flag is true. -/
def Required (s : State) (r : Ref) : Prop :=
  ∃ r0, s.Registered r0 ∧ (s.deref r0).enabled = true ∧ Relation.ReflTransGen (DependsOn s) r0 r

/-! ## The lifecycle

Promises and the event loop are modelled by a labelled transition system. The
synchronous part of every call is a function on the runtime state; every
callback that the source hands to `.then` or to an event source is one
action, enabled when the promise it is chained on has settled. Actions may be
taken in any order in which they are enabled, which covers the order of the
microtask queue. -/

/-- State of a promise returned by `waitForComponentReady`. -/
inductive PromiseState where
  | pending
  | fulfilled
deriving DecidableEq, Repr

/-- A promise created by `this.waitForComponentReady()` (lines 169-185):
the instance it was called on, its state, and how many times it has been
settled. -/
structure ReadyPromise where
  this : Ref
  state : PromiseState
  completions : Nat
deriving DecidableEq, Repr

/-- Where the promise chain of one `init()` call (lines 152-167) stands. -/
inductive Phase where
  /-- The `Promise.all` of `waitForDependencies` is pending. -/
  | waiting
  /-- The callback of line 155 has run: the button is generated or skipped. -/
  | rendered
  /-- The callback of lines 157-160 has run: `is_ready` set, event dispatched. -/
  | dispatched
  /-- The callback of line 161 has run: the promise of `init` is fulfilled. -/
  | resolved
  /-- The chain is rejected (`generateButton` rejected); `catch` has not run yet. -/
  | failed
  /-- The promise of `init` is rejected. -/
  | rejected
deriving DecidableEq, Repr

/-- One call of the instance method `init`: the instance, the promises
collected by `waitForDependencies`, and the phase of the chain. -/
structure InitCall where
  this : Ref
  waits : List Nat
  phase : Phase
deriving DecidableEq, Repr

/-- Where the promise returned by one `trigger()` call (lines 235-253) stands. -/
inductive TriggerPhase where
  /-- Waiting for the readiness of the component (line 244). -/
  | waiting
  /-- The hook has run and `resolve()` was called. -/
  | resolved
  /-- The hook threw inside the `try`: rejected with the given reason (line 250). -/
  | rejected (reason : String)
  /-- The hook threw inside the `.then` chain of line 245, which has no
  rejection handler: the promise returned by `trigger` stays pending for ever. -/
  | unsettled
deriving DecidableEq, Repr

/-- One call of `trigger`: the instance and, when it had to wait, the promise
of `waitForComponentReady` it is chained on. -/
structure TriggerCall where
  this : Ref
  wait : Option Nat
  phase : TriggerPhase
deriving DecidableEq, Repr

/-- Where the promise chain of the static `init` (lines 131-150) stands. -/
inductive BatchPhase where
  /-- The static `init` threw before building any promise. -/
  | thrown (e : Failure)
  /-- The `Promise.all` over the `init` promises is pending. -/
  | pending
  /-- The callback of line 148 has run and `listenForHotkeys` succeeded. -/
  | activated
  /-- The chain is rejected. -/
  | rejected
deriving DecidableEq, Repr

/-- The whole state of the page: the registry, the promises made by
`waitForComponentReady`, the listeners on `window` (event type and the promise
the listener resolves), the instances that have dispatched their ready event,
the `init` and `trigger` calls made so far, the instances whose `_trigger`
hook has been invoked, the array computed by the static `init`, where its
chain stands, and whether the message listener of `listenForHotkeys` is
registered. -/
structure Runtime where
  reg : State
  promises : List ReadyPromise
  listeners : List (String × Nat)
  broadcasts : List Ref
  inits : List InitCall
  triggers : List TriggerCall
  hookCalls : List Ref
  required : List Value
  batch : BatchPhase
  hotkeys : Bool
deriving DecidableEq, Repr

/-- The page right after the scripts have built the registry `s`. -/
def Runtime.start (s : State) : Runtime :=
  { reg := s, promises := [], listeners := [], broadcasts := [], inits := [], triggers := [],
    hookCalls := [], required := [], batch := BatchPhase.pending, hotkeys := false }

/-- `this.waitForComponentReady()` (lines 169-185): returns the new promise.
It is fulfilled at once when `is_ready` is true; otherwise a listener that
fulfils it is added on the event `<id>-ready`. -/
def Component.prototype.waitForComponentReady (this : Ref) (rt : Runtime) : Runtime × Nat :=
  if (rt.reg.deref this).is_ready = true then
    ({ rt with promises := rt.promises ++ [⟨this, PromiseState.fulfilled, 1⟩] },
      rt.promises.length)
  else
    ({ rt with
        promises := rt.promises ++ [⟨this, PromiseState.pending, 0⟩]
        listeners := rt.listeners ++ [((rt.reg.deref this).id ++ "-ready", rt.promises.length)] },
      rt.promises.length)

/-- The effect of `resolve()` on a promise: it settles a pending promise and
leaves a settled one as it is. -/
def ReadyPromise.resolve (w : ReadyPromise) : ReadyPromise :=
  match w.state with
  | PromiseState.pending =>
    { w with state := PromiseState.fulfilled, completions := w.completions + 1 }
  | PromiseState.fulfilled => w

/-- The call `resolve()` made by the listener of promise `p` (line 177). -/
def resolvePromise (p : Nat) (promises : List ReadyPromise) : List ReadyPromise :=
  promises.modify ReadyPromise.resolve p

/-- `window.dispatchEvent` of an event of the given type: the listeners
registered for that type run in registration order. -/
def dispatchEvent (type : String) (rt : Runtime) : Runtime :=
  { rt with
    promises := (rt.listeners.filter (fun l => l.1 == type)).foldl
      (fun promises l => resolvePromise l.2 promises) rt.promises }

/-- `window.dispatchEvent(this.ready_event)` (line 159) together with what the
listeners it runs find. The listeners registered for the type of the event run
inside the call, in registration order, and each resolves its promise
(line 177). Returned with the new state: for each listener run, the promise it
resolves and the value that `is_ready` of the instance `this`, to which the
listener is bound, has while the listener runs, that is, in the state in which
the event is dispatched. -/
def dispatchReadyEvent (type : String) (this : Ref) (rt : Runtime) :
    Runtime × List (Nat × Bool) :=
  (dispatchEvent type rt,
    (rt.listeners.filter (fun l => l.1 == type)).map
      (fun l => (l.2, (rt.reg.deref this).is_ready)))

/-- The callback of lines 157-160 of `this.init()`: line 158 sets `is_ready`,
then line 159 dispatches the ready event in the state so obtained. Returned
with the new state: what the listeners notified by the dispatch find. -/
def Component.prototype.init.ready (this : Ref) (rt : Runtime) : Runtime × List (Nat × Bool) :=
  let rt1 := { rt with reg := rt.reg.setReady this true }
  let sent := dispatchReadyEvent ((rt.reg.deref this).id ++ "-ready") this rt1
  ({ sent.1 with broadcasts := sent.1.broadcasts ++ [this] }, sent.2)

/-- The loop of `waitForDependencies` (lines 191-197). A dependency that
resolves to `undefined` (or the empty string) is falsy and skipped; a truthy
value that is not a component has no `waitForComponentReady` method, and the
call throws. -/
def Component.prototype.waitForDependencies.loop :
    List String → List Nat → Runtime → Runtime × Except Failure (List Nat)
  | [], promises, rt => (rt, Except.ok promises)
  | dependency :: rest, promises, rt =>
    match getById rt.reg dependency with
    | Value.object r =>
      let w := Component.prototype.waitForComponentReady r rt
      Component.prototype.waitForDependencies.loop rest (promises ++ [w.2]) w.1
    | Value.undefined => Component.prototype.waitForDependencies.loop rest promises rt
    | Value.string v =>
      if v = "" then Component.prototype.waitForDependencies.loop rest promises rt
      else (rt, Except.error Failure.typeError)
    | Value.inherited _ => (rt, Except.error Failure.typeError)

/-- `this.waitForDependencies()` (lines 187-200): the promises that
`Promise.all` joins, or the exception thrown. -/
def Component.prototype.waitForDependencies (this : Ref) (rt : Runtime) :
    Runtime × Except Failure (List Nat) :=
  Component.prototype.waitForDependencies.loop (rt.reg.deref this).dependencies [] rt

/-- The synchronous part of `this.init()` (lines 152-167): the executor calls
`waitForDependencies` and chains the callbacks; an exception thrown by the
executor rejects the promise. -/
def Component.prototype.init (this : Ref) (rt : Runtime) : Runtime :=
  let w := Component.prototype.waitForDependencies this rt
  match w.2 with
  | Except.ok promises => { w.1 with inits := w.1.inits ++ [⟨this, promises, Phase.waiting⟩] }
  | Except.error _ => { w.1 with inits := w.1.inits ++ [⟨this, [], Phase.rejected⟩] }

/-- The loop of lines 139-141 over the array `required_components`. An array
that `getRequiredComponents` returned holds components only, since the scan
throws on any other value it visits; the last case is never taken on it. -/
def Component.init.loop : List Value → Runtime → Runtime
  | [], rt => rt
  | Value.object r :: rest, rt => Component.init.loop rest (Component.prototype.init r rt)
  | _ :: rest, rt => Component.init.loop rest rt

/-- The synchronous part of the static `init()` called on the class named
`name` (lines 131-144): compute the required components, call `init` on each,
join the promises. When `getRequiredComponents` throws, nothing else runs. -/
def Component.init (name : String) (s : State) : Runtime :=
  let found := getRequiredComponents name s
  match found.2 with
  | Except.error e => { Runtime.start found.1 with batch := BatchPhase.thrown e }
  | Except.ok required_components =>
    Component.init.loop required_components
      { Runtime.start found.1 with required := required_components }

/-- `this.trigger()` (lines 235-253). `hook` tells what the overridable
`_trigger` does when it is called: return (`none`) or throw an error with the
given text. -/
def Component.prototype.trigger (this : Ref) (hook : Option String) (rt : Runtime) : Runtime :=
  if (rt.reg.deref this).is_ready = true then
    let rt1 := { rt with hookCalls := rt.hookCalls ++ [this] }
    match hook with
    | none => { rt1 with triggers := rt1.triggers ++ [⟨this, none, TriggerPhase.resolved⟩] }
    | some error =>
      { rt1 with triggers := rt1.triggers ++ [⟨this, none, TriggerPhase.rejected
          ("An error occured while trying to trigger the component " ++ (rt.reg.deref this).id
            ++ ". Error : " ++ error)⟩] }
  else
    let w := Component.prototype.waitForComponentReady this rt
    { w.1 with triggers := w.1.triggers ++ [⟨this, some w.2, TriggerPhase.waiting⟩] }

/-- The loop of `handleHotkeysMessages` (lines 71-75) over `this.getAll()`,
an array of components. -/
def Component.handleHotkeysMessages.loop (messageName : String) (hook : Ref → Option String) :
    List Value → Runtime → Runtime
  | [], rt => rt
  | Value.object r :: rest, rt =>
    if messageName = "trigger-" ++ (rt.reg.deref r).id then
      Component.handleHotkeysMessages.loop messageName hook rest
        (Component.prototype.trigger r (hook r) rt)
    else
      Component.handleHotkeysMessages.loop messageName hook rest rt
  | _ :: rest, rt => Component.handleHotkeysMessages.loop messageName hook rest rt

/-- `handleHotkeysMessages(message)` bound to the class named `name`
(lines 69-77), for a message with the given `command` and `name` fields. -/
def Component.handleHotkeysMessages (name : String) (command messageName : String)
    (hook : Ref → Option String) (rt : Runtime) : Runtime :=
  if command = "hotkey-pressed" then
    Component.handleHotkeysMessages.loop messageName hook (getAll name false rt.reg) rt
  else rt

/-- `listenForHotkeys()` (lines 79-89): registers the message listener, or is
rejected when `addListener` throws. -/
def Component.listenForHotkeys (throws : Bool) (rt : Runtime) : Runtime :=
  if throws = true then { rt with batch := BatchPhase.rejected }
  else { rt with hotkeys := true, batch := BatchPhase.activated }

/-- `this.generateButton()` (lines 202-229) when the DOM calls succeed: the
element is created and stored in `this.button`. Its markup and its hotkey
label, which depends on the setting `display-<kind>-hotkeys`, are not part of
the state modelled here. -/
def Component.prototype.generateButton (this : Ref) (rt : Runtime) : Runtime :=
  { rt with reg := rt.reg.setButton this }

/-- Whether promise `p` is fulfilled. -/
def Runtime.fulfilled (rt : Runtime) (p : Nat) : Bool :=
  match rt.promises.get? p with
  | some w => w.state == PromiseState.fulfilled
  | none => false

/-- The callbacks and outside events that drive the page. -/
inductive Action where
  /-- Line 155 for the `init` call number `i`, once its `Promise.all` is
  fulfilled; `throws` tells whether `document.createElement` throws. -/
  | depsDone (i : Nat) (throws : Bool)
  /-- Lines 157-160 for the `init` call number `i`. -/
  | ready (i : Nat)
  /-- Line 161, or the `catch` of lines 162-165, for the `init` call number `i`. -/
  | settle (i : Nat)
  /-- Line 148, once every `init` promise is fulfilled; `throws` tells whether
  `addListener` throws. -/
  | listen (throws : Bool)
  /-- The join of line 144 is rejected because the `init` call `i` is. -/
  | abort (i : Nat)
  /-- The browser delivers a message to the registered listener. -/
  | message (command name : String) (hook : Ref → Option String)
  /-- A click on the generated button of the instance `r` (lines 218-220). -/
  | click (r : Ref) (hook : Option String)
  /-- Line 245 for the `trigger` call number `j`, once its wait is fulfilled. -/
  | hook (j : Nat) (outcome : Option String)

/-- Replace the phase of the `init` call number `i`. -/
def Runtime.setPhase (rt : Runtime) (i : Nat) (phase : Phase) : Runtime :=
  { rt with inits := rt.inits.modify (fun t => { t with phase := phase }) i }

/-- Replace the phase of the `trigger` call number `j`. -/
def Runtime.setTriggerPhase (rt : Runtime) (j : Nat) (phase : TriggerPhase) : Runtime :=
  { rt with triggers := rt.triggers.modify (fun t => { t with phase := phase }) j }

/-- One action; `none` when it is not enabled in `rt`. -/
def step (a : Action) (rt : Runtime) : Option Runtime :=
  match a with
  | Action.depsDone i throws =>
    match rt.inits.get? i with
    | some t =>
      if t.phase = Phase.waiting ∧ t.waits.all rt.fulfilled = true then
        if (rt.reg.deref t.this).displayed = true then
          if throws = true then some (rt.setPhase i Phase.failed)
          else some ((Component.prototype.generateButton t.this rt).setPhase i Phase.rendered)
        else some (rt.setPhase i Phase.rendered)
      else none
    | none => none
  | Action.ready i =>
    match rt.inits.get? i with
    | some t =>
      if t.phase = Phase.rendered then
        some (Runtime.setPhase (Component.prototype.init.ready t.this rt).1 i Phase.dispatched)
      else none
    | none => none
  | Action.settle i =>
    match rt.inits.get? i with
    | some t =>
      if t.phase = Phase.dispatched then some (rt.setPhase i Phase.resolved)
      else if t.phase = Phase.failed then some (rt.setPhase i Phase.rejected)
      else none
    | none => none
  | Action.listen throws =>
    if rt.batch = BatchPhase.pending ∧ rt.inits.all (fun t => t.phase == Phase.resolved) = true then
      some (Component.listenForHotkeys throws rt)
    else none
  | Action.abort i =>
    match rt.inits.get? i with
    | some t =>
      if rt.batch = BatchPhase.pending ∧ t.phase = Phase.rejected then
        some { rt with batch := BatchPhase.rejected }
      else none
    | none => none
  | Action.message command name hook =>
    if rt.hotkeys = true then
      some (Component.handleHotkeysMessages "Component" command name hook rt)
    else none
  | Action.click r hook =>
    if (rt.reg.deref r).button = true then some (Component.prototype.trigger r hook rt)
    else none
  | Action.hook j outcome =>
    match rt.triggers.get? j with
    | some t =>
      if t.phase = TriggerPhase.waiting ∧ (t.wait.map rt.fulfilled) = some true then
        let rt1 := { rt with hookCalls := rt.hookCalls ++ [t.this] }
        match outcome with
        | none => some (rt1.setTriggerPhase j TriggerPhase.resolved)
        | some _ => some (rt1.setTriggerPhase j TriggerPhase.unsettled)
      else none
    | none => none

/-- Run a sequence of actions, each enabled when it is taken. -/
def run : List Action → Runtime → Option Runtime
  | [], rt => some rt
  | a :: rest, rt =>
    match step a rt with
    | some rt1 => run rest rt1
    | none => none

/-! ## Notions used to state the properties -/

/-- What the first loop of `getRequiredComponents` pushes for a value. -/
def enabledValue (s : State) : Value → Bool
  | Value.object r => (s.deref r).enabled
  | _ => false

/-- The flag `displayed` of the instance `r` after the first loop of
`getRequiredComponents` has gone over the array `l`. -/
def displayedAfter (s : State) (l : List Value) (r : Ref) : Bool :=
  if (s.deref r).enabled = false ∧ Value.object r ∈ l then false else (s.deref r).displayed

/-- The first `i` entries of the array are components all of whose declared
dependencies resolve to values already in the array. -/
def ClosedBelow (s : State) (i : Nat) (L : List Value) : Prop :=
  ∀ j, j < i → ∃ r, L.get? j = some (Value.object r) ∧
    ∀ d ∈ (s.deref r).dependencies, getById s d ∈ L

/-! ## Example registries -/

/-- A settings store in which only `Tool.c` is enabled. -/
def onlyC (key : String) : Bool := key == "Tool.c-enabled"

/-- A settings store in which every component is enabled. -/
def allEnabled (_key : String) : Bool := true

/-- Three tools: A without dependencies, B depending on A, C depending on B. -/
def chainArgs : List Args :=
  [⟨"Tool", "A", "a", "α", "Alt+A", []⟩,
   ⟨"Tool", "B", "b", "β", "Alt+B", ["Tool.a"]⟩,
   ⟨"Tool", "C", "c", "γ", "Alt+C", ["Tool.b"]⟩]

/-- The registry of the scenario in which only C is enabled. -/
def chain : State := (registerAll onlyC chainArgs State.empty).1

/-- A tool D that depends on the identifier `ghost`, which is never registered. -/
def ghostArgs : List Args := [⟨"Tool", "D", "d", "δ", "Alt+D", ["ghost"]⟩]

/-- The registry that holds only D, enabled. -/
def ghost : State := (registerAll allEnabled ghostArgs State.empty).1

/-- Two constructor calls that compute the same identifier `Tool.a`. -/
def clashArgs : List Args :=
  [⟨"Tool", "First", "a", "α", "Alt+A", []⟩, ⟨"Tool", "Second", "a", "β", "Alt+B", []⟩]

/-- A registry as the constructor leaves it: no instance is ready and no
button has been generated. -/
def State.Fresh (s : State) : Prop :=
  ∀ c ∈ s.heap, c.is_ready = false ∧ c.button = false

instance (s : State) : Decidable s.Fresh := by
  unfold State.Fresh; infer_instance

/-- The phases in which the callback of line 155 has run without failure. -/
def Phase.past : Phase → Bool
  | Phase.rendered => true
  | Phase.dispatched => true
  | Phase.resolved => true
  | _ => false

/-- Every declared dependency of `r` that resolves to a component has
`is_ready` true and has dispatched its ready event. -/
def DepsReady (reg : State) (broadcasts : List Ref) (r : Ref) : Prop :=
  ∀ d ∈ (reg.deref r).dependencies, ∀ r2, getById reg d = Value.object r2 →
    (reg.deref r2).is_ready = true ∧ r2 ∈ broadcasts

/-- The invariant of the lifecycle, over the parts of the runtime state it
reads. -/
structure Good (reg : State) (promises : List ReadyPromise) (listeners : List (String × Nat))
    (broadcasts : List Ref) (inits : List InitCall) (hotkeys : Bool) : Prop where
  wf : reg.WF
  promise_registered : ∀ w ∈ promises, reg.Registered w.this
  init_registered : ∀ t ∈ inits, reg.Registered t.this
  fulfilled_ready : ∀ w ∈ promises, w.state = PromiseState.fulfilled →
    (reg.deref w.this).is_ready = true
  listener_name : ∀ l ∈ listeners, ∃ w, promises[l.2]? = some w ∧
    l.1 = (reg.deref w.this).id ++ "-ready"
  ready_broadcast : ∀ r, (reg.deref r).is_ready = true → r ∈ broadcasts
  waits_cover : ∀ t ∈ inits, t.phase = Phase.rejected ∨
    ∀ d ∈ (reg.deref t.this).dependencies, ∀ r, getById reg d = Value.object r →
      ∃ p ∈ t.waits, ∃ w, promises[p]? = some w ∧ w.this = r
  past_deps : ∀ t ∈ inits, t.phase.past = true → DepsReady reg broadcasts t.this
  button_past : ∀ r, (reg.deref r).button = true →
    ∃ t ∈ inits, t.this = r ∧ t.phase.past = true
  broadcast_past : ∀ r ∈ broadcasts, ∃ t ∈ inits, t.this = r ∧ t.phase.past = true
  done_ready : ∀ t ∈ inits, t.phase = Phase.dispatched ∨ t.phase = Phase.resolved →
    (reg.deref t.this).is_ready = true
  hotkeys_resolved : hotkeys = true → ∀ t ∈ inits, t.phase = Phase.resolved

/-- The invariant of the lifecycle. -/
def Inv (rt : Runtime) : Prop :=
  Good rt.reg rt.promises rt.listeners rt.broadcasts rt.inits rt.hotkeys

/-- The address a value refers to, when it is a component. -/
def Value.ref? : Value → Option Ref
  | Value.object r => some r
  | _ => none

/-- How the runtime state stays tied to the call `getRequiredComponents()`
made by the static `init` on the class named `name` in the registry `s`: the
`init` calls made are those of the components of the array `required`, which
is the array the call returned; or the call threw, and then nothing was
started. -/
def Linked (name : String) (s : State) (rt : Runtime) : Prop :=
  rt.inits.map InitCall.this = rt.required.filterMap Value.ref? ∧
  ((getRequiredComponents name s).2 = Except.ok rt.required ∨
    (rt.hotkeys = false ∧ rt.inits = [] ∧ ∃ e, rt.batch = BatchPhase.thrown e))

/-- The three tools A, B, C and a fourth tool E that nothing depends on. -/
def spareArgs : List Args := chainArgs ++ [⟨"Tool", "E", "e", "ε", "Alt+E", []⟩]

/-- The registry of the four tools in which only C is enabled. -/
def spare : State := (registerAll onlyC spareArgs State.empty).1

/-- A schedule of the scenario that runs the callbacks of A, then those of B. -/
def chainSchedule : List Action :=
  [Action.depsDone 2 false, Action.ready 2, Action.settle 2,
   Action.depsDone 1 false, Action.ready 1]

/-- The page after `chainSchedule`. -/
def chainMidway : Runtime :=
  (run chainSchedule (Component.init "Component" chain)).getD (Runtime.start chain)

/-- A schedule of the scenario that runs every callback and then activates
the hotkeys. -/
def chainFullSchedule : List Action :=
  chainSchedule ++ [Action.settle 1, Action.depsDone 0 false, Action.ready 0,
    Action.settle 0, Action.listen false]

/-- The page after `chainFullSchedule`. -/
def chainDone : Runtime :=
  (run chainFullSchedule (Component.init "Component" chain)).getD (Runtime.start chain)

/-! ## A single worklist pass -/

/-- Visiting one component in a worklist pass: each declared dependency is
looked up and, when the value found is neither among the values `seen` nor
already waiting in `todo`, it is appended to `todo`. -/
def worklistVisit (s : State) : List String → List Value → List Value → List Value
  | [], _, todo => todo
  | d :: ds, seen, todo =>
    if getById s d ∈ seen ∨ getById s d ∈ todo then worklistVisit s ds seen todo
    else worklistVisit s ds seen (todo ++ [getById s d])

/-- A single worklist pass over a growing list, as the property words it: the
values still to visit wait in `todo`, the visited ones are kept in `visited`;
the head of `todo` is visited, which may append to `todo`, until `todo` is
empty. Visiting a value that is not a component fails like the scan does. -/
def worklistPass (s : State) : Nat → List Value → List Value → Except Failure (List Value)
  | 0, _, _ => Except.error Failure.outOfFuel
  | _ + 1, visited, [] => Except.ok visited
  | fuel + 1, visited, Value.object r :: todo =>
    worklistPass s fuel (visited ++ [Value.object r])
      (worklistVisit s (s.deref r).dependencies (visited ++ [Value.object r]) todo)
  | _ + 1, _, _ :: _ => Except.error Failure.typeError

/-- Three tools with cyclic dependencies: X and Y depend on each other, Z
depends on itself. -/
def cycleArgs : List Args :=
  [⟨"Tool", "X", "x", "ξ", "Alt+X", ["Tool.y"]⟩,
   ⟨"Tool", "Y", "y", "υ", "Alt+Y", ["Tool.x"]⟩,
   ⟨"Tool", "Z", "z", "ζ", "Alt+Z", ["Tool.z"]⟩]

/-- The registry of the three cyclic tools, all enabled. -/
def cyclic : State := (registerAll allEnabled cycleArgs State.empty).1

/-- Every instance carries the identifier the constructor computes from its
class name and its slug (line 15). -/
def State.Built (s : State) : Prop :=
  ∀ c ∈ s.heap, c.id = c.kind ++ "." ++ c.slug

instance (s : State) : Decidable s.Built := by
  unfold State.Built; infer_instance

/-- A class named `A` and a class whose name `A.B` contains a dot. -/
def dottedArgs : List Args :=
  [⟨"A", "One", "x", "α", "Alt+1", []⟩, ⟨"A.B", "Two", "c", "β", "Alt+2", []⟩]

/-- The registry of the two classes `A` and `A.B`. -/
def dotted : State := (registerAll allEnabled dottedArgs State.empty).1

/-- Tools and toolbars: the name of one class is a prefix of the other, and
one slug contains dots. -/
def kindsArgs : List Args :=
  [⟨"Tool", "A", "a.b", "α", "Alt+A", []⟩,
   ⟨"Toolbar", "B", "x", "β", "Alt+B", []⟩,
   ⟨"Tool", "C", "Tool.c", "γ", "Alt+C", []⟩]

/-- The registry of the tools and the toolbar. -/
def kinds : State := (registerAll allEnabled kindsArgs State.empty).1

/-- A tool P that depends on the identifier `toString`, which is registered by
no component but is a property of `Object.prototype`. -/
def protoArgs : List Args := [⟨"Tool", "P", "p", "π", "Alt+P", ["toString"]⟩]

/-- The registry that holds only P, enabled. -/
def proto : State := (registerAll allEnabled protoArgs State.empty).1

/-- The callbacks of one `init` call that succeed: dependency wait, ready
event, resolution. -/
def soloSchedule : List Action :=
  [Action.depsDone 0 false, Action.ready 0, Action.settle 0]

/-- A schedule of the scenario in which the button of C is clicked after it
has been generated and before C is ready, and the hook then throws: A and B
become ready, C generates its button, the click calls `trigger`, C becomes
ready, and the hook runs. -/
def earlyClickSchedule : List Action :=
  chainSchedule ++ [Action.depsDone 0 false, Action.click 2 none, Action.ready 0,
    Action.hook 0 (some "boom")]

/-- A schedule of the scenario in which the button of C is clicked once C is
ready, and the hook throws. -/
def lateClickSchedule : List Action :=
  chainSchedule ++ [Action.depsDone 0 false, Action.ready 0, Action.click 2 (some "boom")]

/-! ## The actions, case by case -/

/-- What one enabled action does to the page: one case for each callback and
each outside event, with the condition under which it runs. -/
inductive Effect : Runtime → Runtime → Prop where
  /-- Line 155 when `displayed` is false. -/
  | skipButton (rt : Runtime) (i : Nat) (t : InitCall) :
      rt.inits[i]? = some t → t.phase = Phase.waiting → t.waits.all rt.fulfilled = true →
      (rt.reg.deref t.this).displayed = false →
      Effect rt (rt.setPhase i Phase.rendered)
  /-- Line 155 when `displayed` is true and the button is generated. -/
  | button (rt : Runtime) (i : Nat) (t : InitCall) :
      rt.inits[i]? = some t → t.phase = Phase.waiting → t.waits.all rt.fulfilled = true →
      (rt.reg.deref t.this).displayed = true →
      Effect rt ((Component.prototype.generateButton t.this rt).setPhase i Phase.rendered)
  /-- Line 155 when `displayed` is true and `generateButton` is rejected. -/
  | buttonFails (rt : Runtime) (i : Nat) (t : InitCall) :
      rt.inits[i]? = some t → t.phase = Phase.waiting → t.waits.all rt.fulfilled = true →
      (rt.reg.deref t.this).displayed = true →
      Effect rt (rt.setPhase i Phase.failed)
  /-- Lines 157-160. -/
  | ready (rt : Runtime) (i : Nat) (t : InitCall) :
      rt.inits[i]? = some t → t.phase = Phase.rendered →
      Effect rt (Runtime.setPhase
        { dispatchEvent ((rt.reg.deref t.this).id ++ "-ready")
            { rt with reg := rt.reg.setReady t.this true } with
          broadcasts := rt.broadcasts ++ [t.this] } i Phase.dispatched)
  /-- Line 161. -/
  | resolve (rt : Runtime) (i : Nat) (t : InitCall) :
      rt.inits[i]? = some t → t.phase = Phase.dispatched →
      Effect rt (rt.setPhase i Phase.resolved)
  /-- Lines 162-165. -/
  | reject (rt : Runtime) (i : Nat) (t : InitCall) :
      rt.inits[i]? = some t → t.phase = Phase.failed →
      Effect rt (rt.setPhase i Phase.rejected)
  /-- Line 148. -/
  | listen (rt : Runtime) (throws : Bool) :
      rt.batch = BatchPhase.pending → (∀ t ∈ rt.inits, t.phase = Phase.resolved) →
      Effect rt (Component.listenForHotkeys throws rt)
  /-- The join of line 144 is rejected. -/
  | abort (rt : Runtime) :
      rt.batch = BatchPhase.pending → Effect rt { rt with batch := BatchPhase.rejected }
  /-- A message reaches the registered listener. -/
  | message (rt : Runtime) (command name : String) (hook : Ref → Option String) :
      rt.hotkeys = true →
      Effect rt (Component.handleHotkeysMessages "Component" command name hook rt)
  /-- A click on a generated button. -/
  | click (rt : Runtime) (r : Ref) (hook : Option String) :
      (rt.reg.deref r).button = true → Effect rt (Component.prototype.trigger r hook rt)
  /-- Line 245: the hook runs after the wait; `phase` is `resolved` when it
  returns and `unsettled` when it throws. -/
  | hook (rt : Runtime) (j : Nat) (t : TriggerCall) (p : Nat) (phase : TriggerPhase) :
      rt.triggers[j]? = some t → t.phase = TriggerPhase.waiting → t.wait = some p →
      rt.fulfilled p = true → phase ≠ TriggerPhase.waiting →
      Effect rt (Runtime.setTriggerPhase { rt with hookCalls := rt.hookCalls ++ [t.this] } j phase)

/-- The second invariant of the lifecycle, over the parts of the runtime
state it reads: the order of the ready events, the calls of `trigger` and of
the hook, and the promises that are still pending. -/
structure Good2 (reg : State) (promises : List ReadyPromise) (listeners : List (String × Nat))
    (broadcasts : List Ref) (inits : List InitCall) (triggers : List TriggerCall)
    (hookCalls : List Ref) : Prop where
  broadcast_ready : ∀ r ∈ broadcasts, (reg.deref r).is_ready = true
  broadcast_order : ∀ (k : Nat) (r : Ref), broadcasts[k]? = some r →
    ∀ d ∈ (reg.deref r).dependencies, ∀ r2, getById reg d = Value.object r2 →
      ∃ k2, k2 < k ∧ broadcasts[k2]? = some r2
  wait_target : ∀ t ∈ triggers, t.phase = TriggerPhase.waiting →
    ∃ p w, t.wait = some p ∧ promises[p]? = some w ∧ w.this = t.this
  hook_ready : ∀ r ∈ hookCalls, (reg.deref r).is_ready = true
  settled_hook : ∀ t ∈ triggers, t.phase ≠ TriggerPhase.waiting → t.this ∈ hookCalls
  ready_phase : ∀ t ∈ inits, (reg.deref t.this).is_ready = true →
    t.phase = Phase.dispatched ∨ t.phase = Phase.resolved
  inits_nodup : (inits.map InitCall.this).Nodup
  pending_listener : ∀ (p : Nat) (w : ReadyPromise), promises[p]? = some w →
    w.state = PromiseState.pending →
    ((reg.deref w.this).id ++ "-ready", p) ∈ listeners ∧ (reg.deref w.this).is_ready = false
  waits_sound : ∀ t ∈ inits, ∀ p ∈ t.waits, ∃ w, promises[p]? = some w ∧
    ∃ d ∈ (reg.deref t.this).dependencies, getById reg d = Value.object w.this

/-- The second invariant of the lifecycle. -/
def Inv2 (rt : Runtime) : Prop :=
  Good2 rt.reg rt.promises rt.listeners rt.broadcasts rt.inits rt.triggers rt.hookCalls

/-- The page of the four tools after every callback has run, the hotkeys are
active and the message `trigger-Tool.e` has arrived, with a hook that throws. -/
def spareSchedule : List Action :=
  chainFullSchedule ++ [Action.message "hotkey-pressed" "trigger-Tool.e" (fun _ => some "boom")]

/-- The page after `spareSchedule`. -/
def spareTriggered : Runtime :=
  (run spareSchedule (Component.init "Component" spare)).getD (Runtime.start spare)

/-! ## Failures of the button and the siblings -/

/-- The moves of the promise chain of one `init` call (lines 154-165). -/
def Phase.next : Phase → Phase → Bool
  | Phase.waiting, Phase.rendered => true
  | Phase.waiting, Phase.failed => true
  | Phase.rendered, Phase.dispatched => true
  | Phase.dispatched, Phase.resolved => true
  | Phase.failed, Phase.rejected => true
  | _, _ => false

/-- Whether the action is a run of line 155 in which `document.createElement`
throws. -/
def Action.fails : Action → Bool
  | Action.depsDone _ true => true
  | _ => false

/-- The `init` of the component has been called and has not failed, and the
same holds, inductively, for every component that one of its declared
dependencies resolves to. Being inductive, it holds of no component that
reaches a dependency cycle. -/
inductive Grounded (rt : Runtime) : Ref → Prop where
  | intro (r : Ref) (t : InitCall) : t ∈ rt.inits → t.this = r →
      t.phase ≠ Phase.failed → t.phase ≠ Phase.rejected →
      (∀ d ∈ (rt.reg.deref r).dependencies, ∀ r2, getById rt.reg d = Value.object r2 →
        Grounded rt r2) →
      Grounded rt r

/-- Two tools W and V without dependencies and a tool Z that depends on
itself. -/
def siblingsArgs : List Args :=
  [⟨"Tool", "W", "w", "ω", "Alt+W", []⟩,
   ⟨"Tool", "V", "v", "ν", "Alt+V", []⟩,
   ⟨"Tool", "Z", "z", "ζ", "Alt+Z", ["Tool.z"]⟩]

/-- The registry of W, V and Z, all enabled. -/
def siblings : State := (registerAll allEnabled siblingsArgs State.empty).1

/-- The page of W, V and Z after `generateButton` has failed for W. -/
def siblingsFailed : Runtime :=
  (run [Action.depsDone 2 true] (Component.init "Component" siblings)).getD
    (Runtime.start siblings)

/-- The page of the scenario after the callback of line 155 has run for A. -/
def chainRendered : Runtime :=
  (run [Action.depsDone 2 false] (Component.init "Component" chain)).getD (Runtime.start chain)

/-! # Theorems -/

/-! ## Registration -/

theorem Args.build_id (settings : String → Bool) (a : Args) :
    (a.build settings).id = a.id := rfl

theorem setProperty_fresh (key : String) (r : Ref) :
    ∀ l : List (String × Ref), key ∉ l.map Prod.fst → setProperty key r l = l ++ [(key, r)]
  | [], _ => rfl
  | p :: ps, h => by
    have h1 : p.1 ≠ key := fun e => h (by simp [e])
    have h2 : key ∉ ps.map Prod.fst := fun e => h (by simp at e ⊢; exact Or.inr e)
    simp [setProperty, h1, setProperty_fresh key r ps h2]

theorem setProperty_keys_of_mem (key : String) (r : Ref) :
    ∀ l : List (String × Ref), key ∈ l.map Prod.fst →
      (setProperty key r l).map Prod.fst = l.map Prod.fst
  | [], h => by simp at h
  | p :: ps, h => by
    by_cases h1 : p.1 = key
    · simp [setProperty, h1]
    · have h2 : key ∈ ps.map Prod.fst := by
        simp at h ⊢
        rcases h with h | h
        · exact absurd h.symm h1
        · exact h
      simp [setProperty, h1, setProperty_keys_of_mem key r ps h2]

theorem lookup_setProperty_self (key : String) (r : Ref) :
    ∀ l : List (String × Ref),
      ((setProperty key r l).find? (fun p => p.1 == key)).map Prod.snd = some r
  | [] => by simp [setProperty]
  | p :: ps => by
    by_cases h1 : p.1 = key
    · simp [setProperty, h1]
    · simp [setProperty, h1, List.find?_cons, lookup_setProperty_self key r ps]

theorem registerAll_heap (settings : String → Bool) :
    ∀ (args : List Args) (s : State),
      (registerAll settings args s).1.heap = s.heap ++ args.map (Args.build settings)
  | [], s => by simp [registerAll]
  | a :: rest, s => by
    simp [registerAll, registerAll_heap settings rest, construct, Args.build]

theorem registerAll_refs (settings : String → Bool) :
    ∀ (args : List Args) (s : State),
      (registerAll settings args s).2 = List.range' s.heap.length args.length
  | [], s => by simp [registerAll]
  | a :: rest, s => by
    simp [registerAll, registerAll_refs settings rest, construct, List.range'_succ]

theorem registerAll_components (settings : String → Bool) :
    ∀ (args : List Args) (s : State), (args.map Args.id).Nodup →
      (∀ a ∈ args, a.id ∉ s.components.map Prod.fst) →
      (registerAll settings args s).1.components =
        s.components ++ (args.map Args.id).zip (List.range' s.heap.length args.length)
  | [], s, _, _ => by simp [registerAll]
  | a :: rest, s, hnd, hfresh => by
    have hnd2 : a.id ∉ rest.map Args.id ∧ (rest.map Args.id).Nodup := by
      simpa using hnd
    have ha : a.id ∉ s.components.map Prod.fst := hfresh a (by simp)
    have hstep : (construct settings a.kind a.display_name a.slug a.icon a.hotkey
        a.dependencies s).1.components = s.components ++ [(a.id, s.heap.length)] := by
      simp only [construct]
      exact setProperty_fresh _ _ _ ha
    have hfresh2 : ∀ b ∈ rest, b.id ∉ (construct settings a.kind a.display_name a.slug a.icon
        a.hotkey a.dependencies s).1.components.map Prod.fst := by
      intro b hb
      rw [hstep]
      simp only [List.map_append, List.map_cons, List.map_nil, List.mem_append,
        List.mem_singleton, not_or]
      refine ⟨hfresh b (by simp [hb]), ?_⟩
      intro e
      exact hnd2.1 (by rw [← e]; exact List.mem_map_of_mem _ hb)
    have ih := registerAll_components settings rest _ hnd2.2 hfresh2
    simp only [registerAll]
    rw [ih, hstep]
    simp [construct, List.range'_succ, List.zip_cons_cons]

theorem deref_registerAll (settings : String → Bool) (args : List Args) (i : Nat)
    (hi : i < args.length) :
    (registerAll settings args State.empty).1.deref i = (args.get ⟨i, hi⟩).build settings := by
  simp [State.deref, registerAll_heap, State.empty, List.getD_eq_getElem?_getD,
    List.getElem?_map, List.getElem?_eq_getElem hi]

/-- C9: after any sequence of registrations with pairwise distinct
identifiers, `getAll()` on the base class returns the registered instances,
each once, most recently registered first, and `getAll(true)` returns their
identifiers in that same order. -/
theorem getAll_base_reverse_registration (settings : String → Bool) (args : List Args)
    (hdistinct : (args.map Args.id).Nodup) :
    getAll "Component" false (registerAll settings args State.empty).1 =
        ((registerAll settings args State.empty).2.map Value.object).reverse ∧
      getAll "Component" true (registerAll settings args State.empty).1 =
        ((registerAll settings args State.empty).2.map (fun r =>
          Value.string ((registerAll settings args State.empty).1.deref r).id)).reverse ∧
      (registerAll settings args State.empty).2.Nodup ∧
      (registerAll settings args State.empty).2 = List.range args.length ∧
      ∀ (i : Nat) (hi : i < args.length),
        (registerAll settings args State.empty).1.deref i = (args.get ⟨i, hi⟩).build settings := by
  have hc := registerAll_components settings args State.empty hdistinct (by simp [State.empty])
  have hr := registerAll_refs settings args State.empty
  have hr2 : (registerAll settings args State.empty).2 = List.range args.length := by
    rw [hr]; simp [State.empty, List.range_eq_range']
  rw [show State.empty.components = [] from rfl, show State.empty.heap.length = 0 from rfl,
    List.nil_append] at hc
  have hobj : (fun p : String × Ref => Value.object p.2) = Value.object ∘ Prod.snd := rfl
  have hstr : (fun p : String × Ref => Value.string p.1) = Value.string ∘ Prod.fst := rfl
  refine ⟨?_, ?_, ?_, hr2, fun i hi => deref_registerAll settings args i hi⟩
  · simp only [getAll, if_true]
    rw [hc, hr2, List.range_eq_range', hobj, ← List.map_map, List.map_snd_zip _ _ (by simp)]
  · simp only [getAll, if_true]
    simp only [Bool.true_eq_false, if_false]
    rw [hc, hr2, List.range_eq_range', hstr, ← List.map_map, List.map_fst_zip _ _ (by simp)]
    congr 1
    apply List.ext_getElem
    · simp
    · intro n h1 h2
      simp only [List.length_map] at h1
      simp [deref_registerAll settings args n h1, Args.build_id]
  · rw [hr2]; exact List.nodup_range _

/-! ## The registry state -/

theorem State.deref_modify (s : State) (r : Ref) (f : Component → Component) (r2 : Ref) :
    (s.modify r f).deref r2 = if r = r2 ∧ r < s.heap.length then f (s.deref r2) else s.deref r2 := by
  simp only [State.modify, State.deref, List.getD_eq_getElem?_getD, List.getElem?_modify]
  by_cases h : r = r2
  · subst h
    by_cases hv : r < s.heap.length
    · simp [hv, List.getElem?_eq_getElem hv]
    · simp [hv, List.getElem?_eq_none (Nat.le_of_not_lt hv)]
  · cases hx : s.heap[r2]? <;> simp [h]

theorem State.deref_of_not_lt (s : State) (r : Ref) (h : ¬ r < s.heap.length) :
    s.deref r = default := by
  simp [State.deref, List.getD_eq_getElem?_getD, List.getElem?_eq_none (Nat.le_of_not_lt h)]

@[simp] theorem State.components_setDisplayed (s : State) (r : Ref) (v : Bool) :
    (s.setDisplayed r v).components = s.components := rfl

@[simp] theorem getById_setDisplayed (s : State) (r : Ref) (v : Bool) (d : String) :
    getById (s.setDisplayed r v) d = getById s d := rfl

/-- Clearing `displayed` (line 102) changes that one field of that one instance. -/
theorem State.deref_clearDisplayed (s : State) (r r2 : Ref) :
    (s.setDisplayed r false).deref r2 =
      if r = r2 then { s.deref r2 with displayed := false } else s.deref r2 := by
  rw [State.setDisplayed, State.deref_modify]
  by_cases h : r = r2
  · subst h
    by_cases hv : r < s.heap.length
    · simp [hv]
    · simp [hv, State.deref_of_not_lt s r hv]
      rfl
  · simp [h]

theorem seedRequired_spec : ∀ (l : List Value) (s : State) (req : List Value),
    (seedRequired l s req).1.components = s.components ∧
    (seedRequired l s req).2 = req ++ l.filter (enabledValue s) ∧
    ∀ r, (seedRequired l s req).1.deref r =
      { s.deref r with displayed := displayedAfter s l r }
  | [], s, req => by simp [seedRequired, displayedAfter]
  | Value.undefined :: rest, s, req => by
    have ih := seedRequired_spec rest s req
    simpa [seedRequired, enabledValue, displayedAfter] using ih
  | Value.string v :: rest, s, req => by
    have ih := seedRequired_spec rest s req
    simpa [seedRequired, enabledValue, displayedAfter] using ih
  | Value.inherited v :: rest, s, req => by
    have ih := seedRequired_spec rest s req
    simpa [seedRequired, enabledValue, displayedAfter] using ih
  | Value.object r0 :: rest, s, req => by
    by_cases he : (s.deref r0).enabled = true
    · have ih := seedRequired_spec rest s (req ++ [Value.object r0])
      rw [seedRequired, if_pos he]
      refine ⟨ih.1, ?_, ?_⟩
      · rw [ih.2.1]; simp [List.filter_cons, enabledValue, he]
      · intro r
        rw [ih.2.2 r]
        by_cases hr : r = r0
        · subst hr; simp [he, displayedAfter]
        · simp [hr, displayedAfter]
    · have ih := seedRequired_spec rest (s.setDisplayed r0 false) req
      have hef : (s.deref r0).enabled = false := by simpa using he
      have hen : ∀ v, enabledValue (s.setDisplayed r0 false) v = enabledValue s v := by
        intro v
        cases v <;> simp [enabledValue, State.deref_clearDisplayed]
        split <;> rfl
      rw [seedRequired, if_neg he]
      refine ⟨ih.1, ?_, ?_⟩
      · rw [ih.2.1]
        simp only [List.filter_cons, enabledValue, hef]
        simp only [Bool.false_eq_true, if_false, List.append_cancel_left_eq]
        exact List.filter_congr (fun v _ => hen v)
      · intro r
        rw [ih.2.2 r]
        simp only [displayedAfter, State.deref_clearDisplayed]
        by_cases hr : r0 = r
        · subst hr; simp [hef]
        · have hr2 : ¬ r = r0 := fun e => hr e.symm
          simp [hr, hr2]

/-! ## The dependency scan -/

theorem scanDependencies_spec (s : State) : ∀ (ds : List String) (L : List Value),
    ∃ ext, scanDependencies s ds L = L ++ ext ∧
      (∀ v ∈ ext, ∃ d ∈ ds, v = getById s d) ∧
      (L.Nodup → (L ++ ext).Nodup) ∧
      (∀ d ∈ ds, getById s d ∈ L ++ ext)
  | [], L => ⟨[], by simp [scanDependencies]⟩
  | d :: ds, L => by
    by_cases h : getById s d ∈ L
    · obtain ⟨ext, h1, h2, h3, h4⟩ := scanDependencies_spec s ds L
      refine ⟨ext, ?_, ?_, h3, ?_⟩
      · simp [scanDependencies, h, h1]
      · intro v hv
        obtain ⟨d2, hd2, e⟩ := h2 v hv
        exact ⟨d2, List.mem_cons_of_mem _ hd2, e⟩
      · intro d2 hd2
        rcases List.mem_cons.1 hd2 with e | hd2
        · rw [e]; exact List.mem_append_left _ h
        · exact h4 d2 hd2
    · obtain ⟨ext, h1, h2, h3, h4⟩ := scanDependencies_spec s ds (L ++ [getById s d])
      refine ⟨getById s d :: ext, ?_, ?_, ?_, ?_⟩
      · simp [scanDependencies, h, h1]
      · intro v hv
        rcases List.mem_cons.1 hv with e | hv
        · exact ⟨d, List.mem_cons_self _ _, e⟩
        · obtain ⟨d2, hd2, e⟩ := h2 v hv
          exact ⟨d2, List.mem_cons_of_mem _ hd2, e⟩
      · intro hn
        have : (L ++ [getById s d]).Nodup := by
          rw [List.nodup_append]
          refine ⟨hn, List.nodup_singleton _, ?_⟩
          intro a ha hb
          rw [List.mem_singleton] at hb
          exact h (hb ▸ ha)
        simpa using h3 this
      · intro d2 hd2
        rcases List.mem_cons.1 hd2 with e | hd2
        · rw [e]; simp
        · simpa using h4 d2 hd2

theorem scanDependencies_closed (s : State) : ∀ (ds : List String) (L : List Value),
    (∀ d ∈ ds, getById s d ∈ L) → scanDependencies s ds L = L
  | [], L, _ => rfl
  | d :: ds, L, h => by
    have h1 : getById s d ∈ L := h d (List.mem_cons_self _ _)
    have h2 := scanDependencies_closed s ds L (fun d2 hd2 => h d2 (List.mem_cons_of_mem _ hd2))
    simp [scanDependencies, h1, h2]

theorem ClosedBelow.mono {s : State} {i k : Nat} {L ext : List Value}
    (h : ClosedBelow s i L) (hk : k ≤ i) : ClosedBelow s k (L ++ ext) := by
  intro j hj
  obtain ⟨r, h1, h2⟩ := h j (Nat.lt_of_lt_of_le hj hk)
  refine ⟨r, ?_, fun d hd => List.mem_append_left _ (h2 d hd)⟩
  rw [List.get?_eq_getElem?] at h1 ⊢
  have hlt : j < L.length := (List.getElem?_eq_some_iff.1 h1).1
  rw [List.getElem?_append_left hlt]; exact h1

theorem scanRequired_ok (s : State) (P : Value → Prop)
    (hP : ∀ r d, P (Value.object r) → d ∈ (s.deref r).dependencies → P (getById s d)) :
    ∀ (fuel i : Nat) (L L2 : List Value), scanRequired s fuel i L = Except.ok L2 →
      (∃ ext, L2 = L ++ ext) ∧ (L.Nodup → L2.Nodup) ∧ ((∀ v ∈ L, P v) → ∀ v ∈ L2, P v) ∧
      (ClosedBelow s i L → ClosedBelow s L2.length L2)
  | 0, i, L, L2, h => by simp [scanRequired] at h
  | fuel + 1, i, L, L2, h => by
    rw [scanRequired] at h
    cases hget : L.get? i with
    | none =>
      rw [hget] at h
      simp only [Except.ok.injEq] at h
      subst h
      refine ⟨⟨[], by simp⟩, id, id, ?_⟩
      intro hc
      have hle : L.length ≤ i := by
        rw [List.get?_eq_getElem?] at hget
        exact List.getElem?_eq_none_iff.1 hget
      simpa using @ClosedBelow.mono s i L.length L [] hc hle
    | some v =>
      rw [hget] at h
      cases v with
      | undefined => simp at h
      | string w => simp at h
      | inherited w => simp at h
      | object r =>
        simp only at h
        obtain ⟨ext, e1, e2, e3, e4⟩ := scanDependencies_spec s (s.deref r).dependencies L
        rw [e1] at h
        obtain ⟨ih1, ih2, ih3, ih4⟩ := scanRequired_ok s P hP fuel (i + 1) (L ++ ext) L2 h
        have hmem : Value.object r ∈ L := by
          rw [List.get?_eq_getElem?] at hget
          exact List.getElem?_mem hget
        refine ⟨?_, fun hn => ih2 (e3 hn), ?_, ?_⟩
        · obtain ⟨ext2, e⟩ := ih1
          exact ⟨ext ++ ext2, by rw [e, List.append_assoc]⟩
        · intro hL
          apply ih3
          intro v hv
          rcases List.mem_append.1 hv with hv | hv
          · exact hL v hv
          · obtain ⟨d, hd, e⟩ := e2 v hv
            rw [e]; exact hP r d (hL _ hmem) hd
        · intro hc
          apply ih4
          intro j hj
          rcases Nat.lt_succ_iff_lt_or_eq.1 hj with hj | hj
          · exact hc.mono (Nat.le_refl _) j hj
          · subst hj
            refine ⟨r, ?_, e4⟩
            rw [List.get?_eq_getElem?] at hget ⊢
            have hlt : j < L.length := (List.getElem?_eq_some_iff.1 hget).1
            rw [List.getElem?_append_left hlt]; exact hget

theorem scanRequired_returns (s : State) (U : List Value)
    (hUobj : ∀ v ∈ U, ∃ r, v = Value.object r)
    (hUclosed : ∀ r, Value.object r ∈ U → ∀ d ∈ (s.deref r).dependencies, getById s d ∈ U) :
    ∀ (fuel i : Nat) (L : List Value), L.Nodup → L ⊆ U → i ≤ L.length → U.length < fuel + i →
      ∃ L2, scanRequired s fuel i L = Except.ok L2
  | 0, i, L, hn, hsub, hi, hf => by
    have := (hn.subperm hsub).length_le
    omega
  | fuel + 1, i, L, hn, hsub, hi, hf => by
    rw [scanRequired]
    cases hget : L.get? i with
    | none => exact ⟨L, rfl⟩
    | some v =>
      have hget2 : L[i]? = some v := by rw [← List.get?_eq_getElem?]; exact hget
      have hmem : v ∈ L := List.getElem?_mem hget2
      obtain ⟨r, rfl⟩ := hUobj v (hsub hmem)
      simp only
      obtain ⟨ext, e1, e2, e3, _⟩ := scanDependencies_spec s (s.deref r).dependencies L
      rw [e1]
      have hlt : i < L.length := (List.getElem?_eq_some_iff.1 hget2).1
      apply scanRequired_returns s U hUobj hUclosed fuel (i + 1) (L ++ ext) (e3 hn)
      · intro v hv
        rcases List.mem_append.1 hv with hv | hv
        · exact hsub hv
        · obtain ⟨d, hd, e⟩ := e2 v hv
          rw [e]; exact hUclosed r (hsub hmem) d hd
      · simp; omega
      · omega

theorem scanRequired_closed (s : State) :
    ∀ (fuel i : Nat) (L : List Value), ClosedBelow s L.length L → i ≤ L.length →
      L.length < fuel + i → scanRequired s fuel i L = Except.ok L
  | 0, i, L, _, hi, hf => by omega
  | fuel + 1, i, L, hc, hi, hf => by
    rw [scanRequired]
    rcases Nat.lt_or_ge i L.length with hlt | hge
    · obtain ⟨r, h1, h2⟩ := hc i hlt
      rw [h1]
      simp only
      rw [scanDependencies_closed s _ L h2]
      exact scanRequired_closed s fuel (i + 1) L hc hlt (by omega)
    · have : L.get? i = none := by
        rw [List.get?_eq_getElem?]; exact List.getElem?_eq_none_iff.2 hge
      rw [this]

theorem whileLoop_two (s : State) (scanFuel fuel : Nat) (L L1 : List Value)
    (h1 : scanRequired s scanFuel 0 L = Except.ok L1)
    (hc : ClosedBelow s L1.length L1) (hf : L1.length < scanFuel) :
    whileLoop s scanFuel (fuel + 2) L = Except.ok L1 := by
  have h2 : scanRequired s scanFuel 0 L1 = Except.ok L1 :=
    scanRequired_closed s scanFuel 0 L1 hc (Nat.zero_le _) (by omega)
  rw [whileLoop]
  simp only [h1]
  by_cases hlen : L.length = L1.length
  · simp [hlen]
  · rw [if_neg hlen, whileLoop]
    simp [h2]

/-! ## The required components -/

theorem getById_of_components {s1 s : State} (h : s1.components = s.components) (d : String) :
    getById s1 d = getById s d := by
  simp [getById, State.lookup, h]

theorem getById_object {s : State} {d : String} {r : Ref} (h : getById s d = Value.object r) :
    (d, r) ∈ s.components := by
  unfold getById at h
  cases hl : s.lookup d with
  | none =>
    rw [hl] at h
    by_cases hk : d ∈ objectPrototypeKeys <;> simp [hk] at h
  | some r2 =>
    rw [hl] at h
    simp only [Value.object.injEq] at h
    subst h
    unfold State.lookup at hl
    cases hf : s.components.find? (fun p => p.1 == d) with
    | none => rw [hf] at hl; simp at hl
    | some p =>
      rw [hf] at hl
      simp only [Option.map_some', Option.some.injEq] at hl
      have h1 := List.find?_some hf
      have h2 := List.mem_of_find?_eq_some hf
      simp only [beq_iff_eq] at h1
      rw [← hl, ← h1]
      exact h2

theorem getById_registered {s : State} {d : String} {r : Ref}
    (h : getById s d = Value.object r) : s.Registered r :=
  List.mem_map.2 ⟨(d, r), getById_object h, rfl⟩

theorem getById_of_isSome {s : State} {d : String} (h : (s.lookup d).isSome = true) :
    ∃ r, getById s d = Value.object r := by
  cases hl : s.lookup d with
  | none => rw [hl] at h; simp at h
  | some r => exact ⟨r, by simp [getById, hl]⟩

/-- The state after the first loop and the array it has built. -/
theorem getRequiredComponents_state (name : String) (s : State) :
    (getRequiredComponents name s).1 = (seedRequired (getAll name false s) s []).1 := rfl

theorem getAll_base (s : State) :
    getAll "Component" false s = (s.components.map (fun p => Value.object p.2)).reverse := by
  simp [getAll]

/-- On a well-formed registry whose dependencies all resolve, the call on the
base class returns the array `L` that the first scan of the seeds produces; it
has no duplicates, holds only registered components that are required, and
holds all of these. -/
theorem getRequiredComponents_ok (s : State) (hwf : s.WF) (hres : s.AllResolve) :
    ∃ L, (getRequiredComponents "Component" s).2 = Except.ok L ∧ L.Nodup ∧
      (∀ v ∈ L, ∃ r, v = Value.object r ∧ s.Registered r ∧ Required s r) ∧
      (∀ r, Required s r → Value.object r ∈ L) ∧
      scanRequired (getRequiredComponents "Component" s).1 (2 * s.components.length + 2) 0
        ((getAll "Component" false s).filter (enabledValue s)) = Except.ok L := by
  obtain ⟨hcomp, hseed, hderef⟩ := seedRequired_spec (getAll "Component" false s) s []
  rw [List.nil_append] at hseed
  have hst := getRequiredComponents_state "Component" s
  rw [← hst] at hcomp hderef
  have hdeps : ∀ r, ((getRequiredComponents "Component" s).1.deref r).dependencies
      = (s.deref r).dependencies := fun r => by rw [hderef r]
  have hget : ∀ d, getById (getRequiredComponents "Component" s).1 d = getById s d :=
    getById_of_components hcomp
  have hstep : ∀ r d, s.Registered r → d ∈ (s.deref r).dependencies →
      ∃ r2, getById s d = Value.object r2 := by
    intro r d hr hd
    obtain ⟨p, hp, rfl⟩ := List.mem_map.1 hr
    exact getById_of_isSome (hres p hp d hd)
  have hL0 : ∀ v ∈ (getAll "Component" false s).filter (enabledValue s),
      ∃ r, v = Value.object r ∧ s.Registered r ∧ Required s r := by
    intro v hv
    rw [List.mem_filter, getAll_base, List.mem_reverse, List.mem_map] at hv
    obtain ⟨⟨p, hp, rfl⟩, hen⟩ := hv
    have hreg : s.Registered p.2 := List.mem_map.2 ⟨p, hp, rfl⟩
    exact ⟨p.2, rfl, hreg, p.2, hreg, hen, Relation.ReflTransGen.refl⟩
  have hP : ∀ r d, (∃ r1, Value.object r = Value.object r1 ∧ s.Registered r1 ∧ Required s r1) →
      d ∈ ((getRequiredComponents "Component" s).1.deref r).dependencies →
      ∃ r2, getById (getRequiredComponents "Component" s).1 d = Value.object r2 ∧
        s.Registered r2 ∧ Required s r2 := by
    intro r d hr hd
    obtain ⟨r1, e, hreg, r0, h0, hen, hpath⟩ := hr
    simp only [Value.object.injEq] at e
    subst e
    rw [hdeps] at hd
    rw [hget]
    obtain ⟨r2, h2⟩ := hstep r d hreg hd
    exact ⟨r2, h2, getById_registered h2, r0, h0, hen, hpath.tail ⟨d, hd, h2⟩⟩
  have hnd0 : ((getAll "Component" false s).filter (enabledValue s)).Nodup := by
    apply List.Nodup.filter
    rw [getAll_base, List.nodup_reverse]
    have : (s.components.map (fun p => Value.object p.2))
        = (s.components.map Prod.snd).map Value.object := by simp
    rw [this]
    exact hwf.2.1.map (fun a b h => by simpa using h)
  have hsub : ∀ L : List Value, (∀ v ∈ L, ∃ r, v = Value.object r ∧ s.Registered r ∧ Required s r) →
      L ⊆ s.components.map (fun p => Value.object p.2) := by
    intro L hL v hv
    obtain ⟨r, rfl, hreg, _⟩ := hL v hv
    obtain ⟨p, hp, rfl⟩ := List.mem_map.1 hreg
    exact List.mem_map.2 ⟨p, hp, rfl⟩
  obtain ⟨L, hscan⟩ := scanRequired_returns (getRequiredComponents "Component" s).1
    (s.components.map (fun p => Value.object p.2))
    (fun v hv => by obtain ⟨p, _, rfl⟩ := List.mem_map.1 hv; exact ⟨p.2, rfl⟩)
    (fun r hr d hd => by
      obtain ⟨p, hp, e⟩ := List.mem_map.1 hr
      simp only [Value.object.injEq] at e
      subst e
      rw [hdeps] at hd
      rw [hget]
      obtain ⟨r2, h2⟩ := hstep p.2 d (List.mem_map.2 ⟨p, hp, rfl⟩) hd
      rw [h2]
      exact List.mem_map.2 ⟨(d, r2), getById_object h2, rfl⟩)
    (2 * s.components.length + 2) 0 _ hnd0 (hsub _ hL0) (Nat.zero_le _) (by simp; omega)
  obtain ⟨⟨ext, hext⟩, hnd, hinv, hclosed⟩ := scanRequired_ok (getRequiredComponents "Component" s).1
    (fun v => ∃ r, v = Value.object r ∧ s.Registered r ∧ Required s r)
    (fun r d h1 h2 => by
      obtain ⟨r2, e, h⟩ := hP r d h1 h2
      exact ⟨r2, e, h⟩) _ _ _ _ hscan
  have hinv := hinv hL0
  have hnd := hnd hnd0
  have hclosed := hclosed (fun j hj => absurd hj (Nat.not_lt_zero _))
  have hlen : L.length ≤ s.components.length := by
    simpa using (hnd.subperm (hsub L hinv)).length_le
  have hwhile : (getRequiredComponents "Component" s).2 = Except.ok L := by
    show whileLoop (seedRequired (getAll "Component" false s) s []).1 _ _
      (seedRequired (getAll "Component" false s) s []).2 = _
    rw [hseed, ← hst]
    exact whileLoop_two _ _ _ _ _ hscan hclosed (by omega)
  refine ⟨L, hwhile, hnd, hinv, ?_, hscan⟩
  intro r hr
  obtain ⟨r0, h0, hen, hpath⟩ := hr
  induction hpath with
  | refl =>
    rw [hext]
    apply List.mem_append_left
    rw [List.mem_filter, getAll_base, List.mem_reverse]
    obtain ⟨p, hp, rfl⟩ := List.mem_map.1 h0
    exact ⟨List.mem_map.2 ⟨p, hp, rfl⟩, hen⟩
  | tail _ hedge ih =>
    obtain ⟨d, hd, hgd⟩ := hedge
    obtain ⟨j, hj⟩ := List.getElem?_of_mem ih
    have hjl : j < L.length := (List.getElem?_eq_some_iff.1 hj).1
    obtain ⟨r3, h3, h4⟩ := hclosed j hjl
    rw [List.get?_eq_getElem?, hj] at h3
    simp only [Option.some.injEq, Value.object.injEq] at h3
    subst h3
    rw [← hgd, ← hget]
    exact h4 d (by rw [hdeps]; exact hd)

/-! ## Claims about the registry and the resolver -/

/-- C1: on a registry whose declared dependencies all resolve,
`getRequiredComponents` returns an array that holds every component reachable
through zero or more dependency edges from an enabled component, and holds no
value twice. -/
theorem getRequiredComponents_complete (s : State) (hwf : s.WF) (hres : s.AllResolve) :
    ∃ L, (getRequiredComponents "Component" s).2 = Except.ok L ∧
      (∀ r, Required s r → Value.object r ∈ L) ∧ L.Nodup := by
  obtain ⟨L, h1, h2, _, h4, _⟩ := getRequiredComponents_ok s hwf hres
  exact ⟨L, h1, h4, h2⟩

/-- C1 on the scenario A, B depending on A, C depending on B, only C enabled:
the array is C, B, A. -/
theorem getRequiredComponents_complete_witness :
    chain.WF ∧ chain.AllResolve ∧
      (getRequiredComponents "Component" chain).2 =
        Except.ok [Value.object 2, Value.object 1, Value.object 0] ∧
      ∃ L, (getRequiredComponents "Component" chain).2 = Except.ok L ∧
        (∀ r, Required chain r → Value.object r ∈ L) ∧ L.Nodup :=
  ⟨by decide, by decide, by decide,
    getRequiredComponents_complete chain (by decide) (by decide)⟩

/-- C2: with the enabled component D depending on the unregistered identifier
`ghost`, `getRequiredComponents` pushes `undefined`, visits it in the same
scan and throws a `TypeError` instead of returning D alone. -/
theorem getRequiredComponents_ghost_throws :
    ghost.WF ∧ getById ghost "ghost" = Value.undefined ∧
      (getRequiredComponents "Component" ghost).2 = Except.error Failure.typeError := by
  decide

/-- C3, as the code behaves: the second of two constructor calls that compute
the same identifier replaces the first instance in the table. -/
theorem construct_duplicate_replaces :
    getById (registerAll allEnabled (clashArgs.take 1) State.empty).1 "Tool.a" = Value.object 0 ∧
      getById (registerAll allEnabled clashArgs State.empty).1 "Tool.a" = Value.object 1 ∧
      ((registerAll allEnabled clashArgs State.empty).1.deref 1).display_name = "Second" ∧
      (registerAll allEnabled clashArgs State.empty).1.components ≠
        (registerAll allEnabled (clashArgs.take 1) State.empty).1.components := by
  decide

/-- C3 amended: constructing a component whose identifier is already a key of
the table never fails; the key keeps its position, the keys are unchanged, and
`getById` then returns the new instance, which is not the one stored before;
the instance stored before is left as it was. -/
theorem construct_replaces (settings : String → Bool) (kind display_name slug icon hotkey : String)
    (dependencies : List String) (s : State) (first : Ref)
    (hfirst : getById s (kind ++ "." ++ slug) = Value.object first)
    (hvalid : first < s.heap.length) :
    getById (construct settings kind display_name slug icon hotkey dependencies s).1
        (kind ++ "." ++ slug) =
      Value.object (construct settings kind display_name slug icon hotkey dependencies s).2 ∧
    (construct settings kind display_name slug icon hotkey dependencies s).2 ≠ first ∧
    (construct settings kind display_name slug icon hotkey dependencies s).1.deref
        (construct settings kind display_name slug icon hotkey dependencies s).2 =
      instantiate settings kind display_name slug icon hotkey dependencies ∧
    (construct settings kind display_name slug icon hotkey dependencies s).1.components.map Prod.fst
      = s.components.map Prod.fst ∧
    (construct settings kind display_name slug icon hotkey dependencies s).1.deref first
      = s.deref first := by
  have hmem : (kind ++ "." ++ slug) ∈ s.components.map Prod.fst :=
    List.mem_map.2 ⟨_, getById_object hfirst, rfl⟩
  refine ⟨?_, ?_, ?_, ?_, ?_⟩
  · simp only [getById, State.lookup, construct, instantiate]
    rw [lookup_setProperty_self]
  · exact (Nat.ne_of_lt hvalid).symm
  · simp [construct, State.deref, List.getD_eq_getElem?_getD]
  · exact setProperty_keys_of_mem _ _ _ hmem
  · simp [construct, State.deref, List.getD_eq_getElem?_getD, List.getElem?_append_left hvalid]

/-- C3 amended, on the registry that holds `Tool.a`. -/
theorem construct_replaces_witness :
    getById (registerAll allEnabled (clashArgs.take 1) State.empty).1 ("Tool" ++ "." ++ "a")
        = Value.object 0 ∧
      getById (construct allEnabled "Tool" "Second" "a" "β" "Alt+B" []
        (registerAll allEnabled (clashArgs.take 1) State.empty).1).1 ("Tool" ++ "." ++ "a") =
      Value.object (construct allEnabled "Tool" "Second" "a" "β" "Alt+B" []
        (registerAll allEnabled (clashArgs.take 1) State.empty).1).2 :=
  ⟨by decide,
    (construct_replaces allEnabled "Tool" "Second" "a" "β" "Alt+B" []
      (registerAll allEnabled (clashArgs.take 1) State.empty).1 0 (by decide) (by decide)).1⟩

theorem whileLoop_inv (s : State) (P : Value → Prop)
    (hP : ∀ r d, P (Value.object r) → d ∈ (s.deref r).dependencies → P (getById s d))
    (scanFuel : Nat) :
    ∀ (fuel : Nat) (L L2 : List Value), whileLoop s scanFuel fuel L = Except.ok L2 →
      (∀ v ∈ L, P v) → ∀ v ∈ L2, P v
  | 0, L, L2, h, _ => by simp [whileLoop] at h
  | fuel + 1, L, L2, h, hL => by
    rw [whileLoop] at h
    cases hs : scanRequired s scanFuel 0 L with
    | error e => rw [hs] at h; simp at h
    | ok L1 =>
      rw [hs] at h
      simp only at h
      have h1 := (scanRequired_ok s P hP scanFuel 0 L L1 hs).2.2.1 hL
      by_cases hlen : L.length = L1.length
      · rw [if_pos hlen] at h
        simp only [Except.ok.injEq] at h
        subst h
        exact h1
      · rw [if_neg hlen] at h
        exact whileLoop_inv s P hP scanFuel fuel L1 L2 h h1

/-- C8: after `getRequiredComponents`, whether it returned or threw, every
registered component with `displayed` true has `enabled` true; the call
changes no `enabled` flag and no `displayed` flag of an enabled component; and
a component of the returned array that is not enabled has `displayed` false. -/
theorem displayed_only_if_enabled (s : State) :
    (∀ p ∈ (getRequiredComponents "Component" s).1.components,
      ((getRequiredComponents "Component" s).1.deref p.2).displayed = true →
      ((getRequiredComponents "Component" s).1.deref p.2).enabled = true) ∧
    (∀ r, ((getRequiredComponents "Component" s).1.deref r).enabled = (s.deref r).enabled) ∧
    (∀ r, (s.deref r).enabled = true →
      ((getRequiredComponents "Component" s).1.deref r).displayed = (s.deref r).displayed) ∧
    (∀ L, (getRequiredComponents "Component" s).2 = Except.ok L →
      ∀ r, Value.object r ∈ L → (s.deref r).enabled = false →
        ((getRequiredComponents "Component" s).1.deref r).displayed = false) := by
  obtain ⟨hcomp, hseed, hderef⟩ := seedRequired_spec (getAll "Component" false s) s []
  rw [List.nil_append] at hseed
  have hst := getRequiredComponents_state "Component" s
  rw [← hst] at hcomp hderef
  have hreg : ∀ r, s.Registered r → (s.deref r).enabled = false →
      ((getRequiredComponents "Component" s).1.deref r).displayed = false := by
    intro r hr he
    obtain ⟨p, hp, rfl⟩ := List.mem_map.1 hr
    rw [hderef]
    have : Value.object p.2 ∈ getAll "Component" false s := by
      rw [getAll_base, List.mem_reverse]
      exact List.mem_map.2 ⟨p, hp, rfl⟩
    simp [displayedAfter, he, this]
  refine ⟨?_, fun r => by rw [hderef], ?_, ?_⟩
  · intro p hp hd
    rw [hcomp] at hp
    by_contra hne
    have he : (s.deref p.2).enabled = false := by
      rw [hderef] at hne; simpa using hne
    rw [hreg p.2 (List.mem_map.2 ⟨p, hp, rfl⟩) he] at hd
    exact Bool.false_ne_true hd
  · intro r he
    rw [hderef]
    simp [displayedAfter, he]
  · intro L hL r hr he
    apply hreg r _ he
    have hw : whileLoop (getRequiredComponents "Component" s).1 (2 * s.components.length + 2)
        (s.components.length + 2) ((getAll "Component" false s).filter (enabledValue s))
        = Except.ok L := by
      rw [← hL, ← hseed]; rfl
    have := whileLoop_inv (getRequiredComponents "Component" s).1
      (fun v => ∀ r, v = Value.object r → s.Registered r)
      (fun r1 d _ _ r2 h2 => by
        have := getById_registered h2
        unfold State.Registered at this ⊢
        rw [hcomp] at this
        exact this) _ _ _ _ hw
      (fun v hv r2 e => by
        subst e
        rw [List.mem_filter, getAll_base, List.mem_reverse] at hv
        obtain ⟨p, hp, e⟩ := List.mem_map.1 hv.1
        simp only [Value.object.injEq] at e
        subst e
        exact List.mem_map.2 ⟨p, hp, rfl⟩)
    exact this _ hr r rfl

/-- C9 on the three tools A, B, C: the base class lists them as C, B, A. -/
theorem getAll_base_reverse_registration_witness :
    (chainArgs.map Args.id).Nodup ∧
      getAll "Component" false (registerAll onlyC chainArgs State.empty).1 =
        ((registerAll onlyC chainArgs State.empty).2.map Value.object).reverse ∧
      getAll "Component" true (registerAll onlyC chainArgs State.empty).1 =
        [Value.string "Tool.c", Value.string "Tool.b", Value.string "Tool.a"] :=
  ⟨by decide, (getAll_base_reverse_registration onlyC chainArgs (by decide)).1, by decide⟩

/-- C10: on the three tools A, B, C registered in that order, `getAll` called
on the subclass `Tool` returns A, B, C, the oldest first, while the base class
returns C, B, A. -/
theorem getAll_subclass_registration_order :
    (chainArgs.map Args.id).Nodup ∧
      getAll "Tool" false chain = [Value.object 0, Value.object 1, Value.object 2] ∧
      getAll "Tool" true chain =
        [Value.string "Tool.a", Value.string "Tool.b", Value.string "Tool.c"] ∧
      getAll "Component" false chain = [Value.object 2, Value.object 1, Value.object 0] := by
  decide

/-! ## The readiness wait -/

theorem ReadyPromise.resolve_resolve (w : ReadyPromise) : w.resolve.resolve = w.resolve := by
  cases w with
  | mk this state completions => cases state <;> rfl

theorem ReadyPromise.resolve_this (w : ReadyPromise) : w.resolve.this = w.this := by
  cases w with
  | mk this state completions => cases state <;> rfl

theorem ReadyPromise.resolve_state (w : ReadyPromise) :
    w.resolve.state = PromiseState.fulfilled := by
  cases w with
  | mk this state completions => cases state <;> rfl

theorem foldl_resolve_getElem? :
    ∀ (ls : List (String × Nat)) (ps : List ReadyPromise) (p : Nat),
      (ls.foldl (fun promises l => resolvePromise l.2 promises) ps)[p]? =
        (ps[p]?).map (fun w => if p ∈ ls.map Prod.snd then w.resolve else w)
  | [], ps, p => by simp
  | l :: ls, ps, p => by
    rw [List.foldl_cons, foldl_resolve_getElem? ls, resolvePromise, List.getElem?_modify]
    cases hp : ps[p]? with
    | none => simp
    | some w =>
      by_cases h1 : l.2 = p <;> by_cases h2 : p ∈ ls.map Prod.snd
      · have h3 : ∃ a, (a, p) ∈ ls := by simpa using h2
        simp [h1, h3, ReadyPromise.resolve_resolve]
      · have h3 : ¬ ∃ a, (a, p) ∈ ls := by simpa using h2
        simp [h1, h3]
      · have h3 : ∃ a, (a, p) ∈ ls := by simpa using h2
        have h4 : ¬ p = l.2 := fun e => h1 e.symm
        simp [h1, h3, h4]
      · have h3 : ¬ ∃ a, (a, p) ∈ ls := by simpa using h2
        have h4 : ¬ p = l.2 := fun e => h1 e.symm
        simp [h1, h3, h4]

/-- What `dispatchEvent` does to each promise: it is resolved exactly when a
listener for the type refers to it. -/
theorem dispatchEvent_promise (type : String) (rt : Runtime) (p : Nat) :
    (dispatchEvent type rt).promises[p]? =
      (rt.promises[p]?).map (fun w => if (type, p) ∈ rt.listeners then w.resolve else w) := by
  simp only [dispatchEvent, foldl_resolve_getElem?]
  have : (p ∈ (rt.listeners.filter (fun l => l.1 == type)).map Prod.snd) ↔
      (type, p) ∈ rt.listeners := by
    simp only [List.mem_map, List.mem_filter, beq_iff_eq]
    constructor
    · rintro ⟨⟨a, b⟩, ⟨h1, h2⟩, h3⟩
      simp only at h2 h3
      subst h2; subst h3; exact h1
    · intro h; exact ⟨(type, p), ⟨h, rfl⟩, rfl⟩
  simp only [this]

theorem waitForComponentReady_snd (this : Ref) (rt : Runtime) :
    (Component.prototype.waitForComponentReady this rt).2 = rt.promises.length := by
  unfold Component.prototype.waitForComponentReady
  split <;> rfl

theorem waitForComponentReady_of_ready (this : Ref) (rt : Runtime)
    (h : (rt.reg.deref this).is_ready = true) :
    Component.prototype.waitForComponentReady this rt =
      ({ rt with promises := rt.promises ++ [⟨this, PromiseState.fulfilled, 1⟩] },
        rt.promises.length) := by
  simp [Component.prototype.waitForComponentReady, h]

theorem waitForComponentReady_of_not_ready (this : Ref) (rt : Runtime)
    (h : (rt.reg.deref this).is_ready = false) :
    Component.prototype.waitForComponentReady this rt =
      ({ rt with
          promises := rt.promises ++ [⟨this, PromiseState.pending, 0⟩]
          listeners := rt.listeners ++ [((rt.reg.deref this).id ++ "-ready", rt.promises.length)] },
        rt.promises.length) := by
  simp [Component.prototype.waitForComponentReady, h]

theorem getElem?_append_two_left {α : Type} (l : List α) (a b : α) :
    (l ++ [a] ++ [b])[l.length]? = some a := by
  induction l with
  | nil => rfl
  | cons x l ih => simpa using ih

theorem getElem?_append_two_right {α : Type} (l : List α) (a b : α) :
    (l ++ [a] ++ [b])[l.length + 1]? = some b := by
  induction l with
  | nil => rfl
  | cons x l ih => simpa using ih

/-- C6: `waitForComponentReady` on a component that is ready returns a
fulfilled promise and adds no listener; on a component that is not ready it
adds one listener on `<id>-ready` and returns a pending promise, which the
dispatch of that event settles once, a second dispatch leaving it settled
once; and two calls before readiness give two distinct pending promises with
one listener each, both settled by one dispatch. -/
theorem waitForComponentReady_completes (rt : Runtime) (this : Ref) :
    ((rt.reg.deref this).is_ready = true →
      (Component.prototype.waitForComponentReady this rt).1.listeners = rt.listeners ∧
      (Component.prototype.waitForComponentReady this rt).1.promises[
          (Component.prototype.waitForComponentReady this rt).2]? =
        some ⟨this, PromiseState.fulfilled, 1⟩) ∧
    ((rt.reg.deref this).is_ready = false →
      (Component.prototype.waitForComponentReady this rt).1.listeners =
        rt.listeners ++ [((rt.reg.deref this).id ++ "-ready",
          (Component.prototype.waitForComponentReady this rt).2)] ∧
      (Component.prototype.waitForComponentReady this rt).1.promises[
          (Component.prototype.waitForComponentReady this rt).2]? =
        some ⟨this, PromiseState.pending, 0⟩ ∧
      (dispatchEvent ((rt.reg.deref this).id ++ "-ready")
          (Component.prototype.waitForComponentReady this rt).1).promises[
          (Component.prototype.waitForComponentReady this rt).2]? =
        some ⟨this, PromiseState.fulfilled, 1⟩ ∧
      (dispatchEvent ((rt.reg.deref this).id ++ "-ready")
          (dispatchEvent ((rt.reg.deref this).id ++ "-ready")
            (Component.prototype.waitForComponentReady this rt).1)).promises[
          (Component.prototype.waitForComponentReady this rt).2]? =
        some ⟨this, PromiseState.fulfilled, 1⟩) ∧
    ((rt.reg.deref this).is_ready = false →
      ∀ first second, first = Component.prototype.waitForComponentReady this rt →
        second = Component.prototype.waitForComponentReady this first.1 →
        first.2 ≠ second.2 ∧
        second.1.listeners = rt.listeners ++
          [((rt.reg.deref this).id ++ "-ready", first.2),
           ((rt.reg.deref this).id ++ "-ready", second.2)] ∧
        second.1.promises[first.2]? = some ⟨this, PromiseState.pending, 0⟩ ∧
        second.1.promises[second.2]? = some ⟨this, PromiseState.pending, 0⟩ ∧
        (dispatchEvent ((rt.reg.deref this).id ++ "-ready") second.1).promises[first.2]? =
          some ⟨this, PromiseState.fulfilled, 1⟩ ∧
        (dispatchEvent ((rt.reg.deref this).id ++ "-ready") second.1).promises[second.2]? =
          some ⟨this, PromiseState.fulfilled, 1⟩) := by
  refine ⟨?_, ?_, ?_⟩
  · intro h
    rw [waitForComponentReady_of_ready this rt h]
    simp
  · intro h
    rw [waitForComponentReady_of_not_ready this rt h]
    simp only [dispatchEvent_promise]
    simp [dispatchEvent, ReadyPromise.resolve]
  · intro h first second h1 h2
    rw [waitForComponentReady_of_not_ready this rt h] at h1
    have h3 : (first.1.reg.deref this).is_ready = false := by rw [h1]; exact h
    rw [waitForComponentReady_of_not_ready this first.1 h3] at h2
    subst h2
    subst h1
    simp only [dispatchEvent_promise, List.length_append,
      List.length_singleton, getElem?_append_two_left, getElem?_append_two_right]
    simp [ReadyPromise.resolve]

/-! ## The invariant of the lifecycle -/

theorem State.WF.modify_wf {s : State} (hwf : s.WF) (r : Ref) (f : Component → Component)
    (hf : ∀ c, (f c).id = c.id) : (s.modify r f).WF := by
  obtain ⟨h1, h2, h3, h4⟩ := hwf
  refine ⟨h1, h2, ?_, ?_⟩
  · intro p hp
    simpa [State.modify] using h3 p hp
  · intro p hp
    rw [State.deref_modify]
    split
    · rw [hf]; exact h4 p hp
    · exact h4 p hp

theorem State.deref_setReady (s : State) (r r2 : Ref) :
    (s.setReady r true).deref r2 =
      if r = r2 ∧ r < s.heap.length then { s.deref r2 with is_ready := true } else s.deref r2 :=
  State.deref_modify s r _ r2

theorem State.deref_setButton (s : State) (r r2 : Ref) :
    (s.setButton r).deref r2 =
      if r = r2 ∧ r < s.heap.length then { s.deref r2 with button := true } else s.deref r2 :=
  State.deref_modify s r _ r2

theorem State.WF.valid {s : State} (hwf : s.WF) {r : Ref} (hr : s.Registered r) :
    r < s.heap.length := by
  obtain ⟨p, hp, rfl⟩ := List.mem_map.1 hr
  exact hwf.2.2.1 p hp

/-- Two registered instances with the same `id` are the same instance. -/
theorem State.WF.id_injective {s : State} (hwf : s.WF) {r1 r2 : Ref} (h1 : s.Registered r1)
    (h2 : s.Registered r2) (h : (s.deref r1).id = (s.deref r2).id) : r1 = r2 := by
  obtain ⟨p, hp, rfl⟩ := List.mem_map.1 h1
  obtain ⟨q, hq, rfl⟩ := List.mem_map.1 h2
  rw [hwf.2.2.2 p hp, hwf.2.2.2 q hq] at h
  have := List.inj_on_of_nodup_map hwf.1 hp hq h
  rw [this]

theorem append_ready_cancel {a b : String} (h : a ++ "-ready" = b ++ "-ready") : a = b := by
  have := congrArg String.data h
  simp only [String.data_append] at this
  exact String.ext (List.append_cancel_right this)

theorem Inv.waitForComponentReady {rt : Runtime} (h : Inv rt) {r : Ref}
    (hr : rt.reg.Registered r) : Inv (Component.prototype.waitForComponentReady r rt).1 := by
  have hget : ∀ (x : ReadyPromise) (p : Nat) (w : ReadyPromise), rt.promises[p]? = some w →
      (rt.promises ++ [x])[p]? = some w := by
    intro x p w hp
    rw [List.getElem?_append_left (List.getElem?_eq_some_iff.1 hp).1]; exact hp
  have hcover : ∀ x : ReadyPromise, ∀ t ∈ rt.inits, t.phase = Phase.rejected ∨
      ∀ d ∈ (rt.reg.deref t.this).dependencies, ∀ r, getById rt.reg d = Value.object r →
        ∃ p ∈ t.waits, ∃ w, (rt.promises ++ [x])[p]? = some w ∧ w.this = r := by
    intro x t ht
    rcases h.waits_cover t ht with h1 | h1
    · exact Or.inl h1
    · refine Or.inr (fun d hd r2 h2 => ?_)
      obtain ⟨p, hp, w, hw, e⟩ := h1 d hd r2 h2
      exact ⟨p, hp, w, hget x p w hw, e⟩
  have hlis : ∀ x : ReadyPromise, ∀ l ∈ rt.listeners, ∃ w, (rt.promises ++ [x])[l.2]? = some w ∧
      l.1 = (rt.reg.deref w.this).id ++ "-ready" := by
    intro x l hl
    obtain ⟨w, hw, e⟩ := h.listener_name l hl
    exact ⟨w, hget x _ w hw, e⟩
  by_cases hready : (rt.reg.deref r).is_ready = true
  · rw [waitForComponentReady_of_ready r rt hready]
    exact {
      wf := h.wf
      promise_registered := by
        intro w hw
        rcases List.mem_append.1 hw with hw | hw
        · exact h.promise_registered w hw
        · rw [List.mem_singleton.1 hw]; exact hr
      init_registered := h.init_registered
      fulfilled_ready := by
        intro w hw hs
        rcases List.mem_append.1 hw with hw | hw
        · exact h.fulfilled_ready w hw hs
        · rw [List.mem_singleton.1 hw]; exact hready
      listener_name := hlis _
      ready_broadcast := h.ready_broadcast
      waits_cover := hcover _
      past_deps := h.past_deps
      button_past := h.button_past
      broadcast_past := h.broadcast_past
      done_ready := h.done_ready
      hotkeys_resolved := h.hotkeys_resolved }
  · have hnot : (rt.reg.deref r).is_ready = false := by simpa using hready
    rw [waitForComponentReady_of_not_ready r rt hnot]
    exact {
      wf := h.wf
      promise_registered := by
        intro w hw
        rcases List.mem_append.1 hw with hw | hw
        · exact h.promise_registered w hw
        · rw [List.mem_singleton.1 hw]; exact hr
      init_registered := h.init_registered
      fulfilled_ready := by
        intro w hw hs
        rcases List.mem_append.1 hw with hw | hw
        · exact h.fulfilled_ready w hw hs
        · rw [List.mem_singleton.1 hw] at hs; cases hs
      listener_name := by
        intro l hl
        rcases List.mem_append.1 hl with hl | hl
        · exact hlis _ l hl
        · rw [List.mem_singleton.1 hl]
          exact ⟨⟨r, PromiseState.pending, 0⟩, by simp, rfl⟩
      ready_broadcast := h.ready_broadcast
      waits_cover := hcover _
      past_deps := h.past_deps
      button_past := h.button_past
      broadcast_past := h.broadcast_past
      done_ready := h.done_ready
      hotkeys_resolved := h.hotkeys_resolved }

theorem waitForComponentReady_frame (r : Ref) (rt : Runtime) :
    (Component.prototype.waitForComponentReady r rt).1.reg = rt.reg ∧
    (Component.prototype.waitForComponentReady r rt).1.inits = rt.inits ∧
    (Component.prototype.waitForComponentReady r rt).1.hotkeys = rt.hotkeys ∧
    (Component.prototype.waitForComponentReady r rt).1.required = rt.required ∧
    (Component.prototype.waitForComponentReady r rt).1.batch = rt.batch ∧
    (Component.prototype.waitForComponentReady r rt).1.broadcasts = rt.broadcasts ∧
    (Component.prototype.waitForComponentReady r rt).1.promises[
        (Component.prototype.waitForComponentReady r rt).2]?.map ReadyPromise.this = some r := by
  unfold Component.prototype.waitForComponentReady
  split <;> simp

theorem trigger_frame (r : Ref) (hook : Option String) (rt : Runtime) :
    (Component.prototype.trigger r hook rt).reg = rt.reg ∧
    (Component.prototype.trigger r hook rt).inits = rt.inits ∧
    (Component.prototype.trigger r hook rt).hotkeys = rt.hotkeys ∧
    (Component.prototype.trigger r hook rt).required = rt.required ∧
    (Component.prototype.trigger r hook rt).batch = rt.batch := by
  unfold Component.prototype.trigger
  have hw := waitForComponentReady_frame r rt
  split
  · cases hook <;> simp
  · simp [hw.1, hw.2.1, hw.2.2.1, hw.2.2.2.1, hw.2.2.2.2.1]

theorem Inv.trigger {rt : Runtime} (h : Inv rt) {r : Ref} (hr : rt.reg.Registered r)
    (hook : Option String) : Inv (Component.prototype.trigger r hook rt) := by
  unfold Component.prototype.trigger
  split
  · cases hook <;> exact h
  · exact Inv.waitForComponentReady h hr

theorem handleHotkeysMessages_loop_spec (name : String) (hook : Ref → Option String) :
    ∀ (l : List Value) (rt : Runtime), Inv rt →
      (∀ r, Value.object r ∈ l → rt.reg.Registered r) →
      Inv (Component.handleHotkeysMessages.loop name hook l rt) ∧
      (Component.handleHotkeysMessages.loop name hook l rt).reg = rt.reg ∧
      (Component.handleHotkeysMessages.loop name hook l rt).inits = rt.inits ∧
      (Component.handleHotkeysMessages.loop name hook l rt).hotkeys = rt.hotkeys ∧
      (Component.handleHotkeysMessages.loop name hook l rt).required = rt.required ∧
      (Component.handleHotkeysMessages.loop name hook l rt).batch = rt.batch
  | [], rt, h, _ => ⟨h, rfl, rfl, rfl, rfl, rfl⟩
  | Value.undefined :: l, rt, h, hl => by
    simp only [Component.handleHotkeysMessages.loop]
    exact handleHotkeysMessages_loop_spec name hook l rt h
      (fun r hr => hl r (List.mem_cons_of_mem _ hr))
  | Value.string v :: l, rt, h, hl => by
    simp only [Component.handleHotkeysMessages.loop]
    exact handleHotkeysMessages_loop_spec name hook l rt h
      (fun r hr => hl r (List.mem_cons_of_mem _ hr))
  | Value.inherited v :: l, rt, h, hl => by
    simp only [Component.handleHotkeysMessages.loop]
    exact handleHotkeysMessages_loop_spec name hook l rt h
      (fun r hr => hl r (List.mem_cons_of_mem _ hr))
  | Value.object r :: l, rt, h, hl => by
    rw [Component.handleHotkeysMessages.loop]
    split
    · have hf := trigger_frame r (hook r) rt
      have ih := handleHotkeysMessages_loop_spec name hook l
        (Component.prototype.trigger r (hook r) rt)
        (Inv.trigger h (hl r (List.mem_cons_self _ _)) (hook r))
        (fun r2 hr2 => by rw [hf.1]; exact hl r2 (List.mem_cons_of_mem _ hr2))
      rw [hf.1, hf.2.1, hf.2.2.1, hf.2.2.2.1, hf.2.2.2.2] at ih
      exact ih
    · exact handleHotkeysMessages_loop_spec name hook l rt h
        (fun r hr => hl r (List.mem_cons_of_mem _ hr))

theorem getAll_registered (name : String) (ids_only : Bool) (s : State) (r : Ref)
    (h : Value.object r ∈ getAll name ids_only s) : s.Registered r := by
  unfold getAll at h
  split at h
  · split at h
    · rw [List.mem_reverse] at h
      obtain ⟨p, hp, e⟩ := List.mem_map.1 h
      simp only [Value.object.injEq] at e
      exact List.mem_map.2 ⟨p, hp, e⟩
    · rw [List.mem_reverse] at h
      obtain ⟨p, hp, e⟩ := List.mem_map.1 h
      cases e
  · obtain ⟨p, hp, e⟩ := List.mem_map.1 h
    split at e
    · exact getById_registered e
    · cases e

theorem waitForDependencies_loop_object {d : String} {rt : Runtime} {r : Ref}
    (hg : getById rt.reg d = Value.object r) (ds : List String) (acc : List Nat) :
    Component.prototype.waitForDependencies.loop (d :: ds) acc rt =
      Component.prototype.waitForDependencies.loop ds
        (acc ++ [(Component.prototype.waitForComponentReady r rt).2])
        (Component.prototype.waitForComponentReady r rt).1 := by
  rw [Component.prototype.waitForDependencies.loop, hg]

theorem waitForDependencies_loop_undefined {d : String} {rt : Runtime}
    (hg : getById rt.reg d = Value.undefined) (ds : List String) (acc : List Nat) :
    Component.prototype.waitForDependencies.loop (d :: ds) acc rt =
      Component.prototype.waitForDependencies.loop ds acc rt := by
  rw [Component.prototype.waitForDependencies.loop, hg]

theorem waitForDependencies_loop_inherited {d v : String} {rt : Runtime}
    (hg : getById rt.reg d = Value.inherited v) (ds : List String) (acc : List Nat) :
    Component.prototype.waitForDependencies.loop (d :: ds) acc rt =
      (rt, Except.error Failure.typeError) := by
  rw [Component.prototype.waitForDependencies.loop, hg]

theorem getById_ne_string (s : State) (d v : String) : getById s d ≠ Value.string v := by
  unfold getById
  split
  · intro h; cases h
  · split <;> (intro h; cases h)

theorem waitForDependencies_loop_spec :
    ∀ (ds : List String) (acc : List Nat) (rt : Runtime), Inv rt →
      Inv (Component.prototype.waitForDependencies.loop ds acc rt).1 ∧
      (Component.prototype.waitForDependencies.loop ds acc rt).1.reg = rt.reg ∧
      (Component.prototype.waitForDependencies.loop ds acc rt).1.inits = rt.inits ∧
      (Component.prototype.waitForDependencies.loop ds acc rt).1.hotkeys = rt.hotkeys ∧
      (Component.prototype.waitForDependencies.loop ds acc rt).1.required = rt.required ∧
      (Component.prototype.waitForDependencies.loop ds acc rt).1.batch = rt.batch ∧
      (Component.prototype.waitForDependencies.loop ds acc rt).1.broadcasts = rt.broadcasts ∧
      (∀ (p : Nat) (w : ReadyPromise), rt.promises[p]? = some w →
        (Component.prototype.waitForDependencies.loop ds acc rt).1.promises[p]? = some w) ∧
      ∀ L, (Component.prototype.waitForDependencies.loop ds acc rt).2 = Except.ok L →
        (∀ p ∈ acc, p ∈ L) ∧
        ∀ d ∈ ds, ∀ r, getById rt.reg d = Value.object r →
          ∃ p ∈ L, ∃ w, (Component.prototype.waitForDependencies.loop ds acc rt).1.promises[p]?
            = some w ∧ w.this = r
  | [], acc, rt, h => by
    refine ⟨h, rfl, rfl, rfl, rfl, rfl, rfl, fun (p : Nat) (w : ReadyPromise) hp => hp, ?_⟩
    intro L hL
    simp only [Component.prototype.waitForDependencies.loop, Except.ok.injEq] at hL
    subst hL
    exact ⟨fun p hp => hp, fun d hd => absurd hd (List.not_mem_nil _)⟩
  | d :: ds, acc, rt, h => by
    cases hg : getById rt.reg d with
    | undefined =>
      rw [waitForDependencies_loop_undefined hg]
      obtain ⟨i1, i2, i3, i4, i5, i6, i7, i8, i9⟩ := waitForDependencies_loop_spec ds acc rt h
      refine ⟨i1, i2, i3, i4, i5, i6, i7, i8, fun L hL => ⟨(i9 L hL).1, ?_⟩⟩
      intro d2 hd2 r hr
      rcases List.mem_cons.1 hd2 with e | hd2
      · rw [e, hg] at hr; cases hr
      · exact (i9 L hL).2 d2 hd2 r hr
    | inherited v =>
      rw [waitForDependencies_loop_inherited hg]
      exact ⟨h, rfl, rfl, rfl, rfl, rfl, rfl, fun (p : Nat) (w : ReadyPromise) hp => hp,
        fun L hL => by cases hL⟩
    | string v => exact absurd hg (getById_ne_string _ _ _)
    | object r0 =>
      rw [waitForDependencies_loop_object hg]
      have hreg : rt.reg.Registered r0 := getById_registered hg
      obtain ⟨f1, f2, f3, f4, f5, f6, f7⟩ := waitForComponentReady_frame r0 rt
      obtain ⟨i1, i2, i3, i4, i5, i6, i7, i8, i9⟩ := waitForDependencies_loop_spec ds
        (acc ++ [(Component.prototype.waitForComponentReady r0 rt).2])
        (Component.prototype.waitForComponentReady r0 rt).1 (Inv.waitForComponentReady h hreg)
      have hmono : ∀ (p : Nat) (w : ReadyPromise), rt.promises[p]? = some w →
          (Component.prototype.waitForComponentReady r0 rt).1.promises[p]? = some w := by
        intro p w hp
        unfold Component.prototype.waitForComponentReady
        split <;>
          (simp only; rw [List.getElem?_append_left (List.getElem?_eq_some_iff.1 hp).1]; exact hp)
      refine ⟨i1, i2.trans f1, i3.trans f2, i4.trans f3, i5.trans f4, i6.trans f5, i7.trans f6,
        fun p w hp => i8 p w (hmono p w hp), fun L hL => ⟨?_, ?_⟩⟩
      · intro p hp
        exact (i9 L hL).1 p (List.mem_append_left _ hp)
      · intro d2 hd2 r hr
        rcases List.mem_cons.1 hd2 with e | hd2
        · rw [e, hg] at hr
          simp only [Value.object.injEq] at hr
          subst hr
          refine ⟨_, (i9 L hL).1 _ (List.mem_append_right _ (List.mem_singleton_self _)), ?_⟩
          cases hw : (Component.prototype.waitForComponentReady r0 rt).1.promises[
              (Component.prototype.waitForComponentReady r0 rt).2]? with
          | none => rw [hw] at f7; cases f7
          | some w =>
            rw [hw] at f7
            simp only [Option.map_some', Option.some.injEq] at f7
            exact ⟨w, i8 _ w hw, f7⟩
        · rw [← f1] at hr
          exact (i9 L hL).2 d2 hd2 r hr

theorem Good.add_init {reg : State} {promises : List ReadyPromise}
    {listeners : List (String × Nat)} {broadcasts : List Ref} {inits : List InitCall}
    (h : Good reg promises listeners broadcasts inits false) (t : InitCall)
    (hreg : reg.Registered t.this)
    (hcover : t.phase = Phase.rejected ∨
      ∀ d ∈ (reg.deref t.this).dependencies, ∀ r, getById reg d = Value.object r →
        ∃ p ∈ t.waits, ∃ w, promises[p]? = some w ∧ w.this = r)
    (hphase : t.phase = Phase.waiting ∨ t.phase = Phase.rejected) :
    Good reg promises listeners broadcasts (inits ++ [t]) false := by
  have hpast : t.phase.past = false := by
    rcases hphase with e | e <;> rw [e] <;> rfl
  have hmem : ∀ x ∈ inits ++ [t], x ∈ inits ∨ x = t := by
    intro x hx
    rcases List.mem_append.1 hx with hx | hx
    · exact Or.inl hx
    · exact Or.inr (List.mem_singleton.1 hx)
  exact {
    wf := h.wf
    promise_registered := h.promise_registered
    init_registered := by
      intro x hx
      rcases hmem x hx with hx | hx
      · exact h.init_registered x hx
      · rw [hx]; exact hreg
    fulfilled_ready := h.fulfilled_ready
    listener_name := h.listener_name
    ready_broadcast := h.ready_broadcast
    waits_cover := by
      intro x hx
      rcases hmem x hx with hx | hx
      · exact h.waits_cover x hx
      · rw [hx]; exact hcover
    past_deps := by
      intro x hx hp
      rcases hmem x hx with hx | hx
      · exact h.past_deps x hx hp
      · rw [hx, hpast] at hp; cases hp
    button_past := by
      intro r hr
      obtain ⟨x, hx, e⟩ := h.button_past r hr
      exact ⟨x, List.mem_append_left _ hx, e⟩
    broadcast_past := by
      intro r hr
      obtain ⟨x, hx, e⟩ := h.broadcast_past r hr
      exact ⟨x, List.mem_append_left _ hx, e⟩
    done_ready := by
      intro x hx hp
      rcases hmem x hx with hx | hx
      · exact h.done_ready x hx hp
      · rw [hx] at hp
        rcases hphase with e | e <;> rw [e] at hp <;> rcases hp with hp | hp <;> cases hp
    hotkeys_resolved := by intro hk; cases hk }

theorem prototype_init_spec (r : Ref) (rt : Runtime) (h : Inv rt) (hk : rt.hotkeys = false)
    (hr : rt.reg.Registered r) :
    Inv (Component.prototype.init r rt) ∧
    (Component.prototype.init r rt).reg = rt.reg ∧
    (Component.prototype.init r rt).hotkeys = false ∧
    (Component.prototype.init r rt).required = rt.required ∧
    (Component.prototype.init r rt).batch = rt.batch ∧
    (Component.prototype.init r rt).inits.map InitCall.this = rt.inits.map InitCall.this ++ [r] := by
  obtain ⟨i1, i2, i3, i4, i5, i6, _, _, i9⟩ :=
    waitForDependencies_loop_spec (rt.reg.deref r).dependencies [] rt h
  unfold Inv at i1
  rw [i2, i3, i4, hk] at i1
  unfold Component.prototype.init
  simp only [Component.prototype.waitForDependencies]
  cases hres : (Component.prototype.waitForDependencies.loop (rt.reg.deref r).dependencies
      [] rt).2 with
  | error e =>
    simp only
    refine ⟨?_, i2, i4.trans hk, i5, i6, by simp [i3]⟩
    show Good _ _ _ _ _ _
    rw [i2, i3, i4, hk]
    exact i1.add_init ⟨r, [], Phase.rejected⟩ hr (Or.inl rfl) (Or.inr rfl)
  | ok L =>
    simp only
    refine ⟨?_, i2, i4.trans hk, i5, i6, by simp [i3]⟩
    show Good _ _ _ _ _ _
    rw [i2, i3, i4, hk]
    exact i1.add_init ⟨r, L, Phase.waiting⟩ hr (Or.inr ((i9 L hres).2)) (Or.inl rfl)

theorem init_loop_spec : ∀ (L : List Value) (rt : Runtime), Inv rt → rt.hotkeys = false →
    (∀ r, Value.object r ∈ L → rt.reg.Registered r) →
    Inv (Component.init.loop L rt) ∧
    (Component.init.loop L rt).reg = rt.reg ∧
    (Component.init.loop L rt).hotkeys = false ∧
    (Component.init.loop L rt).required = rt.required ∧
    (Component.init.loop L rt).batch = rt.batch ∧
    (Component.init.loop L rt).inits.map InitCall.this =
      rt.inits.map InitCall.this ++ L.filterMap Value.ref?
  | [], rt, h, hk, _ => ⟨h, rfl, hk, rfl, rfl, by simp [Component.init.loop]⟩
  | Value.undefined :: L, rt, h, hk, hL => by
    simp only [Component.init.loop]
    simpa [Value.ref?] using init_loop_spec L rt h hk (fun r hr => hL r (List.mem_cons_of_mem _ hr))
  | Value.string v :: L, rt, h, hk, hL => by
    simp only [Component.init.loop]
    simpa [Value.ref?] using init_loop_spec L rt h hk (fun r hr => hL r (List.mem_cons_of_mem _ hr))
  | Value.inherited v :: L, rt, h, hk, hL => by
    simp only [Component.init.loop]
    simpa [Value.ref?] using init_loop_spec L rt h hk (fun r hr => hL r (List.mem_cons_of_mem _ hr))
  | Value.object r :: L, rt, h, hk, hL => by
    simp only [Component.init.loop]
    obtain ⟨p1, p2, p3, p4, p5, p6⟩ :=
      prototype_init_spec r rt h hk (hL r (List.mem_cons_self _ _))
    obtain ⟨q1, q2, q3, q4, q5, q6⟩ := init_loop_spec L (Component.prototype.init r rt) p1 p3
      (fun r2 hr2 => by rw [p2]; exact hL r2 (List.mem_cons_of_mem _ hr2))
    refine ⟨q1, q2.trans p2, q3, q4.trans p4, q5.trans p5, ?_⟩
    rw [q6, p6]
    simp [Value.ref?]

theorem mem_modify {α : Type} {l : List α} {f : α → α} {i : Nat} {x : α}
    (h : x ∈ l.modify f i) : x ∈ l ∨ ∃ y, l[i]? = some y ∧ x = f y := by
  obtain ⟨j, hj⟩ := List.getElem?_of_mem h
  rw [List.getElem?_modify] at hj
  cases hl : l[j]? with
  | none => rw [hl] at hj; cases hj
  | some a =>
    rw [hl] at hj
    simp only [Option.map_eq_map, Option.map_some', Option.some.injEq] at hj
    by_cases e : i = j
    · subst e
      rw [if_pos rfl] at hj
      exact Or.inr ⟨a, hl, hj.symm⟩
    · rw [if_neg e] at hj
      subst hj
      exact Or.inl (List.getElem?_mem hl)

theorem mem_modify_of_mem {α : Type} {l : List α} (f : α → α) (i : Nat) {y : α}
    (h : y ∈ l) : y ∈ l.modify f i ∨ (l[i]? = some y ∧ f y ∈ l.modify f i) := by
  obtain ⟨j, hj⟩ := List.getElem?_of_mem h
  have hm := List.getElem?_modify f i l j
  rw [hj] at hm
  simp only [Option.map_eq_map, Option.map_some'] at hm
  by_cases e : i = j
  · subst e
    rw [if_pos rfl] at hm
    exact Or.inr ⟨hj, List.getElem?_mem hm⟩
  · rw [if_neg e] at hm
    exact Or.inl (List.getElem?_mem hm)

theorem map_modify_of_eq {α β : Type} (g : α → β) (f : α → α) (hf : ∀ a, g (f a) = g a)
    (l : List α) (i : Nat) : (l.modify f i).map g = l.map g := by
  apply List.ext_getElem?
  intro j
  rw [List.getElem?_map, List.getElem?_map, List.getElem?_modify]
  cases l[j]? with
  | none => rfl
  | some a =>
    simp only [Option.map_eq_map, Option.map_some', Option.some.injEq]
    split
    · exact hf a
    · rfl

theorem Good.setPhase {reg : State} {promises : List ReadyPromise}
    {listeners : List (String × Nat)} {broadcasts : List Ref} {inits : List InitCall}
    {hotkeys : Bool} (h : Good reg promises listeners broadcasts inits hotkeys)
    {i : Nat} {t : InitCall} (hi : inits[i]? = some t) (phase : Phase)
    (h1 : phase = Phase.rejected ∨ t.phase ≠ Phase.rejected)
    (h2 : phase.past = true → DepsReady reg broadcasts t.this)
    (h3 : t.phase.past = true → phase.past = true)
    (h4 : phase = Phase.dispatched ∨ phase = Phase.resolved → (reg.deref t.this).is_ready = true)
    (h5 : t.phase ≠ Phase.resolved) :
    Good reg promises listeners broadcasts
      (inits.modify (fun t => { t with phase := phase }) i) hotkeys := by
  have ht : t ∈ inits := List.getElem?_mem hi
  have hmem : ∀ x ∈ inits.modify (fun t => { t with phase := phase }) i,
      x ∈ inits ∨ x = { t with phase := phase } := by
    intro x hx
    rcases mem_modify hx with hx | ⟨y, hy, e⟩
    · exact Or.inl hx
    · rw [hi] at hy
      simp only [Option.some.injEq] at hy
      subst hy
      exact Or.inr e
  have hex : ∀ r, (∃ x ∈ inits, x.this = r ∧ x.phase.past = true) →
      ∃ x ∈ inits.modify (fun t => { t with phase := phase }) i,
        x.this = r ∧ x.phase.past = true := by
    rintro r ⟨x, hx, e1, e2⟩
    rcases mem_modify_of_mem (fun t => { t with phase := phase }) i hx with hx | ⟨hx1, hx2⟩
    · exact ⟨x, hx, e1, e2⟩
    · rw [hi] at hx1
      simp only [Option.some.injEq] at hx1
      subst hx1
      exact ⟨_, hx2, e1, h3 e2⟩
  have hk : hotkeys = false := by
    cases hh : hotkeys with
    | false => rfl
    | true => exact absurd (h.hotkeys_resolved hh t ht) h5
  exact {
    wf := h.wf
    promise_registered := h.promise_registered
    init_registered := by
      intro x hx
      rcases hmem x hx with hx | hx
      · exact h.init_registered x hx
      · rw [hx]; exact h.init_registered t ht
    fulfilled_ready := h.fulfilled_ready
    listener_name := h.listener_name
    ready_broadcast := h.ready_broadcast
    waits_cover := by
      intro x hx
      rcases hmem x hx with hx | hx
      · exact h.waits_cover x hx
      · rw [hx]
        rcases h1 with h1 | h1
        · exact Or.inl h1
        · rcases h.waits_cover t ht with h6 | h6
          · exact absurd h6 h1
          · exact Or.inr h6
    past_deps := by
      intro x hx hp
      rcases hmem x hx with hx | hx
      · exact h.past_deps x hx hp
      · rw [hx] at hp ⊢; exact h2 hp
    button_past := fun r hr => hex r (h.button_past r hr)
    broadcast_past := fun r hr => hex r (h.broadcast_past r hr)
    done_ready := by
      intro x hx hp
      rcases hmem x hx with hx | hx
      · exact h.done_ready x hx hp
      · rw [hx] at hp ⊢; exact h4 hp
    hotkeys_resolved := by
      intro hh; rw [hk] at hh; cases hh }

theorem Good.update {reg reg2 : State} {promises promises2 : List ReadyPromise}
    {listeners : List (String × Nat)} {broadcasts broadcasts2 : List Ref}
    {inits : List InitCall} {hotkeys : Bool}
    (h : Good reg promises listeners broadcasts inits hotkeys)
    (hc : reg2.components = reg.components) (hlen : reg2.heap.length = reg.heap.length)
    (hid : ∀ r, (reg2.deref r).id = (reg.deref r).id)
    (hdeps : ∀ r, (reg2.deref r).dependencies = (reg.deref r).dependencies)
    (hmono : ∀ r, (reg.deref r).is_ready = true → (reg2.deref r).is_ready = true)
    (hps : ∀ (p : Nat) (w2 : ReadyPromise), promises2[p]? = some w2 →
      ∃ w, promises[p]? = some w ∧ w2.this = w.this)
    (hps2 : ∀ (p : Nat) (w : ReadyPromise), promises[p]? = some w →
      ∃ w2, promises2[p]? = some w2 ∧ w2.this = w.this)
    (hful : ∀ w2 ∈ promises2, w2.state = PromiseState.fulfilled →
      (reg2.deref w2.this).is_ready = true)
    (hbs : ∀ r ∈ broadcasts, r ∈ broadcasts2)
    (hrb : ∀ r, (reg2.deref r).is_ready = true → r ∈ broadcasts2)
    (hbut : ∀ r, (reg2.deref r).button = true → ∃ t ∈ inits, t.this = r ∧ t.phase.past = true)
    (hbp : ∀ r ∈ broadcasts2, ∃ t ∈ inits, t.this = r ∧ t.phase.past = true) :
    Good reg2 promises2 listeners broadcasts2 inits hotkeys := by
  have hreg : ∀ r, reg.Registered r → reg2.Registered r := by
    intro r hr; unfold State.Registered at hr ⊢; rw [hc]; exact hr
  have hget : ∀ d, getById reg2 d = getById reg d := getById_of_components hc
  exact {
    wf := by
      obtain ⟨w1, w2, w3, w4⟩ := h.wf
      refine ⟨by rw [hc]; exact w1, by rw [hc]; exact w2, ?_, ?_⟩
      · intro p hp; rw [hc] at hp; rw [hlen]; exact w3 p hp
      · intro p hp; rw [hc] at hp; rw [hid]; exact w4 p hp
    promise_registered := by
      intro w2 hw2
      obtain ⟨p, hp⟩ := List.getElem?_of_mem hw2
      obtain ⟨w, hw, e⟩ := hps p w2 hp
      rw [e]
      exact hreg _ (h.promise_registered w (List.getElem?_mem hw))
    init_registered := fun t ht => hreg _ (h.init_registered t ht)
    fulfilled_ready := hful
    listener_name := by
      intro l hl
      obtain ⟨w, hw, e⟩ := h.listener_name l hl
      obtain ⟨w2, hw2, e2⟩ := hps2 _ w hw
      exact ⟨w2, hw2, by rw [e, e2, hid]⟩
    ready_broadcast := hrb
    waits_cover := by
      intro t ht
      rcases h.waits_cover t ht with h1 | h1
      · exact Or.inl h1
      · refine Or.inr (fun d hd r hr => ?_)
        rw [hdeps] at hd
        rw [hget] at hr
        obtain ⟨p, hp, w, hw, e⟩ := h1 d hd r hr
        obtain ⟨w2, hw2, e2⟩ := hps2 p w hw
        exact ⟨p, hp, w2, hw2, e2.trans e⟩
    past_deps := by
      intro t ht hp d hd r hr
      rw [hdeps] at hd
      rw [hget] at hr
      obtain ⟨a, b⟩ := h.past_deps t ht hp d hd r hr
      exact ⟨hmono r a, hbs r b⟩
    button_past := hbut
    broadcast_past := hbp
    done_ready := fun t ht hp => hmono _ (h.done_ready t ht hp)
    hotkeys_resolved := h.hotkeys_resolved }

theorem Good.setButton {reg : State} {promises : List ReadyPromise}
    {listeners : List (String × Nat)} {broadcasts : List Ref} {inits : List InitCall}
    {hotkeys : Bool} (h : Good reg promises listeners broadcasts inits hotkeys) (r : Ref)
    (hr : ∃ t ∈ inits, t.this = r ∧ t.phase.past = true) :
    Good (reg.setButton r) promises listeners broadcasts inits hotkeys := by
  have hd : ∀ r2, (reg.setButton r).deref r2 = { reg.deref r2 with button := true } ∨
      (reg.setButton r).deref r2 = reg.deref r2 := by
    intro r2
    rw [State.deref_setButton]
    split
    · exact Or.inl rfl
    · exact Or.inr rfl
  have hready : ∀ r2, ((reg.setButton r).deref r2).is_ready = (reg.deref r2).is_ready := by
    intro r2; rcases hd r2 with e | e <;> rw [e]
  refine h.update rfl (by simp [State.setButton, State.modify]) ?_ ?_ ?_
    (fun p w2 hp => ⟨w2, hp, rfl⟩) (fun p w hp => ⟨w, hp, rfl⟩) ?_ (fun r2 hr2 => hr2) ?_ ?_
    h.broadcast_past
  · intro r2; rcases hd r2 with e | e <;> rw [e]
  · intro r2; rcases hd r2 with e | e <;> rw [e]
  · intro r2 h2; rw [hready]; exact h2
  · intro w hw hs; rw [hready]; exact h.fulfilled_ready w hw hs
  · intro r2 h2; rw [hready] at h2; exact h.ready_broadcast r2 h2
  · intro r2 h2
    rw [State.deref_setButton] at h2
    split at h2
    · rename_i hc
      rw [← hc.1]; exact hr
    · exact h.button_past r2 h2

theorem Good.broadcast {reg : State} {promises promises2 : List ReadyPromise}
    {listeners : List (String × Nat)} {broadcasts : List Ref} {inits : List InitCall}
    {hotkeys : Bool} (h : Good reg promises listeners broadcasts inits hotkeys) (t : InitCall)
    (ht : t ∈ inits) (hpast : t.phase.past = true)
    (hdisp : ∀ p : Nat, promises2[p]? = (promises[p]?).map (fun w =>
      if ((reg.deref t.this).id ++ "-ready", p) ∈ listeners then w.resolve else w)) :
    Good (reg.setReady t.this true) promises2 listeners (broadcasts ++ [t.this]) inits hotkeys := by
  have hd : ∀ r2, (reg.setReady t.this true).deref r2 = { reg.deref r2 with is_ready := true } ∨
      (reg.setReady t.this true).deref r2 = reg.deref r2 := by
    intro r2
    rw [State.deref_setReady]
    split
    · exact Or.inl rfl
    · exact Or.inr rfl
  have hvalid : t.this < reg.heap.length := h.wf.valid (h.init_registered t ht)
  have hself : ((reg.setReady t.this true).deref t.this).is_ready = true := by
    rw [State.deref_setReady, if_pos ⟨rfl, hvalid⟩]
  have hmono : ∀ r2, (reg.deref r2).is_ready = true →
      ((reg.setReady t.this true).deref r2).is_ready = true := by
    intro r2 h2; rcases hd r2 with e | e <;> rw [e]; exact h2
  have hps : ∀ (p : Nat) (w2 : ReadyPromise), promises2[p]? = some w2 →
      ∃ w, promises[p]? = some w ∧ w2.this = w.this ∧
        (w2 = w ∨ (w2 = w.resolve ∧ ((reg.deref t.this).id ++ "-ready", p) ∈ listeners)) := by
    intro p w2 hp
    rw [hdisp] at hp
    cases hw : promises[p]? with
    | none => rw [hw] at hp; cases hp
    | some w =>
      rw [hw] at hp
      simp only [Option.map_some', Option.some.injEq] at hp
      refine ⟨w, rfl, ?_, ?_⟩
      · rw [← hp]; split
        · exact w.resolve_this
        · rfl
      · split at hp
        · rename_i hc; exact Or.inr ⟨hp.symm, hc⟩
        · exact Or.inl hp.symm
  refine h.update rfl (by simp [State.setReady, State.modify]) ?_ ?_ hmono
    (fun p w2 hp => by obtain ⟨w, a, b, _⟩ := hps p w2 hp; exact ⟨w, a, b⟩) ?_ ?_
    (fun r2 hr2 => List.mem_append_left _ hr2) ?_ ?_ ?_
  · intro r2; rcases hd r2 with e | e <;> rw [e]
  · intro r2; rcases hd r2 with e | e <;> rw [e]
  · intro p w hw
    refine ⟨_, by rw [hdisp, hw]; rfl, ?_⟩
    split
    · exact w.resolve_this
    · rfl
  · intro w2 hw2 hs
    obtain ⟨p, hp⟩ := List.getElem?_of_mem hw2
    obtain ⟨w, hw, e, hcase⟩ := hps p w2 hp
    rcases hcase with rfl | ⟨_, hl⟩
    · exact hmono _ (h.fulfilled_ready w2 (List.getElem?_mem hw) hs)
    · obtain ⟨w3, hw3, hname⟩ := h.listener_name _ hl
      simp only at hw3 hname
      rw [hw] at hw3
      simp only [Option.some.injEq] at hw3
      subst hw3
      have hid := append_ready_cancel hname
      have := h.wf.id_injective (h.init_registered t ht)
        (h.promise_registered w (List.getElem?_mem hw)) hid
      rw [e, ← this]
      exact hself
  · intro r2 h2
    rw [State.deref_setReady] at h2
    split at h2
    · rename_i hc
      rw [← hc.1]; exact List.mem_append_right _ (List.mem_singleton_self _)
    · exact List.mem_append_left _ (h.ready_broadcast r2 h2)
  · intro r2 h2
    rcases hd r2 with e | e <;> rw [e] at h2 <;> exact h.button_past r2 h2
  · intro r2 h2
    rcases List.mem_append.1 h2 with h2 | h2
    · exact h.broadcast_past r2 h2
    · rw [List.mem_singleton.1 h2]; exact ⟨t, ht, rfl, hpast⟩

theorem fulfilled_iff (rt : Runtime) (p : Nat) :
    rt.fulfilled p = true ↔ ∃ w, rt.promises[p]? = some w ∧ w.state = PromiseState.fulfilled := by
  unfold Runtime.fulfilled
  rw [List.get?_eq_getElem?]
  cases rt.promises[p]? with
  | none => simp
  | some w => simp

theorem Inv.depsReady {rt : Runtime} (h : Inv rt) {t : InitCall} (ht : t ∈ rt.inits)
    (hphase : t.phase = Phase.waiting) (hw : t.waits.all rt.fulfilled = true) :
    DepsReady rt.reg rt.broadcasts t.this := by
  intro d hd r hr
  rcases h.waits_cover t ht with h1 | h1
  · rw [hphase] at h1; cases h1
  · obtain ⟨p, hp, w, hpw, e⟩ := h1 d hd r hr
    have hf := List.all_eq_true.1 hw p hp
    obtain ⟨w2, hw2, hs⟩ := (fulfilled_iff rt p).1 hf
    rw [hpw] at hw2
    simp only [Option.some.injEq] at hw2
    subst hw2
    have := h.fulfilled_ready w (List.getElem?_mem hpw) hs
    rw [e] at this
    exact ⟨this, h.ready_broadcast r this⟩

/-- Every action preserves the invariant. -/
theorem Inv.step_inv {rt rt2 : Runtime} (h : Inv rt) (a : Action) (hs : step a rt = some rt2) :
    Inv rt2 := by
  cases a with
  | depsDone i throws =>
    simp only [step] at hs
    cases hi : rt.inits.get? i with
    | none => rw [hi] at hs; cases hs
    | some t =>
      rw [hi] at hs
      simp only at hs
      rw [List.get?_eq_getElem?] at hi
      have ht : t ∈ rt.inits := List.getElem?_mem hi
      split at hs
      · rename_i hc
        have hdeps := h.depsReady ht hc.1 hc.2
        have hne : t.phase ≠ Phase.rejected := by rw [hc.1]; intro e; cases e
        have hnr : t.phase ≠ Phase.resolved := by rw [hc.1]; intro e; cases e
        have hnp : t.phase.past = true → False := by rw [hc.1]; intro e; cases e
        have hrendered : Good rt.reg rt.promises rt.listeners rt.broadcasts
            (rt.inits.modify (fun t => { t with phase := Phase.rendered }) i) rt.hotkeys :=
          Good.setPhase h hi Phase.rendered (Or.inr hne) (fun _ => hdeps)
            (fun e => absurd e (by rw [hc.1]; intro e; cases e))
            (fun e => by rcases e with e | e <;> cases e) hnr
        split at hs
        · split at hs
          · simp only [Option.some.injEq] at hs
            subst hs
            exact Good.setPhase h hi Phase.failed (Or.inr hne) (fun e => by cases e)
              (fun e => (hnp e).elim) (fun e => by rcases e with e | e <;> cases e) hnr
          · simp only [Option.some.injEq] at hs
            subst hs
            refine Good.setButton hrendered t.this ?_
            rcases mem_modify_of_mem (fun t => { t with phase := Phase.rendered }) i ht with
              hx | ⟨_, hx⟩
            · have := (List.getElem?_modify (fun t => { t with phase := Phase.rendered })
                i rt.inits i)
              rw [hi] at this
              simp only [if_true, Option.map_eq_map, Option.map_some'] at this
              exact ⟨_, List.getElem?_mem this, rfl, rfl⟩
            · exact ⟨_, hx, rfl, rfl⟩
        · simp only [Option.some.injEq] at hs
          subst hs
          exact hrendered
      · cases hs
  | ready i =>
    simp only [step] at hs
    cases hi : rt.inits.get? i with
    | none => rw [hi] at hs; cases hs
    | some t =>
      rw [hi] at hs
      simp only at hs
      rw [List.get?_eq_getElem?] at hi
      have ht : t ∈ rt.inits := List.getElem?_mem hi
      split at hs
      · rename_i hc
        simp only [Option.some.injEq] at hs
        subst hs
        have hpast : t.phase.past = true := by rw [hc]; rfl
        have hb := Good.broadcast h t ht hpast
          (fun p => dispatchEvent_promise ((rt.reg.deref t.this).id ++ "-ready")
            { rt with reg := rt.reg.setReady t.this true } p)
        have hvalid : t.this < rt.reg.heap.length := h.wf.valid (h.init_registered t ht)
        exact Good.setPhase hb hi Phase.dispatched (Or.inr (by rw [hc]; intro e; cases e))
          (fun _ => hb.past_deps t ht hpast) (fun _ => rfl)
          (fun _ => by rw [State.deref_setReady, if_pos ⟨rfl, hvalid⟩])
          (by rw [hc]; intro e; cases e)
      · cases hs
  | settle i =>
    simp only [step] at hs
    cases hi : rt.inits.get? i with
    | none => rw [hi] at hs; cases hs
    | some t =>
      rw [hi] at hs
      simp only at hs
      rw [List.get?_eq_getElem?] at hi
      have ht : t ∈ rt.inits := List.getElem?_mem hi
      split at hs
      · rename_i hc
        simp only [Option.some.injEq] at hs
        subst hs
        exact Good.setPhase h hi Phase.resolved (Or.inr (by rw [hc]; intro e; cases e))
          (fun _ => h.past_deps t ht (by rw [hc]; rfl)) (fun _ => rfl)
          (fun _ => h.done_ready t ht (Or.inl hc)) (by rw [hc]; intro e; cases e)
      · split at hs
        · rename_i hc
          simp only [Option.some.injEq] at hs
          subst hs
          exact Good.setPhase h hi Phase.rejected (Or.inl rfl) (fun e => by cases e)
            (fun e => by rw [hc] at e; cases e) (fun e => by rcases e with e | e <;> cases e)
            (by rw [hc]; intro e; cases e)
        · cases hs
  | listen throws =>
    simp only [step] at hs
    split at hs
    · rename_i hc
      simp only [Option.some.injEq] at hs
      subst hs
      unfold Component.listenForHotkeys
      split
      · exact h
      · exact { h with
          hotkeys_resolved := fun _ t ht => by
            have := List.all_eq_true.1 hc.2 t ht
            simpa using this }
    · cases hs
  | abort i =>
    simp only [step] at hs
    cases hi : rt.inits.get? i with
    | none => rw [hi] at hs; cases hs
    | some t =>
      rw [hi] at hs
      simp only at hs
      split at hs
      · simp only [Option.some.injEq] at hs
        subst hs
        exact h
      · cases hs
  | message command name hook =>
    simp only [step] at hs
    split at hs
    · simp only [Option.some.injEq] at hs
      subst hs
      unfold Component.handleHotkeysMessages
      split
      · exact (handleHotkeysMessages_loop_spec name hook _ rt h
          (fun r hr => getAll_registered _ _ _ r hr)).1
      · exact h
    · cases hs
  | click r hook =>
    simp only [step] at hs
    split at hs
    · rename_i hc
      simp only [Option.some.injEq] at hs
      subst hs
      obtain ⟨t, ht, e, _⟩ := h.button_past r hc
      exact Inv.trigger h (e ▸ h.init_registered t ht) hook
    · cases hs
  | hook j outcome =>
    simp only [step] at hs
    cases hj : rt.triggers.get? j with
    | none => rw [hj] at hs; cases hs
    | some t =>
      rw [hj] at hs
      simp only at hs
      split at hs
      · cases outcome with
        | none =>
          simp only [Option.some.injEq] at hs
          subst hs
          exact h
        | some e =>
          simp only [Option.some.injEq] at hs
          subst hs
          exact h
      · cases hs

theorem Inv.run_inv : ∀ (acts : List Action) {rt rt2 : Runtime}, Inv rt → run acts rt = some rt2 →
    Inv rt2
  | [], rt, rt2, h, hr => by
    simp only [Flowcus.run, Option.some.injEq] at hr
    subst hr; exact h
  | a :: acts, rt, rt2, h, hr => by
    simp only [Flowcus.run] at hr
    cases hs : step a rt with
    | none => rw [hs] at hr; cases hr
    | some rt1 =>
      rw [hs] at hr
      exact Inv.run_inv acts (h.step_inv a hs) hr

theorem step_frame {rt rt2 : Runtime} (h : Inv rt) (a : Action) (hs : step a rt = some rt2) :
    rt2.inits.map InitCall.this = rt.inits.map InitCall.this ∧ rt2.required = rt.required ∧
    ∀ e, rt.batch = BatchPhase.thrown e →
      rt2.batch = BatchPhase.thrown e ∧ rt2.hotkeys = rt.hotkeys := by
  have hmap : ∀ (l : List InitCall) (i : Nat) (phase : Phase),
      (l.modify (fun t => { t with phase := phase }) i).map InitCall.this
        = l.map InitCall.this :=
    fun l i phase => map_modify_of_eq InitCall.this (fun t => { t with phase := phase })
      (fun _ => rfl) l i
  cases a with
  | depsDone i throws =>
    simp only [step] at hs
    cases hi : rt.inits.get? i with
    | none => rw [hi] at hs; cases hs
    | some t =>
      rw [hi] at hs
      simp only at hs
      split at hs
      · split at hs
        · split at hs <;>
          · simp only [Option.some.injEq] at hs
            subst hs
            exact ⟨hmap _ _ _, rfl, fun e he => ⟨he, rfl⟩⟩
        · simp only [Option.some.injEq] at hs
          subst hs
          exact ⟨hmap _ _ _, rfl, fun e he => ⟨he, rfl⟩⟩
      · cases hs
  | ready i =>
    simp only [step] at hs
    cases hi : rt.inits.get? i with
    | none => rw [hi] at hs; cases hs
    | some t =>
      rw [hi] at hs
      simp only at hs
      split at hs
      · simp only [Option.some.injEq] at hs
        subst hs
        exact ⟨hmap _ _ _, rfl, fun e he => ⟨he, rfl⟩⟩
      · cases hs
  | settle i =>
    simp only [step] at hs
    cases hi : rt.inits.get? i with
    | none => rw [hi] at hs; cases hs
    | some t =>
      rw [hi] at hs
      simp only at hs
      split at hs
      · simp only [Option.some.injEq] at hs
        subst hs
        exact ⟨hmap _ _ _, rfl, fun e he => ⟨he, rfl⟩⟩
      · split at hs
        · simp only [Option.some.injEq] at hs
          subst hs
          exact ⟨hmap _ _ _, rfl, fun e he => ⟨he, rfl⟩⟩
        · cases hs
  | listen throws =>
    simp only [step] at hs
    split at hs
    · rename_i hc
      refine ⟨?_, ?_, fun e he => ?_⟩
      · simp only [Option.some.injEq] at hs
        subst hs
        unfold Component.listenForHotkeys
        split <;> rfl
      · simp only [Option.some.injEq] at hs
        subst hs
        unfold Component.listenForHotkeys
        split <;> rfl
      · rw [he] at hc; cases hc.1
    · cases hs
  | abort i =>
    simp only [step] at hs
    cases hi : rt.inits.get? i with
    | none => rw [hi] at hs; cases hs
    | some t =>
      rw [hi] at hs
      simp only at hs
      split at hs
      · rename_i hc
        simp only [Option.some.injEq] at hs
        subst hs
        exact ⟨rfl, rfl, fun e he => by rw [he] at hc; cases hc.1⟩
      · cases hs
  | message command name hook =>
    simp only [step] at hs
    split at hs
    · simp only [Option.some.injEq] at hs
      subst hs
      unfold Component.handleHotkeysMessages
      split
      · obtain ⟨_, _, f3, f4, f5, f6⟩ := handleHotkeysMessages_loop_spec name hook
          (getAll "Component" false rt.reg) rt h (fun r hr => getAll_registered _ _ _ r hr)
        exact ⟨by rw [f3], f5, fun e he => ⟨by rw [f6]; exact he, f4⟩⟩
      · exact ⟨rfl, rfl, fun e he => ⟨he, rfl⟩⟩
    · cases hs
  | click r hook =>
    simp only [step] at hs
    split at hs
    · simp only [Option.some.injEq] at hs
      subst hs
      obtain ⟨_, f2, f3, f4, f5⟩ := trigger_frame r hook rt
      exact ⟨by rw [f2], f4, fun e he => ⟨by rw [f5]; exact he, f3⟩⟩
    · cases hs
  | hook j outcome =>
    simp only [step] at hs
    cases hj : rt.triggers.get? j with
    | none => rw [hj] at hs; cases hs
    | some t =>
      rw [hj] at hs
      simp only at hs
      split at hs
      · cases outcome <;>
        · simp only [Option.some.injEq] at hs
          subst hs
          exact ⟨rfl, rfl, fun e he => ⟨he, rfl⟩⟩
      · cases hs

theorem Linked.step_linked {name : String} {s : State} {rt rt2 : Runtime}
    (hl : Linked name s rt) (h : Inv rt) (a : Action) (hs : step a rt = some rt2) :
    Linked name s rt2 := by
  obtain ⟨f1, f2, f3⟩ := step_frame h a hs
  refine ⟨by rw [f1, f2]; exact hl.1, ?_⟩
  rcases hl.2 with h1 | ⟨h1, h2, e, h3⟩
  · exact Or.inl (by rw [f2]; exact h1)
  · refine Or.inr ⟨(f3 e h3).2.trans h1, ?_, e, (f3 e h3).1⟩
    rw [h2] at f1
    simpa using f1

theorem Linked.run_linked {name : String} {s : State} :
    ∀ (acts : List Action) {rt rt2 : Runtime}, Linked name s rt → Inv rt →
      run acts rt = some rt2 → Linked name s rt2
  | [], rt, rt2, hl, _, hr => by
    simp only [Flowcus.run, Option.some.injEq] at hr
    subst hr; exact hl
  | a :: acts, rt, rt2, hl, h, hr => by
    simp only [Flowcus.run] at hr
    cases hs : step a rt with
    | none => rw [hs] at hr; cases hr
    | some rt1 =>
      rw [hs] at hr
      exact Linked.run_linked acts (hl.step_linked h a hs) (h.step_inv a hs) hr

/-! ## The state in which the lifecycle starts -/

theorem State.Fresh.modify_fresh {s : State} (h : s.Fresh) (r : Ref) (f : Component → Component)
    (hf : ∀ c, (f c).is_ready = c.is_ready ∧ (f c).button = c.button) : (s.modify r f).Fresh := by
  intro c hc
  rcases mem_modify hc with hc | ⟨y, hy, e⟩
  · exact h c hc
  · have := h y (List.getElem?_mem hy)
    rw [e, (hf y).1, (hf y).2]
    exact this

theorem State.Fresh.deref {s : State} (h : s.Fresh) (r : Ref) :
    (s.deref r).is_ready = false ∧ (s.deref r).button = false := by
  by_cases hv : r < s.heap.length
  · have : s.deref r ∈ s.heap := by
      simp only [State.deref, List.getD_eq_getElem?_getD, List.getElem?_eq_getElem hv,
        Option.getD_some]
      exact List.getElem_mem hv
    exact h _ this
  · rw [State.deref_of_not_lt s r hv]
    exact ⟨rfl, rfl⟩

theorem seedRequired_wf_fresh : ∀ (l : List Value) (s : State) (req : List Value),
    s.WF → s.Fresh → (seedRequired l s req).1.WF ∧ (seedRequired l s req).1.Fresh
  | [], s, req, h1, h2 => ⟨h1, h2⟩
  | Value.undefined :: l, s, req, h1, h2 => by
    simp only [seedRequired]; exact seedRequired_wf_fresh l s req h1 h2
  | Value.string v :: l, s, req, h1, h2 => by
    simp only [seedRequired]; exact seedRequired_wf_fresh l s req h1 h2
  | Value.inherited v :: l, s, req, h1, h2 => by
    simp only [seedRequired]; exact seedRequired_wf_fresh l s req h1 h2
  | Value.object r :: l, s, req, h1, h2 => by
    simp only [seedRequired]
    split
    · exact seedRequired_wf_fresh l s _ h1 h2
    · exact seedRequired_wf_fresh l _ req (h1.modify_wf r _ (fun _ => rfl))
        (h2.modify_fresh r _ (fun _ => ⟨rfl, rfl⟩))

theorem getRequiredComponents_registered (name : String) (s : State) (L : List Value)
    (hL : (getRequiredComponents name s).2 = Except.ok L) (r : Ref) (hr : Value.object r ∈ L) :
    (getRequiredComponents name s).1.Registered r := by
  obtain ⟨hcomp, hseed, _⟩ := seedRequired_spec (getAll name false s) s []
  rw [List.nil_append] at hseed
  have hst := getRequiredComponents_state name s
  rw [← hst] at hcomp
  have hw : whileLoop (getRequiredComponents name s).1 (2 * s.components.length + 2)
      (s.components.length + 2) ((getAll name false s).filter (enabledValue s))
      = Except.ok L := by
    rw [← hL, ← hseed]; rfl
  have := whileLoop_inv (getRequiredComponents name s).1
    (fun v => ∀ r, v = Value.object r → (getRequiredComponents name s).1.Registered r)
    (fun r1 d _ _ r2 h2 => getById_registered h2) _ _ _ _ hw
    (fun v hv r2 e => by
      subst e
      have := getAll_registered name false s r2 (List.mem_filter.1 hv).1
      unfold State.Registered at this ⊢
      rw [hcomp]; exact this)
  exact this _ hr r rfl

theorem Inv.start {s : State} (hwf : s.WF) (hfresh : s.Fresh) (required : List Value)
    (batch : BatchPhase) :
    Inv { Runtime.start s with required := required, batch := batch } :=
  { wf := hwf
    promise_registered := fun w hw => absurd hw (List.not_mem_nil _)
    init_registered := fun t ht => absurd ht (List.not_mem_nil _)
    fulfilled_ready := fun w hw => absurd hw (List.not_mem_nil _)
    listener_name := fun l hl => absurd hl (List.not_mem_nil _)
    ready_broadcast := fun r hr => by
      have hr2 : (s.deref r).is_ready = true := hr
      rw [(hfresh.deref r).1] at hr2; cases hr2
    waits_cover := fun t ht => absurd ht (List.not_mem_nil _)
    past_deps := fun t ht => absurd ht (List.not_mem_nil _)
    button_past := fun r hr => by
      have hr2 : (s.deref r).button = true := hr
      rw [(hfresh.deref r).2] at hr2; cases hr2
    broadcast_past := fun r hr => absurd hr (List.not_mem_nil _)
    done_ready := fun t ht => absurd ht (List.not_mem_nil _)
    hotkeys_resolved := fun hk => by cases hk }

/-- The state the synchronous part of the static `init` leaves satisfies the
invariant and is tied to the array `getRequiredComponents` returned. -/
theorem init_spec (name : String) (s : State) (hwf : s.WF) (hfresh : s.Fresh) :
    Inv (Component.init name s) ∧ Linked name s (Component.init name s) := by
  obtain ⟨hwf1, hfresh1⟩ := seedRequired_wf_fresh (getAll name false s) s [] hwf hfresh
  rw [← getRequiredComponents_state name s] at hwf1 hfresh1
  unfold Component.init
  simp only
  cases hres : (getRequiredComponents name s).2 with
  | error e =>
    simp only
    refine ⟨?_, ?_⟩
    · have := Inv.start hwf1 hfresh1 [] (BatchPhase.thrown e)
      exact this
    · exact ⟨rfl, Or.inr ⟨rfl, rfl, e, rfl⟩⟩
  | ok L =>
    simp only
    obtain ⟨q1, _, _, q4, _, q6⟩ := init_loop_spec L
      { Runtime.start (getRequiredComponents name s).1 with required := L }
      (Inv.start hwf1 hfresh1 L BatchPhase.pending) rfl
      (fun r hr => getRequiredComponents_registered name s L hres r hr)
    refine ⟨q1, ?_, Or.inl ?_⟩
    · rw [q6, q4]; simp [Runtime.start]
    · rw [q4]; exact hres

/-! ## Registries built by the constructor are well formed and fresh -/

theorem mem_setProperty {key : String} {r : Ref} :
    ∀ {l : List (String × Ref)} {p : String × Ref}, p ∈ setProperty key r l →
      p = (key, r) ∨ p ∈ l
  | [], p, h => by
    simp only [setProperty, List.mem_singleton] at h
    exact Or.inl h
  | q :: qs, p, h => by
    simp only [setProperty] at h
    split at h
    · rcases List.mem_cons.1 h with h | h
      · exact Or.inl h
      · exact Or.inr (List.mem_cons_of_mem _ h)
    · rcases List.mem_cons.1 h with h | h
      · exact Or.inr (h ▸ List.mem_cons_self _ _)
      · rcases mem_setProperty h with h | h
        · exact Or.inl h
        · exact Or.inr (List.mem_cons_of_mem _ h)

theorem setProperty_keys_nodup (key : String) (r : Ref) :
    ∀ l : List (String × Ref), (l.map Prod.fst).Nodup → ((setProperty key r l).map Prod.fst).Nodup
  | [], _ => by simp [setProperty]
  | q :: qs, h => by
    simp only [List.map_cons, List.nodup_cons] at h
    simp only [setProperty]
    split
    · rename_i hq
      simp only [beq_iff_eq] at hq
      simp only [List.map_cons, List.nodup_cons]
      exact ⟨hq ▸ h.1, h.2⟩
    · rename_i hq
      simp only [beq_iff_eq] at hq
      simp only [List.map_cons, List.nodup_cons]
      refine ⟨?_, setProperty_keys_nodup key r qs h.2⟩
      intro hmem
      obtain ⟨p, hp, e⟩ := List.mem_map.1 hmem
      rcases mem_setProperty hp with hp | hp
      · rw [hp] at e; exact hq e.symm
      · exact h.1 (List.mem_map.2 ⟨p, hp, e⟩)

theorem setProperty_refs_nodup (key : String) (r : Ref) :
    ∀ l : List (String × Ref), (l.map Prod.snd).Nodup → r ∉ l.map Prod.snd →
      ((setProperty key r l).map Prod.snd).Nodup
  | [], _, _ => by simp [setProperty]
  | q :: qs, h, hr => by
    simp only [List.map_cons, List.nodup_cons] at h
    simp only [List.map_cons, List.mem_cons, not_or] at hr
    simp only [setProperty]
    split
    · simp only [List.map_cons, List.nodup_cons]
      exact ⟨hr.2, h.2⟩
    · simp only [List.map_cons, List.nodup_cons]
      refine ⟨?_, setProperty_refs_nodup key r qs h.2 hr.2⟩
      intro hmem
      obtain ⟨p, hp, e⟩ := List.mem_map.1 hmem
      rcases mem_setProperty hp with hp | hp
      · rw [hp] at e; exact hr.1 e
      · exact h.1 (List.mem_map.2 ⟨p, hp, e⟩)

/-- The constructor keeps the registry well formed and fresh. -/
theorem construct_wf_fresh (settings : String → Bool)
    (kind display_name slug icon hotkey : String) (dependencies : List String) (s : State)
    (hwf : s.WF) (hfresh : s.Fresh) :
    (construct settings kind display_name slug icon hotkey dependencies s).1.WF ∧
    (construct settings kind display_name slug icon hotkey dependencies s).1.Fresh := by
  obtain ⟨w1, w2, w3, w4⟩ := hwf
  have hnew : s.heap.length ∉ s.components.map Prod.snd := by
    intro hmem
    obtain ⟨p, hp, e⟩ := List.mem_map.1 hmem
    have := w3 p hp
    rw [e] at this
    exact Nat.lt_irrefl _ this
  refine ⟨⟨setProperty_keys_nodup _ _ _ w1, setProperty_refs_nodup _ _ _ w2 hnew, ?_, ?_⟩, ?_⟩
  · intro p hp
    simp only [construct, List.length_append, List.length_singleton]
    rcases mem_setProperty hp with hp | hp
    · rw [hp]; exact Nat.lt_succ_self _
    · exact Nat.lt_succ_of_lt (w3 p hp)
  · intro p hp
    rcases mem_setProperty hp with hp | hp
    · rw [hp]
      simp [construct, State.deref, List.getD_eq_getElem?_getD]
    · have hlt := w3 p hp
      have := w4 p hp
      simp only [State.deref, List.getD_eq_getElem?_getD] at this ⊢
      simp only [construct]
      rw [List.getElem?_append_left hlt]
      exact this
  · intro c hc
    simp only [construct] at hc
    rcases List.mem_append.1 hc with hc | hc
    · exact hfresh c hc
    · rw [List.mem_singleton.1 hc]
      exact ⟨rfl, rfl⟩

/-- Every registry built by constructor calls from the empty table is well
formed and fresh. -/
theorem registerAll_wf_fresh (settings : String → Bool) :
    ∀ (args : List Args) (s : State), s.WF → s.Fresh →
      (registerAll settings args s).1.WF ∧ (registerAll settings args s).1.Fresh
  | [], s, h1, h2 => ⟨h1, h2⟩
  | a :: rest, s, h1, h2 => by
    simp only [registerAll]
    obtain ⟨h3, h4⟩ := construct_wf_fresh settings a.kind a.display_name a.slug a.icon a.hotkey
      a.dependencies s h1 h2
    exact registerAll_wf_fresh settings rest _ h3 h4

theorem State.empty_wf_fresh : State.empty.WF ∧ State.empty.Fresh := by
  refine ⟨⟨?_, ?_, ?_, ?_⟩, ?_⟩ <;> simp [State.empty, State.Fresh]

/-! ## Claims about the lifecycle -/

/-- C4: on a registry whose declared dependencies all resolve, every entry of
the array returned by `getRequiredComponents` is a component that is enabled
or reachable through dependency edges from an enabled one; a component that is
not enabled and that no enabled component reaches is not in the array, and no
state of the lifecycle started by the static `init` holds an `init` call on
it. -/
theorem unreached_never_initialised (s : State) (hwf : s.WF) (hfresh : s.Fresh)
    (hres : s.AllResolve) :
    ∃ L, (getRequiredComponents "Component" s).2 = Except.ok L ∧
      (∀ v ∈ L, ∃ r, v = Value.object r ∧ Required s r) ∧
      ∀ r, (s.deref r).enabled = false →
        (∀ r0, s.Registered r0 → (s.deref r0).enabled = true →
          ¬ Relation.TransGen (DependsOn s) r0 r) →
        Value.object r ∉ L ∧
        ∀ acts rt, run acts (Component.init "Component" s) = some rt →
          ∀ t ∈ rt.inits, t.this ≠ r := by
  obtain ⟨L, h1, _, h3, _, _⟩ := getRequiredComponents_ok s hwf hres
  refine ⟨L, h1, fun v hv => ?_, fun r hr hno => ?_⟩
  · obtain ⟨r, e, _, hreq⟩ := h3 v hv
    exact ⟨r, e, hreq⟩
  · have hnot : Value.object r ∉ L := by
      intro hmem
      obtain ⟨r1, e, _, r0, h0, hen, hpath⟩ := h3 _ hmem
      simp only [Value.object.injEq] at e
      subst e
      rcases Relation.reflTransGen_iff_eq_or_transGen.1 hpath with e | hp
      · subst e
        rw [hr] at hen; cases hen
      · exact hno r0 h0 hen hp
    refine ⟨hnot, fun acts rt hrun t ht e => ?_⟩
    obtain ⟨hinv, hlink⟩ := init_spec "Component" s hwf hfresh
    have hl := Linked.run_linked acts hlink hinv hrun
    have hmem : r ∈ rt.required.filterMap Value.ref? := by
      rw [← hl.1, ← e]
      exact List.mem_map_of_mem _ ht
    obtain ⟨v, hv, hv2⟩ := List.mem_filterMap.1 hmem
    have hv3 : v = Value.object r := by
      cases v <;> simp [Value.ref?] at hv2
      rw [hv2]
    rcases hl.2 with h4 | ⟨_, h5, _⟩
    · rw [h1] at h4
      simp only [Except.ok.injEq] at h4
      rw [← h4, hv3] at hv
      exact hnot hv
    · rw [h5] at ht
      exact absurd ht (List.not_mem_nil _)

/-- C4 on the four tools: E is not enabled and nothing depends on it; the
array is C, B, A. -/
theorem unreached_never_initialised_witness :
    spare.WF ∧ spare.Fresh ∧ spare.AllResolve ∧ (spare.deref 3).enabled = false ∧
      (getRequiredComponents "Component" spare).2 =
        Except.ok [Value.object 2, Value.object 1, Value.object 0] ∧
      ∃ L, (getRequiredComponents "Component" spare).2 = Except.ok L ∧
        (∀ v ∈ L, ∃ r, v = Value.object r ∧ Required spare r) ∧
        ∀ r, (spare.deref r).enabled = false →
          (∀ r0, spare.Registered r0 → (spare.deref r0).enabled = true →
            ¬ Relation.TransGen (DependsOn spare) r0 r) →
          Value.object r ∉ L ∧
          ∀ acts rt, run acts (Component.init "Component" spare) = some rt →
            ∀ t ∈ rt.inits, t.this ≠ r :=
  ⟨by decide, by decide, by decide, by decide, by decide,
    unreached_never_initialised spare (by decide) (by decide) (by decide)⟩

/-- C5: in every state reachable from the static `init` on a registry built
by the constructor, a component that has generated its button or dispatched
its ready event has every declared dependency that resolves to a component
ready, with its own ready event dispatched. -/
theorem dependencies_ready_first (s : State) (hwf : s.WF) (hfresh : s.Fresh)
    (acts : List Action) (rt : Runtime)
    (hrun : run acts (Component.init "Component" s) = some rt) (r : Ref)
    (hr : (rt.reg.deref r).button = true ∨ r ∈ rt.broadcasts) :
    ∀ d ∈ (rt.reg.deref r).dependencies, ∀ r2, getById rt.reg d = Value.object r2 →
      (rt.reg.deref r2).is_ready = true ∧ r2 ∈ rt.broadcasts := by
  have hinv : Inv rt := Inv.run_inv acts (init_spec "Component" s hwf hfresh).1 hrun
  have hpast : ∃ t ∈ rt.inits, t.this = r ∧ t.phase.past = true := by
    rcases hr with hr | hr
    · exact hinv.button_past r hr
    · exact hinv.broadcast_past r hr
  obtain ⟨t, ht, e, hp⟩ := hpast
  rw [← e]
  exact hinv.past_deps t ht hp

/-- C5 on the scenario: once B has dispatched its ready event, A is ready and
has dispatched its own; B cannot pass its dependency wait before A is ready. -/
theorem dependencies_ready_first_witness :
    chain.WF ∧ chain.Fresh ∧
      run chainSchedule (Component.init "Component" chain) = some chainMidway ∧
      1 ∈ chainMidway.broadcasts ∧ chainMidway.broadcasts = [0, 1] ∧
      run [Action.depsDone 1 false] (Component.init "Component" chain) = none ∧
      ∀ d ∈ (chainMidway.reg.deref 1).dependencies, ∀ r2,
        getById chainMidway.reg d = Value.object r2 →
        (chainMidway.reg.deref r2).is_ready = true ∧ r2 ∈ chainMidway.broadcasts :=
  ⟨by decide, by decide, by decide, by decide, by decide, by decide,
    dependencies_ready_first chain (by decide) (by decide) chainSchedule chainMidway
      (by decide) 1 (Or.inr (by decide))⟩

/-- C6 on the scenario: before any callback has run, a wait on A adds the
listener `Tool.a-ready`. -/
theorem waitForComponentReady_completes_witness :
    ((Component.init "Component" chain).reg.deref 0).is_ready = false ∧
      (Component.prototype.waitForComponentReady 0 (Component.init "Component" chain)).1.listeners
        = (Component.init "Component" chain).listeners ++
          [(((Component.init "Component" chain).reg.deref 0).id ++ "-ready",
            (Component.prototype.waitForComponentReady 0
              (Component.init "Component" chain)).2)] :=
  ⟨by decide,
    ((waitForComponentReady_completes (Component.init "Component" chain) 0).2.1 (by decide)).1⟩

/-- C7: in every state reachable from the static `init` in which the message
listener of `listenForHotkeys` is registered, `getRequiredComponents` had
returned the array `required`, the `init` of every component of that array
has completed, and every such component has `is_ready` true. -/
theorem hotkeys_after_all_ready (s : State) (hwf : s.WF) (hfresh : s.Fresh)
    (acts : List Action) (rt : Runtime)
    (hrun : run acts (Component.init "Component" s) = some rt) (hk : rt.hotkeys = true) :
    (getRequiredComponents "Component" s).2 = Except.ok rt.required ∧
      (∀ t ∈ rt.inits, t.phase = Phase.resolved) ∧
      ∀ r, Value.object r ∈ rt.required →
        (∃ t ∈ rt.inits, t.this = r) ∧ (rt.reg.deref r).is_ready = true := by
  obtain ⟨hinv0, hlink0⟩ := init_spec "Component" s hwf hfresh
  have hinv : Inv rt := Inv.run_inv acts hinv0 hrun
  have hl := Linked.run_linked acts hlink0 hinv0 hrun
  have hreq : (getRequiredComponents "Component" s).2 = Except.ok rt.required := by
    rcases hl.2 with h | ⟨h, _⟩
    · exact h
    · rw [hk] at h; cases h
  refine ⟨hreq, hinv.hotkeys_resolved hk, fun r hr => ?_⟩
  have hmem : r ∈ rt.inits.map InitCall.this := by
    rw [hl.1]
    exact List.mem_filterMap.2 ⟨_, hr, rfl⟩
  obtain ⟨t, ht, e⟩ := List.mem_map.1 hmem
  refine ⟨⟨t, ht, e⟩, ?_⟩
  rw [← e]
  exact hinv.done_ready t ht (Or.inr (hinv.hotkeys_resolved hk t ht))

/-- C7 on the scenario: after every callback has run the listener is
registered, and it cannot be registered while C is still waiting. -/
theorem hotkeys_after_all_ready_witness :
    chain.WF ∧ chain.Fresh ∧
      run chainFullSchedule (Component.init "Component" chain) = some chainDone ∧
      chainDone.hotkeys = true ∧ chainDone.broadcasts = [0, 1, 2] ∧
      run (chainSchedule ++ [Action.listen false]) (Component.init "Component" chain) = none ∧
      ((getRequiredComponents "Component" chain).2 = Except.ok chainDone.required ∧
        (∀ t ∈ chainDone.inits, t.phase = Phase.resolved) ∧
        ∀ r, Value.object r ∈ chainDone.required →
          (∃ t ∈ chainDone.inits, t.this = r) ∧ (chainDone.reg.deref r).is_ready = true) :=
  ⟨by decide, by decide, by decide, by decide, by decide, by decide,
    hotkeys_after_all_ready chain (by decide) (by decide) chainFullSchedule chainDone
      (by decide) (by decide)⟩

/-! ## Unresolved dependencies in the resolver -/

theorem whileLoop_ok_closed (s : State) (scanFuel : Nat) :
    ∀ (fuel : Nat) (L L2 : List Value), whileLoop s scanFuel fuel L = Except.ok L2 →
      (∃ ext, L2 = L ++ ext) ∧ ClosedBelow s L2.length L2
  | 0, L, L2, h => by simp [whileLoop] at h
  | fuel + 1, L, L2, h => by
    rw [whileLoop] at h
    cases hs : scanRequired s scanFuel 0 L with
    | error e => rw [hs] at h; simp at h
    | ok L1 =>
      rw [hs] at h
      simp only at h
      obtain ⟨hpre, _, _, hcl⟩ := scanRequired_ok s (fun _ => True) (fun _ _ _ _ => trivial)
        scanFuel 0 L L1 hs
      by_cases hlen : L.length = L1.length
      · rw [if_pos hlen] at h
        simp only [Except.ok.injEq] at h
        subst h
        exact ⟨hpre, hcl (fun j hj => absurd hj (Nat.not_lt_zero _))⟩
      · rw [if_neg hlen] at h
        obtain ⟨⟨ext2, e2⟩, hc2⟩ := whileLoop_ok_closed s scanFuel fuel L1 L2 h
        obtain ⟨ext1, e1⟩ := hpre
        exact ⟨⟨ext1 ++ ext2, by rw [e2, e1, List.append_assoc]⟩, hc2⟩

/-- Whenever a required component declares a dependency identifier that
`getById` does not resolve to a component, the call on the base class does not
return an array. -/
theorem getRequiredComponents_unresolved (s : State) (r : Ref) (d : String)
    (hreq : Required s r) (hd : d ∈ (s.deref r).dependencies)
    (hun : ∀ r2, getById s d ≠ Value.object r2) (L : List Value) :
    (getRequiredComponents "Component" s).2 ≠ Except.ok L := by
  intro hL
  obtain ⟨hcomp, hseed, hderef⟩ := seedRequired_spec (getAll "Component" false s) s []
  rw [List.nil_append] at hseed
  have hst := getRequiredComponents_state "Component" s
  rw [← hst] at hcomp hderef
  have hdeps : ∀ r, ((getRequiredComponents "Component" s).1.deref r).dependencies
      = (s.deref r).dependencies := fun r => by rw [hderef r]
  have hget : ∀ d, getById (getRequiredComponents "Component" s).1 d = getById s d :=
    getById_of_components hcomp
  have hw : whileLoop (getRequiredComponents "Component" s).1 (2 * s.components.length + 2)
      (s.components.length + 2) ((getAll "Component" false s).filter (enabledValue s))
      = Except.ok L := by
    rw [← hL, ← hseed]; rfl
  obtain ⟨⟨ext, hext⟩, hclosed⟩ := whileLoop_ok_closed _ _ _ _ _ hw
  have hstep : ∀ r1, Value.object r1 ∈ L → ∀ d1 ∈ (s.deref r1).dependencies,
      getById s d1 ∈ L := by
    intro r1 h1 d1 hd1
    obtain ⟨j, hj⟩ := List.getElem?_of_mem h1
    obtain ⟨r3, h3, h4⟩ := hclosed j (List.getElem?_eq_some_iff.1 hj).1
    rw [List.get?_eq_getElem?, hj] at h3
    simp only [Option.some.injEq, Value.object.injEq] at h3
    subst h3
    rw [← hget]
    exact h4 d1 (by rw [hdeps]; exact hd1)
  have hall : ∀ r1, Required s r1 → Value.object r1 ∈ L := by
    intro r1 hreq1
    obtain ⟨r0, h0, hen, hpath⟩ := hreq1
    induction hpath with
    | refl =>
      rw [hext]
      apply List.mem_append_left
      rw [List.mem_filter, getAll_base, List.mem_reverse]
      obtain ⟨p, hp, rfl⟩ := List.mem_map.1 h0
      exact ⟨List.mem_map.2 ⟨p, hp, rfl⟩, hen⟩
    | tail _ hedge ih =>
      obtain ⟨d1, hd1, hg1⟩ := hedge
      rw [← hg1]
      exact hstep _ ih d1 hd1
  have hin := hstep r (hall r hreq) d hd
  obtain ⟨j, hj⟩ := List.getElem?_of_mem hin
  obtain ⟨r3, h3, _⟩ := hclosed j (List.getElem?_eq_some_iff.1 hj).1
  rw [List.get?_eq_getElem?, hj] at h3
  simp only [Option.some.injEq] at h3
  exact hun r3 h3

/-! ## The listing of a subclass -/

theorem find?_of_mem_of_nodup_keys :
    ∀ (l : List (String × Ref)) (p : String × Ref), (l.map Prod.fst).Nodup → p ∈ l →
      l.find? (fun q => q.1 == p.1) = some p
  | [], p, _, h => absurd h (List.not_mem_nil _)
  | q :: qs, p, hn, h => by
    simp only [List.map_cons, List.nodup_cons] at hn
    rcases List.mem_cons.1 h with e | h
    · subst e; simp
    · have hne : q.1 ≠ p.1 := by
        intro e
        exact hn.1 (e ▸ List.mem_map_of_mem Prod.fst h)
      have hb : (q.1 == p.1) = false := by simpa using hne
      rw [List.find?_cons, hb]
      exact find?_of_mem_of_nodup_keys qs p hn.2 h

/-- In a well-formed registry `getById` of a key returns the instance stored
under that key. -/
theorem getById_of_mem {s : State} (hwf : s.WF) {p : String × Ref} (hp : p ∈ s.components) :
    getById s p.1 = Value.object p.2 := by
  simp [getById, State.lookup, find?_of_mem_of_nodup_keys s.components p hwf.1 hp]

/-- Called on a subclass, `getAll` lists the matching components in the order
of the table, which is the reverse of the order of the base-class listing. -/
theorem getAll_subclass (s : State) (hwf : s.WF) (name : String) (hname : name ≠ "Component") :
    getAll name false s =
        (s.components.filter (fun p => startsWith p.1 (name ++ "."))).map
          (fun p => Value.object p.2) ∧
      (getAll name false s).Sublist (getAll "Component" false s).reverse := by
  have h1 : getAll name false s =
      (s.components.filter (fun p => startsWith p.1 (name ++ "."))).map
        (fun p => Value.object p.2) := by
    simp only [getAll, if_neg hname, if_true]
    apply List.map_congr_left
    intro p hp
    exact getById_of_mem hwf (List.mem_filter.1 hp).1
  refine ⟨h1, ?_⟩
  rw [h1, getAll_base, List.reverse_reverse]
  exact (List.filter_sublist _).map _

/-! ## Termination and the single pass -/

/-- C13: on every registry whose declared dependencies all resolve, cyclic or
not, `getRequiredComponents` returns an array, without a failure, and the
array is no longer than the table. -/
theorem getRequiredComponents_terminates (s : State) (hwf : s.WF) (hres : s.AllResolve) :
    ∃ L, (getRequiredComponents "Component" s).2 = Except.ok L ∧
      L.length ≤ s.components.length := by
  obtain ⟨L, h1, h2, h3, _, _⟩ := getRequiredComponents_ok s hwf hres
  refine ⟨L, h1, ?_⟩
  have hsub : L ⊆ s.components.map (fun p => Value.object p.2) := by
    intro v hv
    obtain ⟨r, rfl, hreg, _⟩ := h3 v hv
    obtain ⟨p, hp, rfl⟩ := List.mem_map.1 hreg
    exact List.mem_map.2 ⟨p, hp, rfl⟩
  simpa using (h2.subperm hsub).length_le

/-- C13 on the cyclic registry: X and Y depend on each other and Z on itself;
the call returns the three of them. -/
theorem getRequiredComponents_terminates_witness :
    cyclic.WF ∧ cyclic.AllResolve ∧
      (getRequiredComponents "Component" cyclic).2 =
        Except.ok [Value.object 2, Value.object 1, Value.object 0] ∧
      ∃ L, (getRequiredComponents "Component" cyclic).2 = Except.ok L ∧
        L.length ≤ cyclic.components.length :=
  ⟨by decide, by decide, by decide,
    getRequiredComponents_terminates cyclic (by decide) (by decide)⟩

theorem scanDependencies_eq_worklistVisit (s : State) :
    ∀ (ds : List String) (A B : List Value),
      scanDependencies s ds (A ++ B) = A ++ worklistVisit s ds A B
  | [], A, B => rfl
  | d :: ds, A, B => by
    rw [scanDependencies, worklistVisit]
    by_cases h : getById s d ∈ A ∨ getById s d ∈ B
    · have hc : (A ++ B).contains (getById s d) = true := by
        simpa using h
      simp only [hc, Bool.true_eq_false, if_false, if_pos h]
      exact scanDependencies_eq_worklistVisit s ds A B
    · have hc : (A ++ B).contains (getById s d) = false := by
        simpa using h
      simp only [hc, if_true, if_neg h]
      rw [List.append_assoc]
      exact scanDependencies_eq_worklistVisit s ds A (B ++ [getById s d])

theorem get?_append_cons_length {α : Type} :
    ∀ (A : List α) (v : α) (B : List α), (A ++ v :: B).get? A.length = some v
  | [], _, _ => rfl
  | _ :: A, v, B => get?_append_cons_length A v B

theorem scanRequired_eq_worklistPass (s : State) :
    ∀ (fuel : Nat) (A B : List Value),
      scanRequired s fuel A.length (A ++ B) = worklistPass s fuel A B
  | 0, A, B => rfl
  | fuel + 1, A, [] => by
    rw [scanRequired, worklistPass]
    simp
  | fuel + 1, A, Value.object r :: B => by
    rw [scanRequired, worklistPass]
    have hget := get?_append_cons_length A (Value.object r) B
    rw [hget]
    simp only
    have hsplit : A ++ Value.object r :: B = (A ++ [Value.object r]) ++ B := by simp
    rw [hsplit, scanDependencies_eq_worklistVisit]
    have := scanRequired_eq_worklistPass s fuel (A ++ [Value.object r])
      (worklistVisit s (s.deref r).dependencies (A ++ [Value.object r]) B)
    simpa using this
  | fuel + 1, A, Value.undefined :: B => by
    rw [scanRequired, worklistPass]
    · have hget := get?_append_cons_length A (Value.undefined) B
      rw [hget]
    · intro r h; cases h
  | fuel + 1, A, Value.string v :: B => by
    rw [scanRequired, worklistPass]
    · have hget := get?_append_cons_length A (Value.string v) B
      rw [hget]
    · intro r h; cases h
  | fuel + 1, A, Value.inherited v :: B => by
    rw [scanRequired, worklistPass]
    · have hget := get?_append_cons_length A (Value.inherited v) B
      rw [hget]
    · intro r h; cases h

/-- C20: on a registry whose declared dependencies all resolve, the first scan
of the outer loop returns the array that the call returns and that holds every
required component; the outer loop returns with a budget of two runs of its
body; and that array is the result of a single worklist pass over the seeds. -/
theorem first_scan_is_worklist_pass (s : State) (hwf : s.WF) (hres : s.AllResolve) :
    ∃ L, (getRequiredComponents "Component" s).2 = Except.ok L ∧
      (∀ r, Required s r → Value.object r ∈ L) ∧
      scanRequired (getRequiredComponents "Component" s).1 (2 * s.components.length + 2) 0
        ((getAll "Component" false s).filter (enabledValue s)) = Except.ok L ∧
      whileLoop (getRequiredComponents "Component" s).1 (2 * s.components.length + 2) 2
        ((getAll "Component" false s).filter (enabledValue s)) = Except.ok L ∧
      worklistPass (getRequiredComponents "Component" s).1 (2 * s.components.length + 2) []
        ((getAll "Component" false s).filter (enabledValue s)) = Except.ok L := by
  obtain ⟨L, h1, h2, h3, h4, h5⟩ := getRequiredComponents_ok s hwf hres
  refine ⟨L, h1, h4, h5, ?_, ?_⟩
  · obtain ⟨_, _, _, hcl⟩ := scanRequired_ok (getRequiredComponents "Component" s).1
      (fun _ => True) (fun _ _ _ _ => trivial) _ 0 _ L h5
    have hsub : L ⊆ s.components.map (fun p => Value.object p.2) := by
      intro v hv
      obtain ⟨r, rfl, hreg, _⟩ := h3 v hv
      obtain ⟨p, hp, rfl⟩ := List.mem_map.1 hreg
      exact List.mem_map.2 ⟨p, hp, rfl⟩
    have hlen : L.length ≤ s.components.length := by
      simpa using (h2.subperm hsub).length_le
    exact whileLoop_two _ _ 0 _ L h5 (hcl (fun j hj => absurd hj (Nat.not_lt_zero _)))
      (by omega)
  · have := scanRequired_eq_worklistPass (getRequiredComponents "Component" s).1
      (2 * s.components.length + 2) [] ((getAll "Component" false s).filter (enabledValue s))
    simp only [List.length_nil, List.nil_append] at this
    rw [← this]; exact h5

/-- C20 on the scenario: the worklist pass over the seed C gives C, B, A. -/
theorem first_scan_is_worklist_pass_witness :
    chain.WF ∧ chain.AllResolve ∧
      worklistPass (getRequiredComponents "Component" chain).1
        (2 * chain.components.length + 2) []
        ((getAll "Component" false chain).filter (enabledValue chain)) =
        Except.ok [Value.object 2, Value.object 1, Value.object 0] ∧
      ∃ L, (getRequiredComponents "Component" chain).2 = Except.ok L ∧
        (∀ r, Required chain r → Value.object r ∈ L) ∧
        scanRequired (getRequiredComponents "Component" chain).1
          (2 * chain.components.length + 2) 0
          ((getAll "Component" false chain).filter (enabledValue chain)) = Except.ok L ∧
        whileLoop (getRequiredComponents "Component" chain).1
          (2 * chain.components.length + 2) 2
          ((getAll "Component" false chain).filter (enabledValue chain)) = Except.ok L ∧
        worklistPass (getRequiredComponents "Component" chain).1
          (2 * chain.components.length + 2) []
          ((getAll "Component" false chain).filter (enabledValue chain)) = Except.ok L :=
  ⟨by decide, by decide, by decide,
    first_scan_is_worklist_pass chain (by decide) (by decide)⟩

/-! ## The listing of one kind -/

theorem isPrefixOf_kind_dot :
    ∀ (K k sl : List Char), '.' ∉ K →
      ((K ++ ['.']).isPrefixOf (k ++ '.' :: sl) = true ↔
        k = K ∨ (K ++ ['.']).isPrefixOf k = true)
  | [], [], sl, _ => by simp [List.isPrefixOf]
  | [], c :: k, sl, _ => by simp [List.isPrefixOf]
  | a :: K, [], sl, h => by
    have ha : ¬ a = '.' := fun e => h (by simp [e])
    simp [List.isPrefixOf, ha]
  | a :: K, c :: k, sl, h => by
    have hK : '.' ∉ K := fun e => h (List.mem_cons_of_mem _ e)
    have ih := isPrefixOf_kind_dot K k sl hK
    have e1 : ((a :: K) ++ ['.']).isPrefixOf ((c :: k) ++ '.' :: sl) =
        (a == c && (K ++ ['.']).isPrefixOf (k ++ '.' :: sl)) := rfl
    have e2 : ((a :: K) ++ ['.']).isPrefixOf (c :: k) =
        (a == c && (K ++ ['.']).isPrefixOf k) := rfl
    rw [e1, e2]
    simp only [Bool.and_eq_true, beq_iff_eq, ih, List.cons.injEq]
    constructor
    · rintro ⟨e, h1 | h1⟩
      · exact Or.inl ⟨e.symm, h1⟩
      · exact Or.inr ⟨e, h1⟩
    · rintro (⟨e, h1⟩ | ⟨e, h1⟩)
      · exact ⟨e.symm, Or.inl h1⟩
      · exact ⟨e, Or.inr h1⟩

/-- An identifier built from `kind` and `slug` starts with `K.`, for a name `K`
without a dot, exactly when `kind` is `K` or itself starts with `K.`. -/
theorem startsWith_kind (K kind slug : String) (hK : '.' ∉ K.data) :
    startsWith (kind ++ "." ++ slug) (K ++ ".") = true ↔
      kind = K ∨ startsWith kind (K ++ ".") = true := by
  have hdot : (".": String).data = ['.'] := rfl
  simp only [startsWith, String.data_append, hdot, List.append_assoc, List.singleton_append]
  rw [isPrefixOf_kind_dot K.data kind.data slug.data hK]
  constructor
  · rintro (h | h)
    · exact Or.inl (String.ext h)
    · exact Or.inr h
  · rintro (h | h)
    · exact Or.inl (by rw [h])
    · exact Or.inr h

theorem State.deref_mem {s : State} {r : Ref} (h : r < s.heap.length) : s.deref r ∈ s.heap := by
  simp only [State.deref, List.getD_eq_getElem?_getD, List.getElem?_eq_getElem h,
    Option.getD_some]
  exact List.getElem_mem h

/-- C19 at the failing input: with the classes `A` and `A.B` registered, the
only instance of class `A` is the first one, yet `getAll` called on the class
`A` also returns the instance of `A.B`, whose identifier `A.B.c` passes the
prefix test of line 52; line 48 announces only the components that have the
right class name. -/
theorem getAll_includes_dotted_kind :
    '.' ∉ ("A" : String).data ∧ (dotted.deref 0).kind = "A" ∧ (dotted.deref 1).kind = "A.B" ∧
      (dotted.components.filter (fun p => (dotted.deref p.2).kind == "A")).map
        (fun p => Value.object p.2) = [Value.object 0] ∧
      getAll "A" false dotted = [Value.object 0, Value.object 1] ∧
      getAll "A" true dotted = [Value.string "A.x", Value.string "A.B.c"] := by
  decide

/-- Where the prefix test of line 52 is exact: in a registry built by the
constructor, for a class name `K` without a dot that is not the base class and
that no registered class name extends with a dot, `getAll` called on `K`
returns the registered instances of class `K` and no other, each once, in
table order; with `ids_only` it returns their identifiers. -/
theorem getAll_kind (s : State) (hwf : s.WF) (hbuilt : s.Built) (K : String)
    (hbase : K ≠ "Component") (hK : '.' ∉ K.data)
    (hother : ∀ p ∈ s.components, startsWith (s.deref p.2).kind (K ++ ".") = false) :
    getAll K false s =
        (s.components.filter (fun p => (s.deref p.2).kind == K)).map
          (fun p => Value.object p.2) ∧
      getAll K true s =
        (s.components.filter (fun p => (s.deref p.2).kind == K)).map
          (fun p => Value.string (s.deref p.2).id) ∧
      (getAll K false s).Nodup := by
  have hpred : ∀ p ∈ s.components,
      startsWith p.1 (K ++ ".") = ((s.deref p.2).kind == K) := by
    intro p hp
    have hid : p.1 = (s.deref p.2).kind ++ "." ++ (s.deref p.2).slug := by
      rw [← hwf.2.2.2 p hp]
      exact hbuilt _ (State.deref_mem (hwf.2.2.1 p hp))
    have hiff := startsWith_kind K (s.deref p.2).kind (s.deref p.2).slug hK
    rw [← hid, hother p hp] at hiff
    by_cases hk : (s.deref p.2).kind = K
    · have hl : startsWith p.1 (K ++ ".") = true := hiff.2 (Or.inl hk)
      rw [hl]; simp [hk]
    · have hl : startsWith p.1 (K ++ ".") = false := by
        cases hs : startsWith p.1 (K ++ ".") with
        | false => rfl
        | true =>
          rcases hiff.1 hs with h | h
          · exact absurd h hk
          · cases h
      rw [hl]; simp [hk]
  have hfilter : s.components.filter (fun p => startsWith p.1 (K ++ ".")) =
      s.components.filter (fun p => (s.deref p.2).kind == K) :=
    List.filter_congr hpred
  have h1 := (getAll_subclass s hwf K hbase).1
  rw [hfilter] at h1
  refine ⟨h1, ?_, ?_⟩
  · simp only [getAll, if_neg hbase, Bool.true_eq_false, if_false, hfilter]
    apply List.map_congr_left
    intro p hp
    rw [hwf.2.2.2 p (List.mem_filter.1 hp).1]
  · rw [h1]
    have : (s.components.filter (fun p => (s.deref p.2).kind == K)).map
        (fun p => Value.object p.2) =
        ((s.components.filter (fun p => (s.deref p.2).kind == K)).map Prod.snd).map
          Value.object := by simp
    rw [this]
    exact ((hwf.2.1.sublist ((List.filter_sublist _).map _))).map
      (fun a b h => by simpa using h)

/-- On the tools and the toolbar `Tool` lists its two instances, one of which
has dots in its slug, and not the toolbar. -/
theorem getAll_kind_witness :
    kinds.WF ∧ kinds.Built ∧ '.' ∉ ("Tool" : String).data ∧
      getAll "Tool" false kinds = [Value.object 0, Value.object 2] ∧
      getAll "Tool" true kinds = [Value.string "Tool.a.b", Value.string "Tool.Tool.c"] ∧
      getAll "Tool" false kinds =
        (kinds.components.filter (fun p => (kinds.deref p.2).kind == "Tool")).map
          (fun p => Value.object p.2) :=
  ⟨by decide, by decide, by decide, by decide, by decide,
    (getAll_kind kinds (by decide) (by decide) "Tool" (by decide) (by decide) (by decide)).1⟩

/-- The constructor builds identifiers from class name and slug. -/
theorem registerAll_built (settings : String → Bool) :
    ∀ (args : List Args) (s : State), s.Built → (registerAll settings args s).1.Built
  | [], s, h => h
  | a :: rest, s, h => by
    simp only [registerAll]
    apply registerAll_built settings rest
    intro c hc
    simp only [construct] at hc
    rcases List.mem_append.1 hc with hc | hc
    · exact h c hc
    · rw [List.mem_singleton.1 hc]; rfl

/-! ## The dispatch of hotkey messages -/

theorem trigger_triggers (r : Ref) (hook : Option String) (rt : Runtime) :
    ∃ t, (Component.prototype.trigger r hook rt).triggers = rt.triggers ++ [t] ∧ t.this = r := by
  unfold Component.prototype.trigger
  split
  · cases hook
    · exact ⟨_, rfl, rfl⟩
    · exact ⟨_, rfl, rfl⟩
  · refine ⟨⟨r, some (Component.prototype.waitForComponentReady r rt).2, TriggerPhase.waiting⟩,
      ?_, rfl⟩
    have : (Component.prototype.waitForComponentReady r rt).1.triggers = rt.triggers := by
      unfold Component.prototype.waitForComponentReady
      split <;> rfl
    simp [this]

theorem handleHotkeysMessages_loop_triggers (name : String) (hook : Ref → Option String) :
    ∀ (l : List Value) (rt : Runtime),
      ∃ calls, (Component.handleHotkeysMessages.loop name hook l rt).triggers =
          rt.triggers ++ calls ∧
        calls.map TriggerCall.this = (l.filterMap Value.ref?).filter
          (fun r => decide (name = "trigger-" ++ (rt.reg.deref r).id))
  | [], rt => ⟨[], by simp [Component.handleHotkeysMessages.loop]⟩
  | Value.undefined :: l, rt => by
    simp only [Component.handleHotkeysMessages.loop]
    simpa [Value.ref?] using handleHotkeysMessages_loop_triggers name hook l rt
  | Value.string v :: l, rt => by
    simp only [Component.handleHotkeysMessages.loop]
    simpa [Value.ref?] using handleHotkeysMessages_loop_triggers name hook l rt
  | Value.inherited v :: l, rt => by
    simp only [Component.handleHotkeysMessages.loop]
    simpa [Value.ref?] using handleHotkeysMessages_loop_triggers name hook l rt
  | Value.object r :: l, rt => by
    simp only [Component.handleHotkeysMessages.loop]
    split
    · rename_i hm
      obtain ⟨t, ht, hthis⟩ := trigger_triggers r (hook r) rt
      obtain ⟨calls, h1, h2⟩ := handleHotkeysMessages_loop_triggers name hook l
        (Component.prototype.trigger r (hook r) rt)
      rw [(trigger_frame r (hook r) rt).1] at h2
      refine ⟨t :: calls, by rw [h1, ht]; simp, ?_⟩
      simp [Value.ref?, List.filter_cons, hm, hthis, h2]
    · rename_i hm
      obtain ⟨calls, h1, h2⟩ := handleHotkeysMessages_loop_triggers name hook l rt
      refine ⟨calls, h1, ?_⟩
      simp [Value.ref?, List.filter_cons, hm, h2]

theorem handleHotkeysMessages_loop_reg (name : String) (hook : Ref → Option String) :
    ∀ (l : List Value) (rt : Runtime),
      (Component.handleHotkeysMessages.loop name hook l rt).reg = rt.reg
  | [], rt => rfl
  | Value.undefined :: l, rt => by
    simp only [Component.handleHotkeysMessages.loop]
    exact handleHotkeysMessages_loop_reg name hook l rt
  | Value.string v :: l, rt => by
    simp only [Component.handleHotkeysMessages.loop]
    exact handleHotkeysMessages_loop_reg name hook l rt
  | Value.inherited v :: l, rt => by
    simp only [Component.handleHotkeysMessages.loop]
    exact handleHotkeysMessages_loop_reg name hook l rt
  | Value.object r :: l, rt => by
    simp only [Component.handleHotkeysMessages.loop]
    split
    · rw [handleHotkeysMessages_loop_reg name hook l, (trigger_frame r (hook r) rt).1]
    · exact handleHotkeysMessages_loop_reg name hook l rt

theorem length_le_one_of_nodup {α : Type} :
    ∀ (l : List α), l.Nodup → (∀ a ∈ l, ∀ b ∈ l, a = b) → l.length ≤ 1
  | [], _, _ => Nat.zero_le _
  | [_], _, _ => Nat.le_refl _
  | a :: b :: l, hn, h => by
    have hab : a = b := h a (by simp) b (by simp)
    simp [hab] at hn

theorem append_trigger_cancel {a b : String} (h : "trigger-" ++ a = "trigger-" ++ b) : a = b := by
  have := congrArg String.data h
  simp only [String.data_append] at this
  exact String.ext (List.append_cancel_left this)

/-- C11: in a registry with pairwise distinct identifiers,
`handleHotkeysMessages` calls `trigger` on a component exactly when the
command is `hotkey-pressed` and the name is `trigger-` followed by the
identifier of that registered component; it makes at most one such call, and
it leaves the registry as it is. -/
theorem handleHotkeysMessages_routes (rt : Runtime) (hwf : rt.reg.WF)
    (command name : String) (hook : Ref → Option String) :
    ∃ calls, (Component.handleHotkeysMessages "Component" command name hook rt).triggers =
        rt.triggers ++ calls ∧
      (∀ r, r ∈ calls.map TriggerCall.this ↔
        (rt.reg.Registered r ∧ command = "hotkey-pressed" ∧
          name = "trigger-" ++ (rt.reg.deref r).id)) ∧
      calls.length ≤ 1 ∧
      (Component.handleHotkeysMessages "Component" command name hook rt).reg = rt.reg := by
  unfold Component.handleHotkeysMessages
  by_cases hc : command = "hotkey-pressed"
  · rw [if_pos hc]
    obtain ⟨calls, h1, h2⟩ := handleHotkeysMessages_loop_triggers name hook
      (getAll "Component" false rt.reg) rt
    have hrefs : (getAll "Component" false rt.reg).filterMap Value.ref? =
        (rt.reg.components.map Prod.snd).reverse := by
      rw [getAll_base, List.filterMap_reverse, List.filterMap_map]
      congr 1
      rw [← List.filterMap_eq_map]
      rfl
    rw [hrefs] at h2
    have hmem : ∀ r, r ∈ calls.map TriggerCall.this ↔
        (rt.reg.Registered r ∧ name = "trigger-" ++ (rt.reg.deref r).id) := by
      intro r
      rw [h2, List.mem_filter, List.mem_reverse]
      simp [State.Registered]
    refine ⟨calls, h1, fun r => ?_, ?_, ?_⟩
    · rw [hmem]
      exact ⟨fun h => ⟨h.1, hc, h.2⟩, fun h => ⟨h.1, h.2.2⟩⟩
    · have hn : (calls.map TriggerCall.this).Nodup := by
        rw [h2]
        exact (List.nodup_reverse.2 hwf.2.1).filter _
      have := length_le_one_of_nodup _ hn (fun a ha b hb => by
        rw [hmem] at ha hb
        exact hwf.id_injective ha.1 hb.1 (append_trigger_cancel (ha.2.symm.trans hb.2)))
      simpa using this
    · exact handleHotkeysMessages_loop_reg name hook _ rt
  · rw [if_neg hc]
    refine ⟨[], by simp, fun r => ?_, Nat.zero_le _, rfl⟩
    simp [hc]

/-- C11 on the scenario, once the listener is registered: the message named
`trigger-Tool.c` triggers C and nothing else; another command, or a name that
matches no identifier, triggers nothing. -/
theorem handleHotkeysMessages_routes_witness :
    chainDone.reg.WF ∧
      (Component.handleHotkeysMessages "Component" "hotkey-pressed" "trigger-Tool.c"
        (fun _ => none) chainDone).triggers.map TriggerCall.this = [2] ∧
      (Component.handleHotkeysMessages "Component" "other" "trigger-Tool.c"
        (fun _ => none) chainDone).triggers = [] ∧
      (Component.handleHotkeysMessages "Component" "hotkey-pressed" "trigger-Tool.zz"
        (fun _ => none) chainDone).triggers = [] ∧
      ∃ calls, (Component.handleHotkeysMessages "Component" "hotkey-pressed" "trigger-Tool.c"
          (fun _ => none) chainDone).triggers = chainDone.triggers ++ calls ∧
        (∀ r, r ∈ calls.map TriggerCall.this ↔
          (chainDone.reg.Registered r ∧ "hotkey-pressed" = "hotkey-pressed" ∧
            "trigger-Tool.c" = "trigger-" ++ (chainDone.reg.deref r).id)) ∧
        calls.length ≤ 1 ∧
        (Component.handleHotkeysMessages "Component" "hotkey-pressed" "trigger-Tool.c"
          (fun _ => none) chainDone).reg = chainDone.reg :=
  ⟨by decide, by decide, by decide, by decide,
    handleHotkeysMessages_routes chainDone (by decide) "hotkey-pressed" "trigger-Tool.c"
      (fun _ => none)⟩

/-! ## Failures of the hook and of the dependency wait -/

/-- C18: when `trigger` is called on C before C is ready and the hook throws
once it runs, the hook has run and the promise of `trigger` is left pending
for ever, neither resolved nor rejected; called on C when it is ready, the
promise is rejected with the message. -/
theorem trigger_unsettled_when_hook_throws_after_wait :
    (run earlyClickSchedule (Component.init "Component" chain)).map
        (fun rt => (rt.hookCalls, rt.triggers)) =
      some ([2], [⟨2, some 2, TriggerPhase.unsettled⟩]) ∧
    (run lateClickSchedule (Component.init "Component" chain)).map
        (fun rt => (rt.hookCalls, rt.triggers)) =
      some ([2], [⟨2, none, TriggerPhase.rejected
        "An error occured while trying to trigger the component Tool.c. Error : boom"⟩]) := by
  decide

/-- C14: for the component P whose only dependency is the identifier
`toString`, registered by no component, `getById` finds the function of
`Object.prototype`, `waitForDependencies` throws instead of skipping it, and
the promise of `init` is rejected; for D with the dependency `ghost` it waits
on nothing and `init` makes D ready, dispatches its event and resolves. -/
theorem waitForDependencies_throws_on_prototype_key :
    proto.lookup "toString" = none ∧
      getById proto "toString" = Value.inherited "toString" ∧
      (Component.prototype.waitForDependencies 0 (Runtime.start proto)).2 =
        Except.error Failure.typeError ∧
      (Component.prototype.init 0 (Runtime.start proto)).inits = [⟨0, [], Phase.rejected⟩] ∧
      (Component.prototype.waitForDependencies 0 (Runtime.start ghost)).2 = Except.ok [] ∧
      (run soloSchedule (Component.prototype.init 0 (Runtime.start ghost))).map
          (fun rt => ((rt.reg.deref 0).is_ready, rt.broadcasts, rt.inits)) =
        some (true, [0], [⟨0, [], Phase.resolved⟩]) := by
  decide

theorem waitForDependencies_loop_waits :
    ∀ (ds : List String) (acc : List Nat) (rt : Runtime),
      (∀ d ∈ ds, ∀ v, getById rt.reg d ≠ Value.inherited v) →
      ∃ L, (Component.prototype.waitForDependencies.loop ds acc rt).2 = Except.ok L ∧
        L.length = acc.length + (ds.filter (fun d => (rt.reg.lookup d).isSome)).length ∧
        (Component.prototype.waitForDependencies.loop ds acc rt).1.promises.length =
          rt.promises.length + (ds.filter (fun d => (rt.reg.lookup d).isSome)).length
  | [], acc, rt, _ => ⟨acc, rfl, by simp, by simp [Component.prototype.waitForDependencies.loop]⟩
  | d :: ds, acc, rt, h => by
    have hrest : ∀ d2 ∈ ds, ∀ v, getById rt.reg d2 ≠ Value.inherited v :=
      fun d2 hd2 => h d2 (List.mem_cons_of_mem _ hd2)
    cases hg : getById rt.reg d with
    | undefined =>
      rw [waitForDependencies_loop_undefined hg]
      have hl : (rt.reg.lookup d).isSome = false := by
        unfold getById at hg
        cases hlk : rt.reg.lookup d with
        | none => rfl
        | some r => rw [hlk] at hg; cases hg
      obtain ⟨L, h1, h2, h3⟩ := waitForDependencies_loop_waits ds acc rt hrest
      exact ⟨L, h1, by simp [List.filter_cons, hl, h2], by simp [List.filter_cons, hl, h3]⟩
    | inherited v => exact absurd hg (h d (List.mem_cons_self _ _) v)
    | string v => exact absurd hg (getById_ne_string _ _ _)
    | object r =>
      rw [waitForDependencies_loop_object hg]
      have hl : (rt.reg.lookup d).isSome = true := by
        unfold getById at hg
        cases hlk : rt.reg.lookup d with
        | none =>
          rw [hlk] at hg
          simp only at hg
          split at hg <;> cases hg
        | some r => rfl
      have hreg := (waitForComponentReady_frame r rt).1
      have hlen : (Component.prototype.waitForComponentReady r rt).1.promises.length =
          rt.promises.length + 1 := by
        unfold Component.prototype.waitForComponentReady
        split <;> simp
      obtain ⟨L, h1, h2, h3⟩ := waitForDependencies_loop_waits ds
        (acc ++ [(Component.prototype.waitForComponentReady r rt).2])
        (Component.prototype.waitForComponentReady r rt).1 (by rw [hreg]; exact hrest)
      rw [hreg] at h2 h3
      refine ⟨L, h1, ?_, ?_⟩
      · rw [h2]; simp [List.filter_cons, hl]; omega
      · rw [h3, hlen]; simp [List.filter_cons, hl]; omega

/-- When no declared identifier names a property of `Object.prototype`,
`waitForDependencies` returns one new promise for each declared identifier
that resolves to a registered component, and none for the others. -/
theorem waitForDependencies_waits (this : Ref) (rt : Runtime)
    (h : ∀ d ∈ (rt.reg.deref this).dependencies, ∀ v, getById rt.reg d ≠ Value.inherited v) :
    ∃ L, (Component.prototype.waitForDependencies this rt).2 = Except.ok L ∧
      L.length = ((rt.reg.deref this).dependencies.filter
        (fun d => (rt.reg.lookup d).isSome)).length ∧
      (Component.prototype.waitForDependencies this rt).1.promises.length =
        rt.promises.length + L.length := by
  obtain ⟨L, h1, h2, h3⟩ :=
    waitForDependencies_loop_waits (rt.reg.deref this).dependencies [] rt h
  refine ⟨L, h1, by simpa using h2, ?_⟩
  rw [show Component.prototype.waitForDependencies this rt =
    Component.prototype.waitForDependencies.loop (rt.reg.deref this).dependencies [] rt from rfl,
    h3, h2]
  simp

/-! ## Every action, case by case -/

theorem step_effect {rt rt2 : Runtime} (a : Action) (hs : step a rt = some rt2) :
    Effect rt rt2 := by
  cases a with
  | depsDone i throws =>
    simp only [step] at hs
    cases hi : rt.inits.get? i with
    | none => rw [hi] at hs; cases hs
    | some t =>
      rw [hi] at hs
      simp only at hs
      rw [List.get?_eq_getElem?] at hi
      split at hs
      · rename_i hc
        split at hs
        · rename_i hd
          split at hs
          · simp only [Option.some.injEq] at hs
            subst hs
            exact Effect.buttonFails rt i t hi hc.1 hc.2 hd
          · simp only [Option.some.injEq] at hs
            subst hs
            exact Effect.button rt i t hi hc.1 hc.2 hd
        · rename_i hd
          simp only [Option.some.injEq] at hs
          subst hs
          exact Effect.skipButton rt i t hi hc.1 hc.2 (by simpa using hd)
      · cases hs
  | ready i =>
    simp only [step] at hs
    cases hi : rt.inits.get? i with
    | none => rw [hi] at hs; cases hs
    | some t =>
      rw [hi] at hs
      simp only at hs
      rw [List.get?_eq_getElem?] at hi
      split at hs
      · rename_i hc
        simp only [Option.some.injEq] at hs
        subst hs
        exact Effect.ready rt i t hi hc
      · cases hs
  | settle i =>
    simp only [step] at hs
    cases hi : rt.inits.get? i with
    | none => rw [hi] at hs; cases hs
    | some t =>
      rw [hi] at hs
      simp only at hs
      rw [List.get?_eq_getElem?] at hi
      split at hs
      · rename_i hc
        simp only [Option.some.injEq] at hs
        subst hs
        exact Effect.resolve rt i t hi hc
      · split at hs
        · rename_i hc
          simp only [Option.some.injEq] at hs
          subst hs
          exact Effect.reject rt i t hi hc
        · cases hs
  | listen throws =>
    simp only [step] at hs
    split at hs
    · rename_i hc
      simp only [Option.some.injEq] at hs
      subst hs
      exact Effect.listen rt throws hc.1 (fun t ht => by
        have := List.all_eq_true.1 hc.2 t ht
        simpa using this)
    · cases hs
  | abort i =>
    simp only [step] at hs
    cases hi : rt.inits.get? i with
    | none => rw [hi] at hs; cases hs
    | some t =>
      rw [hi] at hs
      simp only at hs
      split at hs
      · rename_i hc
        simp only [Option.some.injEq] at hs
        subst hs
        exact Effect.abort rt hc.1
      · cases hs
  | message command name hook =>
    simp only [step] at hs
    split at hs
    · rename_i hc
      simp only [Option.some.injEq] at hs
      subst hs
      exact Effect.message rt command name hook hc
    · cases hs
  | click r hook =>
    simp only [step] at hs
    split at hs
    · rename_i hc
      simp only [Option.some.injEq] at hs
      subst hs
      exact Effect.click rt r hook hc
    · cases hs
  | hook j outcome =>
    simp only [step] at hs
    cases hj : rt.triggers.get? j with
    | none => rw [hj] at hs; cases hs
    | some t =>
      rw [hj] at hs
      simp only at hs
      rw [List.get?_eq_getElem?] at hj
      split at hs
      · rename_i hc
        cases hw : t.wait with
        | none => rw [hw] at hc; simp at hc
        | some p =>
          have hf : rt.fulfilled p = true := by
            have := hc.2
            rw [hw] at this
            simpa using this
          cases outcome with
          | none =>
            simp only [Option.some.injEq] at hs
            subst hs
            exact Effect.hook rt j t p TriggerPhase.resolved hj hc.1 hw hf (by intro e; cases e)
          | some e =>
            simp only [Option.some.injEq] at hs
            subst hs
            exact Effect.hook rt j t p TriggerPhase.unsettled hj hc.1 hw hf
              (by intro e; cases e)
      · cases hs

/-! ## The second invariant -/

theorem Good2.setPhase_good2 {reg : State} {promises : List ReadyPromise}
    {listeners : List (String × Nat)} {broadcasts : List Ref} {inits : List InitCall}
    {triggers : List TriggerCall} {hookCalls : List Ref}
    (h : Good2 reg promises listeners broadcasts inits triggers hookCalls)
    {i : Nat} {t : InitCall} (hi : inits[i]? = some t) (phase : Phase)
    (hph : (reg.deref t.this).is_ready = true →
      phase = Phase.dispatched ∨ phase = Phase.resolved) :
    Good2 reg promises listeners broadcasts
      (inits.modify (fun t => { t with phase := phase }) i) triggers hookCalls := by
  have ht : t ∈ inits := List.getElem?_mem hi
  have hmem : ∀ x ∈ inits.modify (fun t => { t with phase := phase }) i,
      x ∈ inits ∨ x = { t with phase := phase } := by
    intro x hx
    rcases mem_modify hx with hx | ⟨y, hy, e⟩
    · exact Or.inl hx
    · rw [hi] at hy
      simp only [Option.some.injEq] at hy
      subst hy
      exact Or.inr e
  exact {
    broadcast_ready := h.broadcast_ready
    broadcast_order := h.broadcast_order
    wait_target := h.wait_target
    hook_ready := h.hook_ready
    settled_hook := h.settled_hook
    ready_phase := by
      intro x hx hr
      rcases hmem x hx with hx | hx
      · exact h.ready_phase x hx hr
      · rw [hx] at hr ⊢; exact hph hr
    inits_nodup := by
      rw [map_modify_of_eq InitCall.this (fun t => { t with phase := phase }) (fun _ => rfl)]
      exact h.inits_nodup
    pending_listener := h.pending_listener
    waits_sound := by
      intro x hx
      rcases hmem x hx with hx | hx
      · exact h.waits_sound x hx
      · rw [hx]; exact h.waits_sound t ht }

theorem Good2.reg_congr {reg reg2 : State} {promises : List ReadyPromise}
    {listeners : List (String × Nat)} {broadcasts : List Ref} {inits : List InitCall}
    {triggers : List TriggerCall} {hookCalls : List Ref}
    (h : Good2 reg promises listeners broadcasts inits triggers hookCalls)
    (hc : reg2.components = reg.components)
    (hready : ∀ r, (reg2.deref r).is_ready = (reg.deref r).is_ready)
    (hdeps : ∀ r, (reg2.deref r).dependencies = (reg.deref r).dependencies)
    (hid : ∀ r, (reg2.deref r).id = (reg.deref r).id) :
    Good2 reg2 promises listeners broadcasts inits triggers hookCalls := by
  have hget : ∀ d, getById reg2 d = getById reg d := getById_of_components hc
  exact {
    broadcast_ready := fun r hr => by rw [hready]; exact h.broadcast_ready r hr
    broadcast_order := fun k r hk d hd r2 h2 => by
      rw [hdeps] at hd
      rw [hget] at h2
      exact h.broadcast_order k r hk d hd r2 h2
    wait_target := h.wait_target
    hook_ready := fun r hr => by rw [hready]; exact h.hook_ready r hr
    settled_hook := h.settled_hook
    ready_phase := fun t ht hr => by rw [hready] at hr; exact h.ready_phase t ht hr
    inits_nodup := h.inits_nodup
    pending_listener := fun p w hp hs => by
      rw [hid, hready]; exact h.pending_listener p w hp hs
    waits_sound := fun t ht p hp => by
      obtain ⟨w, hw, d, hd, hg⟩ := h.waits_sound t ht p hp
      exact ⟨w, hw, d, by rw [hdeps]; exact hd, by rw [hget]; exact hg⟩ }

theorem State.setButton_frame (s : State) (r : Ref) :
    (s.setButton r).components = s.components ∧
    (∀ r2, ((s.setButton r).deref r2).is_ready = (s.deref r2).is_ready) ∧
    (∀ r2, ((s.setButton r).deref r2).dependencies = (s.deref r2).dependencies) ∧
    (∀ r2, ((s.setButton r).deref r2).id = (s.deref r2).id) := by
  have hd : ∀ r2, (s.setButton r).deref r2 = { s.deref r2 with button := true } ∨
      (s.setButton r).deref r2 = s.deref r2 := by
    intro r2
    rw [State.deref_setButton]
    split
    · exact Or.inl rfl
    · exact Or.inr rfl
  refine ⟨rfl, ?_, ?_, ?_⟩ <;> intro r2 <;> rcases hd r2 with e | e <;> rw [e]

theorem State.setReady_frame (s : State) (r : Ref) :
    (s.setReady r true).components = s.components ∧
    (∀ r2, ((s.setReady r true).deref r2).is_ready = true ↔
      ((r = r2 ∧ r < s.heap.length) ∨ (s.deref r2).is_ready = true)) ∧
    (∀ r2, ((s.setReady r true).deref r2).dependencies = (s.deref r2).dependencies) ∧
    (∀ r2, ((s.setReady r true).deref r2).id = (s.deref r2).id) ∧
    (∀ r2, ((s.setReady r true).deref r2).button = (s.deref r2).button) := by
  refine ⟨rfl, ?_, ?_, ?_, ?_⟩
  · intro r2
    rw [State.deref_setReady]
    by_cases hc : r = r2 ∧ r < s.heap.length
    · rw [if_pos hc]
      exact ⟨fun _ => Or.inl hc, fun _ => rfl⟩
    · rw [if_neg hc]
      exact ⟨fun h => Or.inr h, fun h => h.resolve_left hc⟩
  · intro r2; rw [State.deref_setReady]; split <;> rfl
  · intro r2; rw [State.deref_setReady]; split <;> rfl
  · intro r2; rw [State.deref_setReady]; split <;> rfl

theorem Inv2.waitForComponentReady_inv2 {rt : Runtime} (h : Inv2 rt) (r : Ref) :
    Inv2 (Component.prototype.waitForComponentReady r rt).1 := by
  have hget : ∀ (x : ReadyPromise) (p : Nat) (w : ReadyPromise), rt.promises[p]? = some w →
      (rt.promises ++ [x])[p]? = some w := by
    intro x p w hp
    rw [List.getElem?_append_left (List.getElem?_eq_some_iff.1 hp).1]; exact hp
  have hold : ∀ (x : ReadyPromise) (p : Nat) (w : ReadyPromise),
      (rt.promises ++ [x])[p]? = some w → rt.promises[p]? = some w ∨
        (p = rt.promises.length ∧ w = x) := by
    intro x p w hp
    by_cases hlt : p < rt.promises.length
    · rw [List.getElem?_append_left hlt] at hp; exact Or.inl hp
    · rw [List.getElem?_append_right (Nat.le_of_not_lt hlt)] at hp
      have hz : p - rt.promises.length = 0 := by
        by_contra hne
        have hpos : 0 < p - rt.promises.length := Nat.pos_of_ne_zero hne
        rw [List.getElem?_eq_none (by simp only [List.length_singleton]; omega)] at hp
        cases hp
      rw [hz] at hp
      simp only [List.getElem?_cons_zero, Option.some.injEq] at hp
      exact Or.inr ⟨by omega, hp.symm⟩
  by_cases hready : (rt.reg.deref r).is_ready = true
  · rw [waitForComponentReady_of_ready r rt hready]
    exact {
      broadcast_ready := h.broadcast_ready
      broadcast_order := h.broadcast_order
      wait_target := fun t ht hp => by
        obtain ⟨p, w, h1, h2, h3⟩ := h.wait_target t ht hp
        exact ⟨p, w, h1, hget _ p w h2, h3⟩
      hook_ready := h.hook_ready
      settled_hook := h.settled_hook
      ready_phase := h.ready_phase
      inits_nodup := h.inits_nodup
      pending_listener := fun p w hp hs => by
        rcases hold _ p w hp with hp | ⟨_, e⟩
        · exact h.pending_listener p w hp hs
        · rw [e] at hs; cases hs
      waits_sound := fun t ht p hp => by
        obtain ⟨w, hw, hd⟩ := h.waits_sound t ht p hp
        exact ⟨w, hget _ p w hw, hd⟩ }
  · have hnot : (rt.reg.deref r).is_ready = false := by simpa using hready
    rw [waitForComponentReady_of_not_ready r rt hnot]
    exact {
      broadcast_ready := h.broadcast_ready
      broadcast_order := h.broadcast_order
      wait_target := fun t ht hp => by
        obtain ⟨p, w, h1, h2, h3⟩ := h.wait_target t ht hp
        exact ⟨p, w, h1, hget _ p w h2, h3⟩
      hook_ready := h.hook_ready
      settled_hook := h.settled_hook
      ready_phase := h.ready_phase
      inits_nodup := h.inits_nodup
      pending_listener := fun p w hp hs => by
        rcases hold _ p w hp with hp | ⟨e1, e2⟩
        · exact ⟨List.mem_append_left _ (h.pending_listener p w hp hs).1,
            (h.pending_listener p w hp hs).2⟩
        · subst e2
          exact ⟨List.mem_append_right _ (by rw [e1]; exact List.mem_singleton_self _), hnot⟩
      waits_sound := fun t ht p hp => by
        obtain ⟨w, hw, hd⟩ := h.waits_sound t ht p hp
        exact ⟨w, hget _ p w hw, hd⟩ }

theorem Inv2.trigger_inv2 {rt : Runtime} (h : Inv2 rt) (r : Ref) (hook : Option String) :
    Inv2 (Component.prototype.trigger r hook rt) := by
  unfold Component.prototype.trigger
  split
  · rename_i hready
    have hnew : ∀ (c : TriggerCall), c.this = r → c.phase ≠ TriggerPhase.waiting →
        Good2 rt.reg rt.promises rt.listeners rt.broadcasts rt.inits (rt.triggers ++ [c])
          (rt.hookCalls ++ [r]) := by
      intro c hc hp
      exact {
        broadcast_ready := h.broadcast_ready
        broadcast_order := h.broadcast_order
        wait_target := fun t ht hw => by
          rcases List.mem_append.1 ht with ht | ht
          · exact h.wait_target t ht hw
          · rw [List.mem_singleton.1 ht] at hw; exact absurd hw hp
        hook_ready := fun r2 hr2 => by
          rcases List.mem_append.1 hr2 with hr2 | hr2
          · exact h.hook_ready r2 hr2
          · rw [List.mem_singleton.1 hr2]; exact hready
        settled_hook := fun t ht hw => by
          rcases List.mem_append.1 ht with ht | ht
          · exact List.mem_append_left _ (h.settled_hook t ht hw)
          · rw [List.mem_singleton.1 ht, hc]
            exact List.mem_append_right _ (List.mem_singleton_self _)
        ready_phase := h.ready_phase
        inits_nodup := h.inits_nodup
        pending_listener := h.pending_listener
        waits_sound := h.waits_sound }
    cases hook with
    | none => exact hnew _ rfl (by intro e; cases e)
    | some e => exact hnew _ rfl (by intro e; cases e)
  · have hw := Inv2.waitForComponentReady_inv2 h r
    have hp := (waitForComponentReady_frame r rt).2.2.2.2.2.2
    have hsnd := waitForComponentReady_snd r rt
    exact {
      broadcast_ready := hw.broadcast_ready
      broadcast_order := hw.broadcast_order
      wait_target := fun t ht hph => by
        rcases List.mem_append.1 ht with ht | ht
        · exact hw.wait_target t ht hph
        · rw [List.mem_singleton.1 ht]
          cases hx : (Component.prototype.waitForComponentReady r rt).1.promises[
              (Component.prototype.waitForComponentReady r rt).2]? with
          | none => rw [hx] at hp; cases hp
          | some w =>
            rw [hx] at hp
            simp only [Option.map_some', Option.some.injEq] at hp
            exact ⟨_, w, rfl, hx, hp⟩
      hook_ready := hw.hook_ready
      settled_hook := fun t ht hph => by
        rcases List.mem_append.1 ht with ht | ht
        · exact hw.settled_hook t ht hph
        · rw [List.mem_singleton.1 ht] at hph; exact absurd rfl hph
      ready_phase := hw.ready_phase
      inits_nodup := hw.inits_nodup
      pending_listener := hw.pending_listener
      waits_sound := hw.waits_sound }

theorem Inv2.handleHotkeysMessages_loop (name : String) (hook : Ref → Option String) :
    ∀ (l : List Value) (rt : Runtime), Inv2 rt →
      Inv2 (Component.handleHotkeysMessages.loop name hook l rt)
  | [], rt, h => h
  | Value.undefined :: l, rt, h => by
    simp only [Component.handleHotkeysMessages.loop]
    exact Inv2.handleHotkeysMessages_loop name hook l rt h
  | Value.string v :: l, rt, h => by
    simp only [Component.handleHotkeysMessages.loop]
    exact Inv2.handleHotkeysMessages_loop name hook l rt h
  | Value.inherited v :: l, rt, h => by
    simp only [Component.handleHotkeysMessages.loop]
    exact Inv2.handleHotkeysMessages_loop name hook l rt h
  | Value.object r :: l, rt, h => by
    simp only [Component.handleHotkeysMessages.loop]
    split
    · exact Inv2.handleHotkeysMessages_loop name hook l _ (Inv2.trigger_inv2 h r (hook r))
    · exact Inv2.handleHotkeysMessages_loop name hook l rt h

theorem mem_modify_index {α : Type} {l : List α} {f : α → α} {i : Nat} {x : α}
    (h : x ∈ l.modify f i) :
    (∃ j, j ≠ i ∧ l[j]? = some x) ∨ ∃ y, l[i]? = some y ∧ x = f y := by
  obtain ⟨j, hj⟩ := List.getElem?_of_mem h
  rw [List.getElem?_modify] at hj
  cases hl : l[j]? with
  | none => rw [hl] at hj; cases hj
  | some a =>
    rw [hl] at hj
    simp only [Option.map_eq_map, Option.map_some', Option.some.injEq] at hj
    by_cases e : i = j
    · subst e
      rw [if_pos rfl] at hj
      exact Or.inr ⟨a, hl, hj.symm⟩
    · rw [if_neg e] at hj
      subst hj
      exact Or.inl ⟨j, fun e2 => e e2.symm, hl⟩

theorem index_eq_of_nodup_map {α β : Type} (g : α → β) {l : List α} (hn : (l.map g).Nodup)
    {i j : Nat} {a b : α} (hi : l[i]? = some a) (hj : l[j]? = some b) (h : g a = g b) :
    i = j := by
  have h1 : (l.map g)[i]? = some (g a) := by rw [List.getElem?_map, hi]; rfl
  have h2 : (l.map g)[j]? = some (g a) := by rw [List.getElem?_map, hj, h]; rfl
  have hil : i < (l.map g).length := (List.getElem?_eq_some_iff.1 h1).1
  have hjl : j < (l.map g).length := (List.getElem?_eq_some_iff.1 h2).1
  rcases Nat.lt_trichotomy i j with hlt | heq | hgt
  · exact absurd (h1.trans h2.symm) (List.nodup_iff_getElem?_ne_getElem?.1 hn i j hlt hjl)
  · exact heq
  · exact absurd (h2.trans h1.symm) (List.nodup_iff_getElem?_ne_getElem?.1 hn j i hgt hil)

theorem Good2.hook {reg : State} {promises : List ReadyPromise}
    {listeners : List (String × Nat)} {broadcasts : List Ref} {inits : List InitCall}
    {triggers : List TriggerCall} {hookCalls : List Ref}
    (h : Good2 reg promises listeners broadcasts inits triggers hookCalls)
    {j : Nat} {t : TriggerCall} (hj : triggers[j]? = some t)
    (hready : (reg.deref t.this).is_ready = true) (phase : TriggerPhase)
    (hphase : phase ≠ TriggerPhase.waiting) :
    Good2 reg promises listeners broadcasts inits
      (triggers.modify (fun t => { t with phase := phase }) j) (hookCalls ++ [t.this]) := by
  have hmem : ∀ x ∈ triggers.modify (fun t => { t with phase := phase }) j,
      x ∈ triggers ∨ x = { t with phase := phase } := by
    intro x hx
    rcases mem_modify hx with hx | ⟨y, hy, e⟩
    · exact Or.inl hx
    · rw [hj] at hy
      simp only [Option.some.injEq] at hy
      subst hy
      exact Or.inr e
  exact {
    broadcast_ready := h.broadcast_ready
    broadcast_order := h.broadcast_order
    wait_target := fun x hx hw => by
      rcases hmem x hx with hx | hx
      · exact h.wait_target x hx hw
      · rw [hx] at hw; exact absurd hw hphase
    hook_ready := fun r hr => by
      rcases List.mem_append.1 hr with hr | hr
      · exact h.hook_ready r hr
      · rw [List.mem_singleton.1 hr]; exact hready
    settled_hook := fun x hx hw => by
      rcases hmem x hx with hx | hx
      · exact List.mem_append_left _ (h.settled_hook x hx hw)
      · rw [hx]; exact List.mem_append_right _ (List.mem_singleton_self _)
    ready_phase := h.ready_phase
    inits_nodup := h.inits_nodup
    pending_listener := h.pending_listener
    waits_sound := h.waits_sound }

theorem Good2.ready {reg : State} {promises promises2 : List ReadyPromise}
    {listeners : List (String × Nat)} {broadcasts : List Ref} {inits : List InitCall}
    {triggers : List TriggerCall} {hookCalls : List Ref} {hotkeys : Bool}
    (h : Good2 reg promises listeners broadcasts inits triggers hookCalls)
    (hg : Good reg promises listeners broadcasts inits hotkeys)
    {i : Nat} {t : InitCall} (hi : inits[i]? = some t) (hphase : t.phase = Phase.rendered)
    (hdisp : ∀ p : Nat, promises2[p]? = (promises[p]?).map (fun w =>
      if ((reg.deref t.this).id ++ "-ready", p) ∈ listeners then w.resolve else w)) :
    Good2 (reg.setReady t.this true) promises2 listeners (broadcasts ++ [t.this])
      (inits.modify (fun t => { t with phase := Phase.dispatched }) i) triggers hookCalls := by
  have ht : t ∈ inits := List.getElem?_mem hi
  obtain ⟨fc, fr, fd, fid, _⟩ := State.setReady_frame reg t.this
  have hvalid : t.this < reg.heap.length := hg.wf.valid (hg.init_registered t ht)
  have hget : ∀ d, getById (reg.setReady t.this true) d = getById reg d :=
    getById_of_components fc
  have hmono : ∀ r, (reg.deref r).is_ready = true →
      ((reg.setReady t.this true).deref r).is_ready = true := fun r hr => (fr r).2 (Or.inr hr)
  have hself : ((reg.setReady t.this true).deref t.this).is_ready = true :=
    (fr t.this).2 (Or.inl ⟨rfl, hvalid⟩)
  have hps : ∀ (p : Nat) (w2 : ReadyPromise), promises2[p]? = some w2 →
      ∃ w, promises[p]? = some w ∧ w2.this = w.this ∧
        (w2.state = PromiseState.pending → w2 = w ∧
          ((reg.deref t.this).id ++ "-ready", p) ∉ listeners) := by
    intro p w2 hp
    rw [hdisp] at hp
    cases hw : promises[p]? with
    | none => rw [hw] at hp; cases hp
    | some w =>
      rw [hw] at hp
      simp only [Option.map_some', Option.some.injEq] at hp
      refine ⟨w, rfl, ?_, ?_⟩
      · rw [← hp]; split
        · exact w.resolve_this
        · rfl
      · intro hs
        split at hp
        · rw [← hp, w.resolve_state] at hs; cases hs
        · rename_i hc; exact ⟨hp.symm, hc⟩
  have hps2 : ∀ (p : Nat) (w : ReadyPromise), promises[p]? = some w →
      ∃ w2, promises2[p]? = some w2 ∧ w2.this = w.this := by
    intro p w hw
    refine ⟨_, by rw [hdisp, hw]; rfl, ?_⟩
    split
    · exact w.resolve_this
    · rfl
  exact {
    broadcast_ready := fun r hr => by
      rcases List.mem_append.1 hr with hr | hr
      · exact hmono r (h.broadcast_ready r hr)
      · rw [List.mem_singleton.1 hr]; exact hself
    broadcast_order := fun k r hk d hd r2 h2 => by
      rw [fd] at hd
      rw [hget] at h2
      by_cases hlt : k < broadcasts.length
      · rw [List.getElem?_append_left hlt] at hk
        obtain ⟨k2, hk2, hb⟩ := h.broadcast_order k r hk d hd r2 h2
        exact ⟨k2, hk2, by rw [List.getElem?_append_left (by omega)]; exact hb⟩
      · have hmem : r ∈ broadcasts ++ [t.this] := List.getElem?_mem hk
        have hkl : k < (broadcasts ++ [t.this]).length := (List.getElem?_eq_some_iff.1 hk).1
        simp only [List.length_append, List.length_singleton] at hkl
        have hke : k = broadcasts.length := by omega
        subst hke
        rw [List.getElem?_append_right (Nat.le_refl _)] at hk
        simp only [Nat.sub_self, List.getElem?_cons_zero, Option.some.injEq] at hk
        subst hk
        have := (hg.past_deps t ht (by rw [hphase]; rfl) d hd r2 h2).2
        obtain ⟨k2, hk2⟩ := List.getElem?_of_mem this
        have hk2l : k2 < broadcasts.length := (List.getElem?_eq_some_iff.1 hk2).1
        exact ⟨k2, hk2l, by rw [List.getElem?_append_left hk2l]; exact hk2⟩
    wait_target := fun x hx hw => by
      obtain ⟨p, w, h1, h2, h3⟩ := h.wait_target x hx hw
      obtain ⟨w2, hw2, e⟩ := hps2 p w h2
      exact ⟨p, w2, h1, hw2, e.trans h3⟩
    hook_ready := fun r hr => hmono r (h.hook_ready r hr)
    settled_hook := h.settled_hook
    ready_phase := fun x hx hr => by
      rcases mem_modify_index hx with ⟨j, hji, hj⟩ | ⟨y, hy, e⟩
      · rcases (fr x.this).1 hr with ⟨e, _⟩ | hold
        · exact absurd (index_eq_of_nodup_map InitCall.this h.inits_nodup hj hi e.symm) hji
        · exact h.ready_phase x (List.getElem?_mem hj) hold
      · rw [e]; exact Or.inl rfl
    inits_nodup := by
      rw [map_modify_of_eq InitCall.this (fun t => { t with phase := Phase.dispatched })
        (fun _ => rfl)]
      exact h.inits_nodup
    pending_listener := fun p w2 hp hs => by
      obtain ⟨w, hw, _, hcase⟩ := hps p w2 hp
      obtain ⟨e, hnl⟩ := hcase hs
      subst e
      obtain ⟨h1, h2⟩ := h.pending_listener p w2 hw hs
      rw [fid]
      refine ⟨h1, ?_⟩
      cases hr : ((reg.setReady t.this true).deref w2.this).is_ready with
      | false => rfl
      | true =>
        rcases (fr w2.this).1 hr with ⟨e, _⟩ | hold
        · rw [← e] at h1; exact absurd h1 hnl
        · rw [h2] at hold; cases hold
    waits_sound := fun x hx p hp => by
      have hx2 : ∃ y ∈ inits, y.this = x.this ∧ y.waits = x.waits := by
        rcases mem_modify hx with hx | ⟨y, hy, e⟩
        · exact ⟨x, hx, rfl, rfl⟩
        · exact ⟨y, List.getElem?_mem hy, by rw [e], by rw [e]⟩
      obtain ⟨y, hy, e1, e2⟩ := hx2
      obtain ⟨w, hw, d, hd, hgd⟩ := h.waits_sound y hy p (e2 ▸ hp)
      obtain ⟨w2, hw2, e⟩ := hps2 p w hw
      exact ⟨w2, hw2, d, by rw [fd, ← e1]; exact hd, by rw [hget, e]; exact hgd⟩ }

/-- Every action preserves the second invariant. -/
theorem Inv2.effect {rt rt2 : Runtime} (hg : Inv rt) (h : Inv2 rt) (he : Effect rt rt2) :
    Inv2 rt2 := by
  cases he with
  | skipButton i t hi hp hw hd =>
    exact Good2.setPhase_good2 h hi Phase.rendered (fun hr => by
      have := h.ready_phase t (List.getElem?_mem hi) hr
      rw [hp] at this
      rcases this with e | e <;> cases e)
  | button i t hi hp hw hd =>
    obtain ⟨f1, f2, f3, f4⟩ := State.setButton_frame rt.reg t.this
    have h1 : Good2 rt.reg rt.promises rt.listeners rt.broadcasts
        (rt.inits.modify (fun t => { t with phase := Phase.rendered }) i) rt.triggers
        rt.hookCalls :=
      Good2.setPhase_good2 h hi Phase.rendered (fun hr => by
        have := h.ready_phase t (List.getElem?_mem hi) hr
        rw [hp] at this
        rcases this with e | e <;> cases e)
    exact Good2.reg_congr h1 f1 f2 f3 f4
  | buttonFails i t hi hp hw hd =>
    exact Good2.setPhase_good2 h hi Phase.failed (fun hr => by
      have := h.ready_phase t (List.getElem?_mem hi) hr
      rw [hp] at this
      rcases this with e | e <;> cases e)
  | ready i t hi hp =>
    exact Good2.ready h hg hi hp
      (fun p => dispatchEvent_promise ((rt.reg.deref t.this).id ++ "-ready")
        { rt with reg := rt.reg.setReady t.this true } p)
  | resolve i t hi hp =>
    exact Good2.setPhase_good2 h hi Phase.resolved (fun _ => Or.inr rfl)
  | reject i t hi hp =>
    exact Good2.setPhase_good2 h hi Phase.rejected (fun hr => by
      have := h.ready_phase t (List.getElem?_mem hi) hr
      rw [hp] at this
      rcases this with e | e <;> cases e)
  | listen throws hb hall =>
    unfold Component.listenForHotkeys
    split <;> exact h
  | abort hb => exact h
  | message command name hook hk =>
    unfold Component.handleHotkeysMessages
    split
    · exact Inv2.handleHotkeysMessages_loop name hook _ rt h
    · exact h
  | click r hook hb => exact Inv2.trigger_inv2 h r hook
  | hook j t p phase hj hp hw hf hne =>
    obtain ⟨p2, w, h1, h2, h3⟩ := h.wait_target t (List.getElem?_mem hj) hp
    rw [hw] at h1
    simp only [Option.some.injEq] at h1
    subst h1
    obtain ⟨w2, hw2, hs⟩ := (fulfilled_iff rt p).1 hf
    rw [h2] at hw2
    simp only [Option.some.injEq] at hw2
    subst hw2
    have hready := hg.fulfilled_ready w (List.getElem?_mem h2) hs
    rw [h3] at hready
    exact Good2.hook h hj hready phase hne

theorem Inv2.run_inv2 : ∀ (acts : List Action) {rt rt2 : Runtime}, Inv rt → Inv2 rt →
    run acts rt = some rt2 → Inv2 rt2
  | [], rt, rt2, _, h, hr => by
    simp only [Flowcus.run, Option.some.injEq] at hr
    subst hr; exact h
  | a :: acts, rt, rt2, hg, h, hr => by
    simp only [Flowcus.run] at hr
    cases hs : step a rt with
    | none => rw [hs] at hr; cases hr
    | some rt1 =>
      rw [hs] at hr
      exact Inv2.run_inv2 acts (hg.step_inv a hs) (Inv2.effect hg h (step_effect a hs)) hr

/-! ## The second invariant at the start of the lifecycle -/

theorem waitForComponentReady_mono (r : Ref) (rt : Runtime) (p : Nat) (w : ReadyPromise)
    (hp : rt.promises[p]? = some w) :
    (Component.prototype.waitForComponentReady r rt).1.promises[p]? = some w := by
  unfold Component.prototype.waitForComponentReady
  split <;>
    (simp only; rw [List.getElem?_append_left (List.getElem?_eq_some_iff.1 hp).1]; exact hp)

theorem waitForDependencies_loop_sound :
    ∀ (ds : List String) (acc : List Nat) (rt : Runtime), Inv2 rt →
      Inv2 (Component.prototype.waitForDependencies.loop ds acc rt).1 ∧
      (Component.prototype.waitForDependencies.loop ds acc rt).1.reg = rt.reg ∧
      (Component.prototype.waitForDependencies.loop ds acc rt).1.inits = rt.inits ∧
      (∀ (p : Nat) (w : ReadyPromise), rt.promises[p]? = some w →
        (Component.prototype.waitForDependencies.loop ds acc rt).1.promises[p]? = some w) ∧
      ∀ L, (Component.prototype.waitForDependencies.loop ds acc rt).2 = Except.ok L →
        ∀ p ∈ L, p ∈ acc ∨ ∃ w,
          (Component.prototype.waitForDependencies.loop ds acc rt).1.promises[p]? = some w ∧
          ∃ d ∈ ds, getById rt.reg d = Value.object w.this
  | [], acc, rt, h => by
    refine ⟨h, rfl, rfl, fun (p : Nat) (w : ReadyPromise) hp => hp, ?_⟩
    intro L hL p hp
    simp only [Component.prototype.waitForDependencies.loop, Except.ok.injEq] at hL
    subst hL
    exact Or.inl hp
  | d :: ds, acc, rt, h => by
    cases hg : getById rt.reg d with
    | undefined =>
      rw [waitForDependencies_loop_undefined hg]
      obtain ⟨i1, i2, i3, i4, i5⟩ := waitForDependencies_loop_sound ds acc rt h
      refine ⟨i1, i2, i3, i4, fun L hL p hp => ?_⟩
      rcases i5 L hL p hp with h1 | ⟨w, hw, d2, hd2, e⟩
      · exact Or.inl h1
      · exact Or.inr ⟨w, hw, d2, List.mem_cons_of_mem _ hd2, e⟩
    | inherited v =>
      rw [waitForDependencies_loop_inherited hg]
      exact ⟨h, rfl, rfl, fun (p : Nat) (w : ReadyPromise) hp => hp, fun L hL => by cases hL⟩
    | string v => exact absurd hg (getById_ne_string _ _ _)
    | object r0 =>
      rw [waitForDependencies_loop_object hg]
      obtain ⟨f1, f2, _⟩ := waitForComponentReady_frame r0 rt
      have f7 := (waitForComponentReady_frame r0 rt).2.2.2.2.2.2
      obtain ⟨i1, i2, i3, i4, i5⟩ := waitForDependencies_loop_sound ds
        (acc ++ [(Component.prototype.waitForComponentReady r0 rt).2])
        (Component.prototype.waitForComponentReady r0 rt).1 (Inv2.waitForComponentReady_inv2 h r0)
      refine ⟨i1, i2.trans f1, i3.trans f2,
        fun p w hp => i4 p w (waitForComponentReady_mono r0 rt p w hp), fun L hL p hp => ?_⟩
      rcases i5 L hL p hp with h1 | ⟨w, hw, d2, hd2, e⟩
      · rcases List.mem_append.1 h1 with h1 | h1
        · exact Or.inl h1
        · rw [List.mem_singleton.1 h1]
          cases hw : (Component.prototype.waitForComponentReady r0 rt).1.promises[
              (Component.prototype.waitForComponentReady r0 rt).2]? with
          | none => rw [hw] at f7; cases f7
          | some w =>
            rw [hw] at f7
            simp only [Option.map_some', Option.some.injEq] at f7
            exact Or.inr ⟨w, i4 _ w hw, d, List.mem_cons_self _ _, by rw [hg, f7]⟩
      · rw [f1] at e
        exact Or.inr ⟨w, hw, d2, List.mem_cons_of_mem _ hd2, e⟩

theorem prototype_init_inv2 (r : Ref) (rt : Runtime) (h : Inv2 rt)
    (hfresh : ∀ r2, (rt.reg.deref r2).is_ready = false)
    (hnew : r ∉ rt.inits.map InitCall.this) :
    Inv2 (Component.prototype.init r rt) ∧
    (Component.prototype.init r rt).reg = rt.reg ∧
    (Component.prototype.init r rt).inits.map InitCall.this =
      rt.inits.map InitCall.this ++ [r] := by
  obtain ⟨i1, i2, i3, _, i5⟩ :=
    waitForDependencies_loop_sound (rt.reg.deref r).dependencies [] rt h
  have hadd : ∀ (t : InitCall), t.this = r →
      (∀ p ∈ t.waits, ∃ w,
        (Component.prototype.waitForDependencies.loop (rt.reg.deref r).dependencies
          [] rt).1.promises[p]? = some w ∧
        ∃ d ∈ (rt.reg.deref r).dependencies, getById rt.reg d = Value.object w.this) →
      Good2 rt.reg
        (Component.prototype.waitForDependencies.loop (rt.reg.deref r).dependencies
          [] rt).1.promises
        (Component.prototype.waitForDependencies.loop (rt.reg.deref r).dependencies
          [] rt).1.listeners
        (Component.prototype.waitForDependencies.loop (rt.reg.deref r).dependencies
          [] rt).1.broadcasts
        (rt.inits ++ [t])
        (Component.prototype.waitForDependencies.loop (rt.reg.deref r).dependencies
          [] rt).1.triggers
        (Component.prototype.waitForDependencies.loop (rt.reg.deref r).dependencies
          [] rt).1.hookCalls := by
    intro t ht hwaits
    unfold Inv2 at i1
    rw [i2, i3] at i1
    exact {
      broadcast_ready := i1.broadcast_ready
      broadcast_order := i1.broadcast_order
      wait_target := i1.wait_target
      hook_ready := i1.hook_ready
      settled_hook := i1.settled_hook
      ready_phase := fun x hx hr => by rw [hfresh] at hr; cases hr
      inits_nodup := by
        rw [List.map_append, List.map_singleton, ht]
        exact List.Nodup.append i1.inits_nodup (List.nodup_singleton _)
          (fun a ha hb => hnew (List.mem_singleton.1 hb ▸ ha))
      pending_listener := i1.pending_listener
      waits_sound := fun x hx p hp => by
        rcases List.mem_append.1 hx with hx | hx
        · exact i1.waits_sound x hx p hp
        · rw [List.mem_singleton.1 hx] at hp ⊢
          rw [ht]
          exact hwaits p hp }
  unfold Component.prototype.init
  simp only [Component.prototype.waitForDependencies]
  cases hres : (Component.prototype.waitForDependencies.loop (rt.reg.deref r).dependencies
      [] rt).2 with
  | error e =>
    simp only
    refine ⟨?_, i2, by simp [i3]⟩
    show Good2 _ _ _ _ _ _ _
    rw [i2, i3]
    exact hadd ⟨r, [], Phase.rejected⟩ rfl (fun p hp => absurd hp (List.not_mem_nil _))
  | ok L =>
    simp only
    refine ⟨?_, i2, by simp [i3]⟩
    show Good2 _ _ _ _ _ _ _
    rw [i2, i3]
    exact hadd ⟨r, L, Phase.waiting⟩ rfl (fun p hp => by
      rcases i5 L hres p hp with h1 | h1
      · exact absurd h1 (List.not_mem_nil _)
      · exact h1)

theorem init_loop_inv2 : ∀ (L : List Value) (rt : Runtime), Inv2 rt →
    (∀ r2, (rt.reg.deref r2).is_ready = false) →
    (rt.inits.map InitCall.this ++ L.filterMap Value.ref?).Nodup →
    Inv2 (Component.init.loop L rt)
  | [], rt, h, _, _ => h
  | Value.undefined :: L, rt, h, hf, hn => by
    simp only [Component.init.loop]
    exact init_loop_inv2 L rt h hf (by simpa [Value.ref?] using hn)
  | Value.string v :: L, rt, h, hf, hn => by
    simp only [Component.init.loop]
    exact init_loop_inv2 L rt h hf (by simpa [Value.ref?] using hn)
  | Value.inherited v :: L, rt, h, hf, hn => by
    simp only [Component.init.loop]
    exact init_loop_inv2 L rt h hf (by simpa [Value.ref?] using hn)
  | Value.object r :: L, rt, h, hf, hn => by
    simp only [Component.init.loop]
    have hn2 : (rt.inits.map InitCall.this ++ r :: L.filterMap Value.ref?).Nodup := by
      simpa [Value.ref?] using hn
    have hnew : r ∉ rt.inits.map InitCall.this := by
      intro hmem
      have := (List.nodup_append.1 hn2).2.2
      exact this hmem (List.mem_cons_self _ _)
    obtain ⟨p1, p2, p3⟩ := prototype_init_inv2 r rt h hf hnew
    apply init_loop_inv2 L _ p1 (by rw [p2]; exact hf)
    rw [p3, List.append_assoc]
    exact hn2

theorem whileLoop_nodup (s : State) (scanFuel : Nat) :
    ∀ (fuel : Nat) (L L2 : List Value), whileLoop s scanFuel fuel L = Except.ok L2 →
      L.Nodup → L2.Nodup
  | 0, L, L2, h, _ => by simp [whileLoop] at h
  | fuel + 1, L, L2, h, hn => by
    rw [whileLoop] at h
    cases hs : scanRequired s scanFuel 0 L with
    | error e => rw [hs] at h; simp at h
    | ok L1 =>
      rw [hs] at h
      simp only at h
      have h1 := (scanRequired_ok s (fun _ => True) (fun _ _ _ _ => trivial)
        scanFuel 0 L L1 hs).2.1 hn
      by_cases hlen : L.length = L1.length
      · rw [if_pos hlen] at h
        simp only [Except.ok.injEq] at h
        subst h
        exact h1
      · rw [if_neg hlen] at h
        exact whileLoop_nodup s scanFuel fuel L1 L2 h h1

/-- In a well-formed registry the array returned holds no value twice. -/
theorem getRequiredComponents_nodup (s : State) (hwf : s.WF) (L : List Value)
    (hL : (getRequiredComponents "Component" s).2 = Except.ok L) : L.Nodup := by
  obtain ⟨_, hseed, _⟩ := seedRequired_spec (getAll "Component" false s) s []
  rw [List.nil_append] at hseed
  have hw : whileLoop (getRequiredComponents "Component" s).1 (2 * s.components.length + 2)
      (s.components.length + 2) ((getAll "Component" false s).filter (enabledValue s))
      = Except.ok L := by
    rw [← hL, ← hseed]; rfl
  apply whileLoop_nodup _ _ _ _ _ hw
  apply List.Nodup.filter
  rw [getAll_base, List.nodup_reverse]
  have : (s.components.map (fun p => Value.object p.2))
      = (s.components.map Prod.snd).map Value.object := by simp
  rw [this]
  exact hwf.2.1.map (fun a b h => by simpa using h)

theorem Inv2.start_inv2 (s : State) (required : List Value) (batch : BatchPhase) :
    Inv2 { Runtime.start s with required := required, batch := batch } :=
  { broadcast_ready := fun r hr => absurd hr (List.not_mem_nil _)
    broadcast_order := fun k r hk => by
      have : ([] : List Ref)[k]? = some r := hk
      simp at this
    wait_target := fun t ht => absurd ht (List.not_mem_nil _)
    hook_ready := fun r hr => absurd hr (List.not_mem_nil _)
    settled_hook := fun t ht => absurd ht (List.not_mem_nil _)
    ready_phase := fun t ht => absurd ht (List.not_mem_nil _)
    inits_nodup := List.nodup_nil
    pending_listener := fun p w hp => by
      have : ([] : List ReadyPromise)[p]? = some w := hp
      simp at this
    waits_sound := fun t ht => absurd ht (List.not_mem_nil _) }

/-- The state the synchronous part of the static `init` leaves satisfies the
second invariant. -/
theorem init_spec2 (s : State) (hwf : s.WF) (hfresh : s.Fresh) :
    Inv2 (Component.init "Component" s) := by
  obtain ⟨_, hfresh1⟩ := seedRequired_wf_fresh (getAll "Component" false s) s [] hwf hfresh
  rw [← getRequiredComponents_state "Component" s] at hfresh1
  unfold Component.init
  simp only
  cases hres : (getRequiredComponents "Component" s).2 with
  | error e =>
    simp only
    exact Inv2.start_inv2 _ [] (BatchPhase.thrown e)
  | ok L =>
    simp only
    apply init_loop_inv2 L _ (Inv2.start_inv2 _ L BatchPhase.pending)
      (fun r2 => (hfresh1.deref r2).1)
    show ([] ++ L.filterMap Value.ref?).Nodup
    rw [List.nil_append]
    apply List.Nodup.filterMap _ (getRequiredComponents_nodup s hwf L hres)
    intro a a2 b ha ha2
    cases a <;> cases a2 <;> simp [Value.ref?] at ha ha2
    rw [ha, ha2]

theorem trigger_broadcasts (r : Ref) (hook : Option String) (rt : Runtime) :
    (Component.prototype.trigger r hook rt).broadcasts = rt.broadcasts := by
  unfold Component.prototype.trigger
  split
  · cases hook <;> rfl
  · exact (waitForComponentReady_frame r rt).2.2.2.2.2.1

theorem handleHotkeysMessages_loop_broadcasts (name : String) (hook : Ref → Option String) :
    ∀ (l : List Value) (rt : Runtime),
      (Component.handleHotkeysMessages.loop name hook l rt).broadcasts = rt.broadcasts
  | [], rt => rfl
  | Value.undefined :: l, rt => by
    simp only [Component.handleHotkeysMessages.loop]
    exact handleHotkeysMessages_loop_broadcasts name hook l rt
  | Value.string v :: l, rt => by
    simp only [Component.handleHotkeysMessages.loop]
    exact handleHotkeysMessages_loop_broadcasts name hook l rt
  | Value.inherited v :: l, rt => by
    simp only [Component.handleHotkeysMessages.loop]
    exact handleHotkeysMessages_loop_broadcasts name hook l rt
  | Value.object r :: l, rt => by
    simp only [Component.handleHotkeysMessages.loop]
    split
    · rw [handleHotkeysMessages_loop_broadcasts name hook l, trigger_broadcasts]
    · exact handleHotkeysMessages_loop_broadcasts name hook l rt

/-- What no action changes, and what only grows: the table, the declared
dependencies and the identifiers stay as they are, a component that is ready
stays ready, and the list of dispatched ready events is only extended. -/
theorem effect_frame {rt rt2 : Runtime} (he : Effect rt rt2) :
    rt2.reg.components = rt.reg.components ∧
    (∀ r, (rt2.reg.deref r).dependencies = (rt.reg.deref r).dependencies) ∧
    (∀ r, (rt2.reg.deref r).id = (rt.reg.deref r).id) ∧
    (∀ r, (rt.reg.deref r).is_ready = true → (rt2.reg.deref r).is_ready = true) ∧
    (∀ r ∈ rt.broadcasts, r ∈ rt2.broadcasts) := by
  have hsame : ∀ rt3 : Runtime, rt3.reg = rt.reg → rt3.broadcasts = rt.broadcasts →
      rt3.reg.components = rt.reg.components ∧
      (∀ r, (rt3.reg.deref r).dependencies = (rt.reg.deref r).dependencies) ∧
      (∀ r, (rt3.reg.deref r).id = (rt.reg.deref r).id) ∧
      (∀ r, (rt.reg.deref r).is_ready = true → (rt3.reg.deref r).is_ready = true) ∧
      (∀ r ∈ rt.broadcasts, r ∈ rt3.broadcasts) := by
    intro rt3 h1 h2
    rw [h1, h2]
    exact ⟨rfl, fun _ => rfl, fun _ => rfl, fun _ h => h, fun _ h => h⟩
  cases he with
  | skipButton i t hi hp hw hd => exact hsame _ rfl rfl
  | button i t hi hp hw hd =>
    obtain ⟨f1, f2, f3, f4⟩ := State.setButton_frame rt.reg t.this
    exact ⟨f1, f3, f4, fun r h => by
      show ((rt.reg.setButton t.this).deref r).is_ready = true
      rw [f2]; exact h, fun _ h => h⟩
  | buttonFails i t hi hp hw hd => exact hsame _ rfl rfl
  | ready i t hi hp =>
    obtain ⟨f1, f2, f3, f4, _⟩ := State.setReady_frame rt.reg t.this
    exact ⟨f1, f3, f4, fun r h => (f2 r).2 (Or.inr h), fun r h => List.mem_append_left _ h⟩
  | resolve i t hi hp => exact hsame _ rfl rfl
  | reject i t hi hp => exact hsame _ rfl rfl
  | listen throws hb hall =>
    apply hsame <;> (unfold Component.listenForHotkeys; split <;> rfl)
  | abort hb => exact hsame _ rfl rfl
  | message command name hook hk =>
    apply hsame
    · unfold Component.handleHotkeysMessages
      split
      · exact handleHotkeysMessages_loop_reg name hook _ rt
      · rfl
    · unfold Component.handleHotkeysMessages
      split
      · exact (handleHotkeysMessages_loop_broadcasts name hook _ rt)
      · rfl
  | click r hook hb => exact hsame _ (trigger_frame r hook rt).1 (trigger_broadcasts r hook rt)
  | hook j t p phase hj hp hw hf hne => exact hsame _ rfl rfl

/-! ## What the lifecycle never changes -/

theorem waitForDependencies_loop_reg :
    ∀ (ds : List String) (acc : List Nat) (rt : Runtime),
      (Component.prototype.waitForDependencies.loop ds acc rt).1.reg = rt.reg
  | [], _, _ => rfl
  | d :: ds, acc, rt => by
    cases hg : getById rt.reg d with
    | undefined =>
      rw [waitForDependencies_loop_undefined hg]
      exact waitForDependencies_loop_reg ds acc rt
    | inherited v => rw [waitForDependencies_loop_inherited hg]
    | string v => exact absurd hg (getById_ne_string _ _ _)
    | object r0 =>
      rw [waitForDependencies_loop_object hg, waitForDependencies_loop_reg ds]
      exact (waitForComponentReady_frame r0 rt).1

theorem prototype_init_reg (r : Ref) (rt : Runtime) :
    (Component.prototype.init r rt).reg = rt.reg := by
  have h := waitForDependencies_loop_reg (rt.reg.deref r).dependencies [] rt
  unfold Component.prototype.init Component.prototype.waitForDependencies
  simp only
  split <;> exact h

theorem init_loop_reg : ∀ (L : List Value) (rt : Runtime),
    (Component.init.loop L rt).reg = rt.reg
  | [], _ => rfl
  | Value.undefined :: L, rt => by
    simp only [Component.init.loop]; exact init_loop_reg L rt
  | Value.string v :: L, rt => by
    simp only [Component.init.loop]; exact init_loop_reg L rt
  | Value.inherited v :: L, rt => by
    simp only [Component.init.loop]; exact init_loop_reg L rt
  | Value.object r :: L, rt => by
    simp only [Component.init.loop]
    rw [init_loop_reg L, prototype_init_reg]

/-- The registry in which the lifecycle starts is the one the scripts built,
up to the flag `displayed`. -/
theorem init_reg (name : String) (s : State) :
    (Component.init name s).reg.components = s.components ∧
    (∀ r, ((Component.init name s).reg.deref r).dependencies = (s.deref r).dependencies) ∧
    (∀ r, ((Component.init name s).reg.deref r).id = (s.deref r).id) ∧
    (∀ r, ((Component.init name s).reg.deref r).is_ready = (s.deref r).is_ready) := by
  have hreg : (Component.init name s).reg = (seedRequired (getAll name false s) s []).1 := by
    rw [← getRequiredComponents_state]
    unfold Component.init
    simp only
    split
    · rfl
    · rw [init_loop_reg]; rfl
  obtain ⟨h1, _, h3⟩ := seedRequired_spec (getAll name false s) s []
  rw [hreg]
  exact ⟨h1, fun r => by rw [h3], fun r => by rw [h3], fun r => by rw [h3]⟩

theorem run_frame : ∀ (acts : List Action) {rt rt2 : Runtime}, run acts rt = some rt2 →
    rt2.reg.components = rt.reg.components ∧
    (∀ r, (rt2.reg.deref r).dependencies = (rt.reg.deref r).dependencies) ∧
    (∀ r, (rt2.reg.deref r).id = (rt.reg.deref r).id) ∧
    (∀ r, (rt.reg.deref r).is_ready = true → (rt2.reg.deref r).is_ready = true) ∧
    (∀ r ∈ rt.broadcasts, r ∈ rt2.broadcasts)
  | [], rt, rt2, hr => by
    simp only [run, Option.some.injEq] at hr
    subst hr
    exact ⟨rfl, fun _ => rfl, fun _ => rfl, fun _ h => h, fun _ h => h⟩
  | a :: acts, rt, rt2, hr => by
    simp only [run] at hr
    cases hs : step a rt with
    | none => rw [hs] at hr; cases hr
    | some rt1 =>
      rw [hs] at hr
      obtain ⟨a1, a2, a3, a4, a5⟩ := effect_frame (step_effect a hs)
      obtain ⟨b1, b2, b3, b4, b5⟩ := run_frame acts hr
      exact ⟨b1.trans a1, fun r => (b2 r).trans (a2 r), fun r => (b3 r).trans (a3 r),
        fun r h => b4 r (a4 r h), fun r h => b5 r (a5 r h)⟩

theorem run_append : ∀ (acts acts2 : List Action) (rt : Runtime),
    run (acts ++ acts2) rt = (run acts rt).bind (run acts2)
  | [], _, _ => rfl
  | a :: acts, acts2, rt => by
    simp only [List.cons_append, run]
    cases step a rt with
    | none => rfl
    | some rt1 => exact run_append acts acts2 rt1

theorem dependsOn_congr {s1 s : State} (hc : s1.components = s.components)
    (hd : ∀ r, (s1.deref r).dependencies = (s.deref r).dependencies) (r r2 : Ref) :
    DependsOn s1 r r2 ↔ DependsOn s r r2 := by
  unfold DependsOn
  rw [hd]
  simp only [getById_of_components hc]

/-- Every state the lifecycle reaches satisfies both invariants, is tied to
the array `getRequiredComponents` returned, and has the dependency edges of
the registry the scripts built. -/
theorem reachable_spec (s : State) (hwf : s.WF) (hfresh : s.Fresh) (acts : List Action)
    (rt : Runtime) (hrun : run acts (Component.init "Component" s) = some rt) :
    Inv rt ∧ Inv2 rt ∧ Linked "Component" s rt ∧
    (∀ r r2, DependsOn rt.reg r r2 ↔ DependsOn s r r2) := by
  obtain ⟨hinv0, hlink0⟩ := init_spec "Component" s hwf hfresh
  obtain ⟨a1, a2, _, _⟩ := init_reg "Component" s
  obtain ⟨b1, b2, _, _⟩ := run_frame acts hrun
  exact ⟨Inv.run_inv acts hinv0 hrun, Inv2.run_inv2 acts hinv0 (init_spec2 s hwf hfresh) hrun,
    Linked.run_linked acts hlink0 hinv0 hrun,
    dependsOn_congr (b1.trans a1) (fun r => (b2 r).trans (a2 r))⟩

/-! ## The ready flag, the hook and cycles -/

theorem effect_hookCalls {rt rt2 : Runtime} (he : Effect rt rt2) :
    rt2.hookCalls = rt.hookCalls ∨ rt2.reg = rt.reg := by
  cases he with
  | skipButton i t hi hp hw hd => exact Or.inl rfl
  | button i t hi hp hw hd => exact Or.inl rfl
  | buttonFails i t hi hp hw hd => exact Or.inl rfl
  | ready i t hi hp => exact Or.inl rfl
  | resolve i t hi hp => exact Or.inl rfl
  | reject i t hi hp => exact Or.inl rfl
  | listen throws hb hall =>
    refine Or.inr ?_
    unfold Component.listenForHotkeys
    split <;> rfl
  | abort hb => exact Or.inl rfl
  | message command name hook hk =>
    refine Or.inr ?_
    unfold Component.handleHotkeysMessages
    split
    · exact handleHotkeysMessages_loop_reg name hook _ rt
    · rfl
  | click r hook hb => exact Or.inr (trigger_frame r hook rt).1
  | hook j t p phase hj hp hw hf hne => exact Or.inr rfl

theorem order_of_transGen {rt : Runtime} (h2 : Inv2 rt) {r r2 : Ref}
    (hp : Relation.TransGen (DependsOn rt.reg) r r2) :
    ∀ k : Nat, rt.broadcasts[k]? = some r →
      ∃ k2 : Nat, k2 < k ∧ rt.broadcasts[k2]? = some r2 := by
  induction hp with
  | single hd =>
    intro k hk
    obtain ⟨d, hd1, hd2⟩ := hd
    exact h2.broadcast_order k r hk d hd1 _ hd2
  | tail _ hd ih =>
    intro k hk
    obtain ⟨k1, hk1, hk2⟩ := ih k hk
    obtain ⟨d, hd1, hd2⟩ := hd
    obtain ⟨k3, hk3, hk4⟩ := h2.broadcast_order k1 _ hk2 d hd1 _ hd2
    exact ⟨k3, Nat.lt_trans hk3 hk1, hk4⟩

/-- A component that reaches itself through dependency edges has not
dispatched its ready event and is not ready. -/
theorem cycle_not_ready {rt : Runtime} (h : Inv rt) (h2 : Inv2 rt) {r : Ref}
    (hc : Relation.TransGen (DependsOn rt.reg) r r) :
    (rt.reg.deref r).is_ready = false ∧ r ∉ rt.broadcasts := by
  have hno : ∀ k : Nat, rt.broadcasts[k]? ≠ some r := by
    intro k
    induction k using Nat.strong_induction_on with
    | _ k ih =>
      intro hk
      obtain ⟨k2, hk2, hk3⟩ := order_of_transGen h2 hc k hk
      exact ih k2 hk2 hk3
  have hnb : r ∉ rt.broadcasts := by
    intro hm
    obtain ⟨k, hk⟩ := List.getElem?_of_mem hm
    exact hno k hk
  refine ⟨?_, hnb⟩
  cases hr : (rt.reg.deref r).is_ready with
  | false => rfl
  | true => exact absurd (h.ready_broadcast r hr) hnb

theorem no_init_of_not_required {name : String} {s : State} {rt : Runtime}
    (hl : Linked name s rt) {r : Ref} (hr : Value.object r ∉ rt.required) :
    ∀ t ∈ rt.inits, t.this ≠ r := by
  intro t ht e
  have hmem : r ∈ rt.required.filterMap Value.ref? := by
    rw [← hl.1, ← e]
    exact List.mem_map_of_mem _ ht
  obtain ⟨v, hv, hv2⟩ := List.mem_filterMap.1 hmem
  cases v <;> simp [Value.ref?] at hv2
  rw [hv2] at hv
  exact hr hv

theorem init_of_required {name : String} {s : State} {rt : Runtime}
    (hl : Linked name s rt) {r : Ref} (hr : Value.object r ∈ rt.required) :
    ∃ t ∈ rt.inits, t.this = r := by
  have hmem : r ∈ rt.inits.map InitCall.this := by
    rw [hl.1]
    exact List.mem_filterMap.2 ⟨_, hr, rfl⟩
  obtain ⟨t, ht, e⟩ := List.mem_map.1 hmem
  exact ⟨t, ht, e⟩

/-- What the listeners notified by the callback of lines 157-160 find: every
listener registered for the ready event of the instance runs with `is_ready`
already true, and a pending promise that the callback fulfils is the promise
of one of them. -/
theorem init_ready_seen {rt : Runtime} (h : Inv rt) (this : Ref)
    (hreg : rt.reg.Registered this) :
    (Component.prototype.init.ready this rt).2 =
      (rt.listeners.filter (fun l => l.1 == (rt.reg.deref this).id ++ "-ready")).map
        (fun l => (l.2, true)) ∧
    ∀ (p : Nat) (w : ReadyPromise), rt.promises[p]? = some w →
      w.state = PromiseState.pending →
      (∃ w2, (Component.prototype.init.ready this rt).1.promises[p]? = some w2 ∧
        w2.state = PromiseState.fulfilled) →
      (p, true) ∈ (Component.prototype.init.ready this rt).2 := by
  have hr : ((rt.reg.setReady this true).deref this).is_ready = true :=
    ((State.setReady_frame rt.reg this).2.1 this).2 (Or.inl ⟨rfl, h.wf.valid hreg⟩)
  have hlog : (Component.prototype.init.ready this rt).2 =
      (rt.listeners.filter (fun l => l.1 == (rt.reg.deref this).id ++ "-ready")).map
        (fun l => (l.2, true)) := by
    show (rt.listeners.filter (fun l => l.1 == (rt.reg.deref this).id ++ "-ready")).map
        (fun l => (l.2, ((rt.reg.setReady this true).deref this).is_ready)) = _
    rw [hr]
  refine ⟨hlog, fun p w hp hw hful => ?_⟩
  obtain ⟨w2, hw2, hs2⟩ := hful
  have hd := dispatchEvent_promise ((rt.reg.deref this).id ++ "-ready")
    { rt with reg := rt.reg.setReady this true } p
  have hw3 : (dispatchEvent ((rt.reg.deref this).id ++ "-ready")
      { rt with reg := rt.reg.setReady this true }).promises[p]? = some w2 := hw2
  rw [hw3] at hd
  have hp2 : ({ rt with reg := rt.reg.setReady this true } : Runtime).promises[p]? = some w := hp
  rw [hp2] at hd
  simp only [Option.map_some', Option.some.injEq] at hd
  by_cases hin : ((rt.reg.deref this).id ++ "-ready", p) ∈ rt.listeners
  · rw [hlog]
    exact List.mem_map.2 ⟨_, List.mem_filter.2 ⟨hin, by simp⟩, rfl⟩
  · rw [if_neg hin] at hd
    rw [hd, hw] at hs2
    cases hs2

/-- C15: in every state reachable from the static `init` on a registry built
by the constructor, the callback of lines 157-160 of an `init` call sets
`is_ready` and then dispatches: every listener for the ready event that the
dispatch runs finds `is_ready` true, and every pending promise the callback
fulfils belongs to such a listener. A component whose ready event has been
dispatched has `is_ready` true, and so has the component of every promise
that a listener for its ready event has fulfilled; the callback leaves the
flag true when it appends the event; and nothing sets the flag back to false:
no further action of the lifecycle, no constructor call and no call of
`getRequiredComponents`. -/
theorem ready_flag_before_broadcast (s : State) (hwf : s.WF) (hfresh : s.Fresh)
    (acts : List Action) (rt : Runtime)
    (hrun : run acts (Component.init "Component" s) = some rt) :
    (∀ (i : Nat) (t : InitCall), rt.inits[i]? = some t → t.phase = Phase.rendered →
      step (Action.ready i) rt =
        some (Runtime.setPhase (Component.prototype.init.ready t.this rt).1 i
          Phase.dispatched) ∧
      (Component.prototype.init.ready t.this rt).2 =
        (rt.listeners.filter (fun l => l.1 == (rt.reg.deref t.this).id ++ "-ready")).map
          (fun l => (l.2, true)) ∧
      ∀ (p : Nat) (w : ReadyPromise), rt.promises[p]? = some w →
        w.state = PromiseState.pending →
        (∃ w2, (Component.prototype.init.ready t.this rt).1.promises[p]? = some w2 ∧
          w2.state = PromiseState.fulfilled) →
        (p, true) ∈ (Component.prototype.init.ready t.this rt).2) ∧
    (∀ r ∈ rt.broadcasts, (rt.reg.deref r).is_ready = true) ∧
    (∀ w ∈ rt.promises, w.state = PromiseState.fulfilled →
      (rt.reg.deref w.this).is_ready = true) ∧
    (∀ i rt2, step (Action.ready i) rt = some rt2 →
      ∃ t, rt.inits[i]? = some t ∧ rt2.broadcasts = rt.broadcasts ++ [t.this] ∧
        (rt2.reg.deref t.this).is_ready = true) ∧
    (∀ acts2 rt2, run acts2 rt = some rt2 →
      ∀ r, (rt.reg.deref r).is_ready = true → (rt2.reg.deref r).is_ready = true) ∧
    (∀ settings kind display_name slug icon hotkey dependencies r, r < rt.reg.heap.length →
      ((construct settings kind display_name slug icon hotkey dependencies rt.reg).1.deref r).is_ready
        = (rt.reg.deref r).is_ready) ∧
    ∀ name r, ((getRequiredComponents name rt.reg).1.deref r).is_ready
      = (rt.reg.deref r).is_ready := by
  obtain ⟨hinv, hinv2, _, _⟩ := reachable_spec s hwf hfresh acts rt hrun
  refine ⟨?_, hinv2.broadcast_ready, hinv.fulfilled_ready, ?_, ?_, ?_, ?_⟩
  · intro i t hi hp
    have hget : rt.inits.get? i = some t := by rw [List.get?_eq_getElem?]; exact hi
    obtain ⟨h1, h2⟩ := init_ready_seen hinv t.this
      (hinv.init_registered t (List.getElem?_mem hi))
    refine ⟨?_, h1, h2⟩
    simp only [step, hget]
    rw [if_pos hp]
  · intro i rt2 hs
    have he := step_effect _ hs
    have hinv3 : Inv2 rt2 := Inv2.effect hinv hinv2 he
    unfold step at hs
    simp only at hs
    cases hget : rt.inits.get? i with
    | none => rw [hget] at hs; cases hs
    | some t =>
      rw [hget] at hs
      simp only at hs
      by_cases hp : t.phase = Phase.rendered
      · rw [if_pos hp] at hs
        simp only [Option.some.injEq] at hs
        have hb : rt2.broadcasts = rt.broadcasts ++ [t.this] := by rw [← hs]; rfl
        refine ⟨t, by rw [← List.get?_eq_getElem?]; exact hget, hb, ?_⟩
        apply hinv3.broadcast_ready
        rw [hb]
        exact List.mem_append_right _ (List.mem_singleton_self _)
      · rw [if_neg hp] at hs; cases hs
  · intro acts2 rt2 hr2
    exact (run_frame acts2 hr2).2.2.2.1
  · intro settings kind display_name slug icon hotkey dependencies r hr
    unfold construct State.deref
    simp only
    rw [List.getD_append _ _ _ _ hr]
  · intro name r
    rw [getRequiredComponents_state, (seedRequired_spec _ _ _).2.2 r]

/-- C15 on the scenario: when the callback of A runs, the listener that B
registered for `Tool.a-ready` finds `is_ready` true and its promise is
fulfilled; the listener of C, registered for `Tool.b-ready`, is not run. -/
theorem ready_flag_before_broadcast_witness :
    chain.WF ∧ chain.Fresh ∧
      run [Action.depsDone 2 false] (Component.init "Component" chain) = some chainRendered ∧
      chainRendered.inits[2]? = some ⟨0, [], Phase.rendered⟩ ∧
      chainRendered.listeners = [("Tool.b-ready", 0), ("Tool.a-ready", 1)] ∧
      chainRendered.promises = [⟨1, PromiseState.pending, 0⟩, ⟨0, PromiseState.pending, 0⟩] ∧
      (Component.prototype.init.ready 0 chainRendered).2 = [(1, true)] ∧
      (Component.prototype.init.ready 0 chainRendered).1.promises =
        [⟨1, PromiseState.pending, 0⟩, ⟨0, PromiseState.fulfilled, 1⟩] ∧
      ((∀ (i : Nat) (t : InitCall), chainRendered.inits[i]? = some t →
        t.phase = Phase.rendered →
        step (Action.ready i) chainRendered =
          some (Runtime.setPhase (Component.prototype.init.ready t.this chainRendered).1 i
            Phase.dispatched) ∧
        (Component.prototype.init.ready t.this chainRendered).2 =
          (chainRendered.listeners.filter
            (fun l => l.1 == (chainRendered.reg.deref t.this).id ++ "-ready")).map
            (fun l => (l.2, true)) ∧
        ∀ (p : Nat) (w : ReadyPromise), chainRendered.promises[p]? = some w →
          w.state = PromiseState.pending →
          (∃ w2, (Component.prototype.init.ready t.this chainRendered).1.promises[p]? = some w2 ∧
            w2.state = PromiseState.fulfilled) →
          (p, true) ∈ (Component.prototype.init.ready t.this chainRendered).2) ∧
      (∀ r ∈ chainRendered.broadcasts, (chainRendered.reg.deref r).is_ready = true) ∧
      (∀ w ∈ chainRendered.promises, w.state = PromiseState.fulfilled →
        (chainRendered.reg.deref w.this).is_ready = true) ∧
      (∀ i rt2, step (Action.ready i) chainRendered = some rt2 →
        ∃ t, chainRendered.inits[i]? = some t ∧
          rt2.broadcasts = chainRendered.broadcasts ++ [t.this] ∧
          (rt2.reg.deref t.this).is_ready = true) ∧
      (∀ acts2 rt2, run acts2 chainRendered = some rt2 →
        ∀ r, (chainRendered.reg.deref r).is_ready = true →
          (rt2.reg.deref r).is_ready = true) ∧
      (∀ settings kind display_name slug icon hotkey dependencies r,
        r < chainRendered.reg.heap.length →
        ((construct settings kind display_name slug icon hotkey dependencies
          chainRendered.reg).1.deref r).is_ready = (chainRendered.reg.deref r).is_ready) ∧
      ∀ name r, ((getRequiredComponents name chainRendered.reg).1.deref r).is_ready
        = (chainRendered.reg.deref r).is_ready) :=
  ⟨by decide, by decide, by decide, by decide, by decide, by decide, by decide, by decide,
    ready_flag_before_broadcast chain (by decide) (by decide) [Action.depsDone 2 false]
      chainRendered (by decide)⟩

/-- C17: on a registry built by the constructor, a component that reaches
itself through dependency edges is in the array `getRequiredComponents`
returns whenever it is required and every declared dependency resolves; in
every state reachable from the static `init` its `is_ready` is false and it
has not dispatched its ready event; and when it is in the array returned, the
message listener of `listenForHotkeys` is not registered. -/
theorem cycle_never_ready (s : State) (hwf : s.WF) (hfresh : s.Fresh) (r : Ref)
    (hcyc : Relation.TransGen (DependsOn s) r r) :
    (s.AllResolve → Required s r →
      ∃ L, (getRequiredComponents "Component" s).2 = Except.ok L ∧ Value.object r ∈ L) ∧
    ∀ acts rt, run acts (Component.init "Component" s) = some rt →
      (rt.reg.deref r).is_ready = false ∧ r ∉ rt.broadcasts ∧
      ∀ L, (getRequiredComponents "Component" s).2 = Except.ok L → Value.object r ∈ L →
        rt.hotkeys = false := by
  refine ⟨fun hres hreq => ?_, fun acts rt hrun => ?_⟩
  · obtain ⟨L, h1, _, _, h4, _⟩ := getRequiredComponents_ok s hwf hres
    exact ⟨L, h1, h4 r hreq⟩
  · obtain ⟨hinv, hinv2, hl, hdep⟩ := reachable_spec s hwf hfresh acts rt hrun
    have hc : Relation.TransGen (DependsOn rt.reg) r r :=
      Relation.TransGen.mono (fun a b hab => (hdep a b).2 hab) hcyc
    obtain ⟨hnr, hnb⟩ := cycle_not_ready hinv hinv2 hc
    refine ⟨hnr, hnb, fun L hL hmem => ?_⟩
    cases hk : rt.hotkeys with
    | false => rfl
    | true =>
      exfalso
      rcases hl.2 with h4 | ⟨h5, _⟩
      · rw [hL] at h4
        simp only [Except.ok.injEq] at h4
        rw [h4] at hmem
        obtain ⟨t, ht, e⟩ := init_of_required hl hmem
        have := hinv.done_ready t ht (Or.inr (hinv.hotkeys_resolved hk t ht))
        rw [e, hnr] at this
        cases this
      · rw [hk] at h5; cases h5

/-- C17 on the three cyclic tools: X depends on Y and Y on X; X is in the
array returned, and no schedule makes it ready or registers the listener. -/
theorem cycle_never_ready_witness :
    cyclic.WF ∧ cyclic.Fresh ∧ cyclic.AllResolve ∧
      (getRequiredComponents "Component" cyclic).2 =
        Except.ok [Value.object 2, Value.object 1, Value.object 0] ∧
      ((cyclic.AllResolve → Required cyclic 0 →
        ∃ L, (getRequiredComponents "Component" cyclic).2 = Except.ok L ∧
          Value.object 0 ∈ L) ∧
      ∀ acts rt, run acts (Component.init "Component" cyclic) = some rt →
        (rt.reg.deref 0).is_ready = false ∧ 0 ∉ rt.broadcasts ∧
        ∀ L, (getRequiredComponents "Component" cyclic).2 = Except.ok L →
          Value.object 0 ∈ L → rt.hotkeys = false) :=
  ⟨by decide, by decide, by decide, by decide,
    cycle_never_ready cyclic (by decide) (by decide) 0
      (Relation.TransGen.tail
        (Relation.TransGen.single (show DependsOn cyclic 0 1 from ⟨"Tool.y", by decide, by decide⟩))
        (show DependsOn cyclic 1 0 from ⟨"Tool.x", by decide, by decide⟩))⟩

/-- C12: in every state reachable from the static `init` on a registry built
by the constructor, every component whose hook `_trigger` has been invoked is
ready and has dispatched its ready event, and an action that invokes the hook
does so on a component that was ready, with its ready event dispatched, before
the action; a call of `trigger` on a ready component invokes the hook at
once, and on a component that is not ready it invokes nothing and waits. A
component that is not in the array of required components has no `init`
call, its hook has never been invoked, and every `trigger` call on it is
still waiting: none is rejected. -/
theorem trigger_hook_only_when_ready (s : State) (hwf : s.WF) (hfresh : s.Fresh)
    (acts : List Action) (rt : Runtime)
    (hrun : run acts (Component.init "Component" s) = some rt) :
    (∀ r ∈ rt.hookCalls, (rt.reg.deref r).is_ready = true ∧ r ∈ rt.broadcasts) ∧
    (∀ a rt2, step a rt = some rt2 →
      ∀ r ∈ rt2.hookCalls, (rt.reg.deref r).is_ready = true ∧ r ∈ rt.broadcasts) ∧
    (∀ r hook, (rt.reg.deref r).is_ready = true →
      (Component.prototype.trigger r hook rt).hookCalls = rt.hookCalls ++ [r]) ∧
    (∀ r hook, (rt.reg.deref r).is_ready = false →
      (Component.prototype.trigger r hook rt).hookCalls = rt.hookCalls ∧
      (Component.prototype.trigger r hook rt).triggers =
        rt.triggers ++ [⟨r, some rt.promises.length, TriggerPhase.waiting⟩]) ∧
    ∀ r, Value.object r ∉ rt.required →
      (∀ t ∈ rt.inits, t.this ≠ r) ∧ (rt.reg.deref r).is_ready = false ∧
      r ∉ rt.hookCalls ∧ ∀ t ∈ rt.triggers, t.this = r → t.phase = TriggerPhase.waiting := by
  obtain ⟨hinv, hinv2, hl, _⟩ := reachable_spec s hwf hfresh acts rt hrun
  refine ⟨fun r hr => ⟨hinv2.hook_ready r hr, hinv.ready_broadcast r (hinv2.hook_ready r hr)⟩,
    ?_, ?_, ?_, ?_⟩
  · intro a rt2 hs r hr
    have he := step_effect a hs
    have hinv3 : Inv2 rt2 := Inv2.effect hinv hinv2 he
    have hready : (rt.reg.deref r).is_ready = true := by
      rcases effect_hookCalls he with h1 | h1
      · rw [h1] at hr
        exact hinv2.hook_ready r hr
      · rw [← h1]
        exact hinv3.hook_ready r hr
    exact ⟨hready, hinv.ready_broadcast r hready⟩
  · intro r hook hr
    unfold Component.prototype.trigger
    rw [if_pos hr]
    cases hook <;> rfl
  · intro r hook hr
    unfold Component.prototype.trigger
    rw [if_neg (by rw [hr]; exact Bool.false_ne_true)]
    unfold Component.prototype.waitForComponentReady
    rw [if_neg (by rw [hr]; exact Bool.false_ne_true)]
    exact ⟨rfl, rfl⟩
  · intro r hr
    have hno := no_init_of_not_required hl hr
    have hnr : (rt.reg.deref r).is_ready = false := by
      cases hready : (rt.reg.deref r).is_ready with
      | false => rfl
      | true =>
        obtain ⟨t, ht, e, _⟩ := hinv.broadcast_past r (hinv.ready_broadcast r hready)
        exact absurd e (hno t ht)
    have hnh : r ∉ rt.hookCalls := by
      intro hm
      have := hinv2.hook_ready r hm
      rw [hnr] at this
      cases this
    refine ⟨hno, hnr, hnh, fun t ht e => ?_⟩
    by_contra hne
    exact hnh (e ▸ hinv2.settled_hook t ht hne)

/-- C12 on the four tools: E is not required; once the hotkeys are active the
message `trigger-Tool.e` makes a `trigger` call on E that waits, and the hook,
which would throw, is never invoked. -/
theorem trigger_hook_only_when_ready_witness :
    spare.WF ∧ spare.Fresh ∧
      run spareSchedule (Component.init "Component" spare) = some spareTriggered ∧
      spareTriggered.hotkeys = true ∧ Value.object 3 ∉ spareTriggered.required ∧
      spareTriggered.triggers = [⟨3, some 2, TriggerPhase.waiting⟩] ∧
      spareTriggered.hookCalls = [] ∧
      ((∀ r ∈ spareTriggered.hookCalls,
        (spareTriggered.reg.deref r).is_ready = true ∧ r ∈ spareTriggered.broadcasts) ∧
      (∀ a rt2, step a spareTriggered = some rt2 →
        ∀ r ∈ rt2.hookCalls,
          (spareTriggered.reg.deref r).is_ready = true ∧ r ∈ spareTriggered.broadcasts) ∧
      (∀ r hook, (spareTriggered.reg.deref r).is_ready = true →
        (Component.prototype.trigger r hook spareTriggered).hookCalls
          = spareTriggered.hookCalls ++ [r]) ∧
      (∀ r hook, (spareTriggered.reg.deref r).is_ready = false →
        (Component.prototype.trigger r hook spareTriggered).hookCalls
          = spareTriggered.hookCalls ∧
        (Component.prototype.trigger r hook spareTriggered).triggers =
          spareTriggered.triggers ++
            [⟨r, some spareTriggered.promises.length, TriggerPhase.waiting⟩]) ∧
      ∀ r, Value.object r ∉ spareTriggered.required →
        (∀ t ∈ spareTriggered.inits, t.this ≠ r) ∧
        (spareTriggered.reg.deref r).is_ready = false ∧
        r ∉ spareTriggered.hookCalls ∧
        ∀ t ∈ spareTriggered.triggers, t.this = r → t.phase = TriggerPhase.waiting) :=
  ⟨by decide, by decide, by decide, by decide, by decide, by decide, by decide,
    trigger_hook_only_when_ready spare (by decide) (by decide) spareSchedule spareTriggered
      (by decide)⟩

/-! ## A failure of the button and the other components -/

/-- What an action does to the list of `init` calls: nothing, or one move of
the chain of one call; the move to `failed` is made only by a failing run of
line 155. -/
theorem step_inits {rt rt2 : Runtime} (h : Inv rt) (a : Action) (hs : step a rt = some rt2) :
    rt2.inits = rt.inits ∨ ∃ (i : Nat) (t : InitCall) (ph : Phase), rt.inits[i]? = some t ∧
      rt2.inits = rt.inits.modify (fun t => { t with phase := ph }) i ∧
      Phase.next t.phase ph = true ∧ (ph = Phase.failed → a.fails = true) := by
  cases a with
  | depsDone i throws =>
    simp only [step] at hs
    cases hi : rt.inits.get? i with
    | none => rw [hi] at hs; cases hs
    | some t =>
      rw [hi] at hs
      simp only at hs
      rw [List.get?_eq_getElem?] at hi
      by_cases hc : t.phase = Phase.waiting ∧ t.waits.all rt.fulfilled = true
      · rw [if_pos hc] at hs
        by_cases hd : (rt.reg.deref t.this).displayed = true
        · rw [if_pos hd] at hs
          cases throws with
          | true =>
            simp only [if_true, Option.some.injEq] at hs
            subst hs
            exact Or.inr ⟨i, t, Phase.failed, hi, rfl, by rw [hc.1]; rfl, fun _ => rfl⟩
          | false =>
            simp only [Bool.false_eq_true, if_false, Option.some.injEq] at hs
            subst hs
            exact Or.inr ⟨i, t, Phase.rendered, hi, rfl, by rw [hc.1]; rfl,
              fun e => by cases e⟩
        · rw [if_neg hd] at hs
          simp only [Option.some.injEq] at hs
          subst hs
          exact Or.inr ⟨i, t, Phase.rendered, hi, rfl, by rw [hc.1]; rfl, fun e => by cases e⟩
      · rw [if_neg hc] at hs; cases hs
  | ready i =>
    simp only [step] at hs
    cases hi : rt.inits.get? i with
    | none => rw [hi] at hs; cases hs
    | some t =>
      rw [hi] at hs
      simp only at hs
      rw [List.get?_eq_getElem?] at hi
      by_cases hc : t.phase = Phase.rendered
      · rw [if_pos hc] at hs
        simp only [Option.some.injEq] at hs
        subst hs
        exact Or.inr ⟨i, t, Phase.dispatched, hi, rfl, by rw [hc]; rfl, fun e => by cases e⟩
      · rw [if_neg hc] at hs; cases hs
  | settle i =>
    simp only [step] at hs
    cases hi : rt.inits.get? i with
    | none => rw [hi] at hs; cases hs
    | some t =>
      rw [hi] at hs
      simp only at hs
      rw [List.get?_eq_getElem?] at hi
      by_cases hc : t.phase = Phase.dispatched
      · rw [if_pos hc] at hs
        simp only [Option.some.injEq] at hs
        subst hs
        exact Or.inr ⟨i, t, Phase.resolved, hi, rfl, by rw [hc]; rfl, fun e => by cases e⟩
      · rw [if_neg hc] at hs
        by_cases hc2 : t.phase = Phase.failed
        · rw [if_pos hc2] at hs
          simp only [Option.some.injEq] at hs
          subst hs
          exact Or.inr ⟨i, t, Phase.rejected, hi, rfl, by rw [hc2]; rfl, fun e => by cases e⟩
        · rw [if_neg hc2] at hs; cases hs
  | listen throws =>
    simp only [step] at hs
    split at hs
    · simp only [Option.some.injEq] at hs
      subst hs
      refine Or.inl ?_
      unfold Component.listenForHotkeys
      split <;> rfl
    · cases hs
  | abort i =>
    simp only [step] at hs
    cases hi : rt.inits.get? i with
    | none => rw [hi] at hs; cases hs
    | some t =>
      rw [hi] at hs
      simp only at hs
      split at hs
      · simp only [Option.some.injEq] at hs
        subst hs
        exact Or.inl rfl
      · cases hs
  | message command name hook =>
    simp only [step] at hs
    split at hs
    · simp only [Option.some.injEq] at hs
      subst hs
      refine Or.inl ?_
      unfold Component.handleHotkeysMessages
      split
      · exact (handleHotkeysMessages_loop_spec name hook
          (getAll "Component" false rt.reg) rt h (fun r hr => getAll_registered _ _ _ r hr)).2.2.1
      · rfl
    · cases hs
  | click r hook =>
    simp only [step] at hs
    split at hs
    · simp only [Option.some.injEq] at hs
      subst hs
      exact Or.inl (trigger_frame r hook rt).2.1
    · cases hs
  | hook j outcome =>
    simp only [step] at hs
    cases hj : rt.triggers.get? j with
    | none => rw [hj] at hs; cases hs
    | some t =>
      rw [hj] at hs
      simp only at hs
      split at hs
      · cases outcome <;>
        · simp only [Option.some.injEq] at hs
          subst hs
          exact Or.inl rfl
      · cases hs

/-- An `init` call that has not failed does not fail in an action other than
a failing run of line 155. -/
theorem alive_step {rt rt2 : Runtime} (h : Inv rt) (a : Action) (hs : step a rt = some rt2)
    (ha : a.fails = false) (t : InitCall) (ht : t ∈ rt.inits) (h1 : t.phase ≠ Phase.failed)
    (h2 : t.phase ≠ Phase.rejected) :
    ∃ t2 ∈ rt2.inits, t2.this = t.this ∧ t2.phase ≠ Phase.failed ∧
      t2.phase ≠ Phase.rejected := by
  rcases step_inits h a hs with e | ⟨i, t0, ph, hi, e, hn, hf⟩
  · rw [e]; exact ⟨t, ht, rfl, h1, h2⟩
  · rw [e]
    rcases mem_modify_of_mem (fun t => { t with phase := ph }) i ht with hm | ⟨hi2, hm⟩
    · exact ⟨t, hm, rfl, h1, h2⟩
    · refine ⟨_, hm, rfl, ?_, ?_⟩
      · intro e2
        have e3 : ph = Phase.failed := e2
        rw [hf e3] at ha
        cases ha
      · intro e2
        have e3 : ph = Phase.rejected := e2
        rw [hi] at hi2
        simp only [Option.some.injEq] at hi2
        subst hi2 e3
        cases hp : t0.phase <;> rw [hp] at hn <;> first | exact h1 hp | cases hn

/-- An `init` call that has failed stays failed or rejected. -/
theorem failed_step {rt rt2 : Runtime} (h : Inv rt) (a : Action) (hs : step a rt = some rt2)
    (i : Nat) (t : InitCall) (ht : rt.inits[i]? = some t)
    (hp : t.phase = Phase.failed ∨ t.phase = Phase.rejected) :
    ∃ t2, rt2.inits[i]? = some t2 ∧ t2.this = t.this ∧ t2.waits = t.waits ∧
      (t2.phase = Phase.failed ∨ t2.phase = Phase.rejected) := by
  rcases step_inits h a hs with e | ⟨j, t0, ph, hj, e, hn, _⟩
  · rw [e]; exact ⟨t, ht, rfl, rfl, hp⟩
  · rw [e, List.getElem?_modify, ht]
    by_cases hji : j = i
    · subst hji
      rw [ht] at hj
      simp only [Option.some.injEq] at hj
      subst hj
      refine ⟨{ t with phase := ph }, by simp, rfl, rfl, ?_⟩
      show ph = Phase.failed ∨ ph = Phase.rejected
      rcases hp with hp | hp
      · rw [hp] at hn
        cases ph <;> first | exact Or.inr rfl | cases hn
      · rw [hp] at hn
        cases ph <;> cases hn
    · exact ⟨t, by simp [hji], rfl, rfl, hp⟩

theorem alive_run : ∀ (acts : List Action) {rt rt2 : Runtime}, Inv rt →
    (∀ a ∈ acts, a.fails = false) → run acts rt = some rt2 →
    ∀ t ∈ rt.inits, t.phase ≠ Phase.failed → t.phase ≠ Phase.rejected →
      ∃ t2 ∈ rt2.inits, t2.this = t.this ∧ t2.phase ≠ Phase.failed ∧
        t2.phase ≠ Phase.rejected
  | [], rt, rt2, _, _, hr, t, ht, h1, h2 => by
    simp only [run, Option.some.injEq] at hr
    subst hr
    exact ⟨t, ht, rfl, h1, h2⟩
  | a :: acts, rt, rt2, h, ha, hr, t, ht, h1, h2 => by
    simp only [run] at hr
    cases hs : step a rt with
    | none => rw [hs] at hr; cases hr
    | some rt1 =>
      rw [hs] at hr
      obtain ⟨t1, ht1, e1, p1, p2⟩ :=
        alive_step h a hs (ha a (List.mem_cons_self _ _)) t ht h1 h2
      obtain ⟨t2, ht2, e2, q1, q2⟩ := alive_run acts (h.step_inv a hs)
        (fun b hb => ha b (List.mem_cons_of_mem _ hb)) hr t1 ht1 p1 p2
      exact ⟨t2, ht2, e2.trans e1, q1, q2⟩

theorem failed_run : ∀ (acts : List Action) {rt rt2 : Runtime}, Inv rt →
    run acts rt = some rt2 → ∀ (i : Nat) (t : InitCall), rt.inits[i]? = some t →
    (t.phase = Phase.failed ∨ t.phase = Phase.rejected) →
    ∃ t2, rt2.inits[i]? = some t2 ∧ t2.this = t.this ∧ t2.waits = t.waits ∧
      (t2.phase = Phase.failed ∨ t2.phase = Phase.rejected)
  | [], rt, rt2, _, hr, i, t, ht, hp => by
    simp only [run, Option.some.injEq] at hr
    subst hr
    exact ⟨t, ht, rfl, rfl, hp⟩
  | a :: acts, rt, rt2, h, hr, i, t, ht, hp => by
    simp only [run] at hr
    cases hs : step a rt with
    | none => rw [hs] at hr; cases hr
    | some rt1 =>
      rw [hs] at hr
      obtain ⟨t1, ht1, e1, w1, p1⟩ := failed_step h a hs i t ht hp
      obtain ⟨t2, ht2, e2, w2, p2⟩ := failed_run acts (h.step_inv a hs) hr i t1 ht1 p1
      exact ⟨t2, ht2, e2.trans e1, w2.trans w1, p2⟩

/-- The callback of line 155 runs without failure once every wait of the call
is fulfilled. -/
theorem step_depsDone_spec (rt : Runtime) (i : Nat) (t : InitCall) (hi : rt.inits[i]? = some t)
    (hp : t.phase = Phase.waiting) (hw : t.waits.all rt.fulfilled = true) :
    ∃ rt2, step (Action.depsDone i false) rt = some rt2 ∧
      rt2.inits[i]? = some { t with phase := Phase.rendered } := by
  have hget : rt.inits.get? i = some t := by rw [List.get?_eq_getElem?]; exact hi
  have hmod : (rt.inits.modify (fun t => { t with phase := Phase.rendered }) i)[i]? =
      some { t with phase := Phase.rendered } := by
    rw [List.getElem?_modify, hi]; simp
  simp only [step, hget]
  rw [if_pos ⟨hp, hw⟩]
  by_cases hd : (rt.reg.deref t.this).displayed = true
  · rw [if_pos hd]
    simp only [Bool.false_eq_true, if_false]
    exact ⟨_, rfl, hmod⟩
  · rw [if_neg hd]
    exact ⟨_, rfl, hmod⟩

/-- The callback of lines 157-160 runs once the call is past line 155, and
leaves the component ready. -/
theorem step_ready_spec {rt : Runtime} (h : Inv rt) (i : Nat) (t : InitCall)
    (hi : rt.inits[i]? = some t) (hp : t.phase = Phase.rendered) :
    ∃ rt2, step (Action.ready i) rt = some rt2 ∧ (rt2.reg.deref t.this).is_ready = true := by
  have hget : rt.inits.get? i = some t := by rw [List.get?_eq_getElem?]; exact hi
  have hreg : rt.reg.Registered t.this := h.init_registered t (List.getElem?_mem hi)
  simp only [step, hget]
  rw [if_pos hp]
  refine ⟨_, rfl, ?_⟩
  show ((rt.reg.setReady t.this true).deref t.this).is_ready = true
  exact ((State.setReady_frame rt.reg t.this).2.1 t.this).2 (Or.inl ⟨rfl, h.wf.valid hreg⟩)

/-- A call whose dependencies are all ready can be brought to set the ready
flag by its own two callbacks. -/
theorem ready_of_deps_ready {rt : Runtime} (h : Inv rt) (h2 : Inv2 rt) (t : InitCall)
    (ht : t ∈ rt.inits) (h1 : t.phase ≠ Phase.failed) (h3 : t.phase ≠ Phase.rejected)
    (hdeps : ∀ d ∈ (rt.reg.deref t.this).dependencies, ∀ r2,
      getById rt.reg d = Value.object r2 → (rt.reg.deref r2).is_ready = true) :
    ∃ acts rt2, (∀ a ∈ acts, a.fails = false) ∧ run acts rt = some rt2 ∧
      (rt2.reg.deref t.this).is_ready = true := by
  obtain ⟨i, hi⟩ := List.getElem?_of_mem ht
  cases hp : t.phase with
  | failed => exact absurd hp h1
  | rejected => exact absurd hp h3
  | dispatched => exact ⟨[], rt, by simp, rfl, h.done_ready t ht (Or.inl hp)⟩
  | resolved => exact ⟨[], rt, by simp, rfl, h.done_ready t ht (Or.inr hp)⟩
  | rendered =>
    obtain ⟨rt2, hs, hr⟩ := step_ready_spec h i t hi hp
    refine ⟨[Action.ready i], rt2, ?_, by simp only [run, hs], hr⟩
    intro a ha
    simp only [List.mem_singleton] at ha
    subst ha; rfl
  | waiting =>
    have hw : t.waits.all rt.fulfilled = true := by
      rw [List.all_eq_true]
      intro p hpm
      obtain ⟨w, hw1, d, hd1, hd2⟩ := h2.waits_sound t ht p hpm
      rw [fulfilled_iff]
      refine ⟨w, hw1, ?_⟩
      cases hst : w.state with
      | fulfilled => rfl
      | pending =>
        have := (h2.pending_listener p w hw1 hst).2
        rw [hdeps d hd1 _ hd2] at this
        cases this
    obtain ⟨rt1, hs1, hr1⟩ := step_depsDone_spec rt i t hi hp hw
    have hinv1 : Inv rt1 := h.step_inv _ hs1
    obtain ⟨rt2, hs2, hr2⟩ := step_ready_spec hinv1 i _ hr1 rfl
    refine ⟨[Action.depsDone i false, Action.ready i], rt2, ?_, by simp only [run, hs1, hs2],
      hr2⟩
    intro a ha
    simp only [List.mem_cons, List.mem_singleton, List.not_mem_nil, or_false] at ha
    rcases ha with ha | ha <;> subst ha <;> rfl

/-- Liveness: a grounded component can be brought to ready from every state
reached without a failure of the button, by actions that do not fail. -/
theorem Grounded.reaches {rt0 : Runtime} (h0 : Inv rt0) (h02 : Inv2 rt0) {r : Ref}
    (hg : Grounded rt0 r) :
    ∀ (acts : List Action) (rt : Runtime), (∀ a ∈ acts, a.fails = false) →
      run acts rt0 = some rt →
      ∃ acts2 rt2, (∀ a ∈ acts2, a.fails = false) ∧ run acts2 rt = some rt2 ∧
        (rt2.reg.deref r).is_ready = true := by
  induction hg with
  | intro r t ht hthis h1 h3 _ ih =>
    intro acts rt hacts hrun
    have hall : ∀ ds : List String, (∀ d ∈ ds, d ∈ (rt0.reg.deref r).dependencies) →
        ∃ acts2 rt2, (∀ a ∈ acts2, a.fails = false) ∧ run acts2 rt = some rt2 ∧
          ∀ d ∈ ds, ∀ r2, getById rt0.reg d = Value.object r2 →
            (rt2.reg.deref r2).is_ready = true := by
      intro ds
      induction ds with
      | nil => exact fun _ => ⟨[], rt, by simp, rfl, by simp⟩
      | cons d ds ihd =>
        intro hsub
        obtain ⟨acts2, rt2, ha2, hr2, hds⟩ :=
          ihd (fun d2 hd2 => hsub d2 (List.mem_cons_of_mem _ hd2))
        have hrun2 : run (acts ++ acts2) rt0 = some rt2 := by
          rw [run_append, hrun]; exact hr2
        have hacts2 : ∀ a ∈ acts ++ acts2, a.fails = false := by
          intro a ha
          rcases List.mem_append.1 ha with ha | ha
          · exact hacts a ha
          · exact ha2 a ha
        cases hgd : getById rt0.reg d with
        | object r2 =>
          obtain ⟨acts3, rt3, ha3, hr3, hready⟩ :=
            ih d (hsub d (List.mem_cons_self _ _)) r2 hgd (acts ++ acts2) rt2 hacts2 hrun2
          refine ⟨acts2 ++ acts3, rt3, ?_, by rw [run_append, hr2]; exact hr3, ?_⟩
          · intro a ha
            rcases List.mem_append.1 ha with ha | ha
            · exact ha2 a ha
            · exact ha3 a ha
          · intro d2 hd2 r3 hg3
            rcases List.mem_cons.1 hd2 with e | hd2
            · subst e
              rw [hgd] at hg3
              simp only [Value.object.injEq] at hg3
              subst hg3
              exact hready
            · exact (run_frame acts3 hr3).2.2.2.1 r3 (hds d2 hd2 r3 hg3)
        | undefined =>
          refine ⟨acts2, rt2, ha2, hr2, fun d2 hd2 r3 hg3 => ?_⟩
          rcases List.mem_cons.1 hd2 with e | hd2
          · subst e; rw [hgd] at hg3; cases hg3
          · exact hds d2 hd2 r3 hg3
        | string v =>
          refine ⟨acts2, rt2, ha2, hr2, fun d2 hd2 r3 hg3 => ?_⟩
          rcases List.mem_cons.1 hd2 with e | hd2
          · subst e; rw [hgd] at hg3; cases hg3
          · exact hds d2 hd2 r3 hg3
        | inherited v =>
          refine ⟨acts2, rt2, ha2, hr2, fun d2 hd2 r3 hg3 => ?_⟩
          rcases List.mem_cons.1 hd2 with e | hd2
          · subst e; rw [hgd] at hg3; cases hg3
          · exact hds d2 hd2 r3 hg3
    obtain ⟨acts2, rt2, ha2, hr2, hds⟩ := hall _ (fun d hd => hd)
    have hrun2 : run (acts ++ acts2) rt0 = some rt2 := by
      rw [run_append, hrun]; exact hr2
    have hacts2 : ∀ a ∈ acts ++ acts2, a.fails = false := by
      intro a ha
      rcases List.mem_append.1 ha with ha | ha
      · exact hacts a ha
      · exact ha2 a ha
    have hinv : Inv rt2 := Inv.run_inv _ h0 hrun2
    have hinv2 : Inv2 rt2 := Inv2.run_inv2 _ h0 h02 hrun2
    obtain ⟨f1, f2, _, _, _⟩ := run_frame _ hrun2
    obtain ⟨t2, ht2, e2, p1, p2⟩ := alive_run _ h0 hacts2 hrun2 t ht h1 h3
    have e3 : t2.this = r := e2.trans hthis
    obtain ⟨acts3, rt3, ha3, hr3, hready⟩ := ready_of_deps_ready hinv hinv2 t2 ht2 p1 p2
      (by
        intro d hd r2 hg2
        rw [e3, f2] at hd
        rw [getById_of_components f1] at hg2
        exact hds d hd r2 hg2)
    rw [e3] at hready
    refine ⟨acts2 ++ acts3, rt3, ?_, by rw [run_append, hr2]; exact hr3, hready⟩
    intro a ha
    rcases List.mem_append.1 ha with ha | ha
    · exact ha2 a ha
    · exact ha3 a ha

/-- A failure of the button of one component leaves grounded every component
that does not reach it through dependency edges. -/
theorem Grounded.setPhase_failed {rt : Runtime} (i : Nat) (t : InitCall)
    (hi : rt.inits[i]? = some t) {r : Ref} (hg : Grounded rt r) :
    r ≠ t.this → ¬ Relation.TransGen (DependsOn rt.reg) r t.this →
      Grounded (rt.setPhase i Phase.failed) r := by
  induction hg with
  | intro r t1 ht1 hthis h1 h3 _ ih =>
    intro hne hind
    have hmem : t1 ∈ (rt.setPhase i Phase.failed).inits := by
      rcases mem_modify_of_mem (fun t => { t with phase := Phase.failed }) i ht1 with hm | ⟨hi2, _⟩
      · exact hm
      · rw [hi] at hi2
        simp only [Option.some.injEq] at hi2
        subst hi2
        exact absurd hthis.symm hne
    refine Grounded.intro r t1 hmem hthis h1 h3 (fun d hd r2 hg2 => ?_)
    have hdep : DependsOn rt.reg r r2 := ⟨d, hd, hg2⟩
    refine ih d hd r2 hg2 ?_ ?_
    · intro e
      rw [e] at hdep
      exact hind (Relation.TransGen.single hdep)
    · intro hp
      exact hind (Relation.TransGen.head hdep hp)

/-! ## Claim about a failure of the button -/

theorem siblings_grounded : Grounded (Component.init "Component" siblings) 1 := by
  refine Grounded.intro 1 ⟨1, [], Phase.waiting⟩ (by decide) rfl (by decide) (by decide) ?_
  intro d hd
  have e : ((Component.init "Component" siblings).reg.deref 1).dependencies = [] := by decide
  rw [e] at hd
  cases hd

theorem siblings_independent : ¬ Relation.TransGen (DependsOn siblings) 1 0 := by
  intro h
  obtain ⟨b, ⟨d, hd, _⟩, _⟩ := Relation.TransGen.head'_iff.1 h
  have e : (siblings.deref 1).dependencies = [] := by decide
  rw [e] at hd
  cases hd

theorem siblings_cycle_closed :
    ∀ y, Relation.ReflTransGen (DependsOn siblings) 2 y → y = 2 := by
  intro y h
  induction h with
  | refl => rfl
  | tail _ hd ih =>
    subst ih
    obtain ⟨d, hd1, hd2⟩ := hd
    have e : (siblings.deref 2).dependencies = ["Tool.z"] := by decide
    rw [e, List.mem_singleton] at hd1
    subst hd1
    have e2 : getById siblings "Tool.z" = Value.object 2 := by decide
    rw [e2] at hd2
    simp only [Value.object.injEq] at hd2
    exact hd2.symm

/-- C16 as it is worded fails on W, V and Z: after `generateButton` has failed
for W, the tool Z is in the array of required components and reaches W by no
dependency edge, yet Z, which depends on itself, is ready in no state that
follows. -/
theorem cyclic_sibling_never_ready :
    step (Action.depsDone 2 true) (Component.init "Component" siblings) = some siblingsFailed ∧
      (Component.init "Component" siblings).inits[2]? = some ⟨0, [], Phase.waiting⟩ ∧
      siblingsFailed.inits[2]? = some ⟨0, [], Phase.failed⟩ ∧
      (getRequiredComponents "Component" siblings).2 =
        Except.ok [Value.object 2, Value.object 1, Value.object 0] ∧
      ¬ Relation.ReflTransGen (DependsOn siblings) 2 0 ∧
      ∀ acts rt, run acts siblingsFailed = some rt → (rt.reg.deref 2).is_ready = false := by
  refine ⟨by decide, by decide, by decide, by decide, ?_, ?_⟩
  · intro h
    have := siblings_cycle_closed 0 h
    cases this
  · intro acts rt hrun
    have h1 : run [Action.depsDone 2 true] (Component.init "Component" siblings)
        = some siblingsFailed := by decide
    have hrun2 : run ([Action.depsDone 2 true] ++ acts) (Component.init "Component" siblings)
        = some rt := by
      rw [run_append, h1]; exact hrun
    obtain ⟨hinv, hinv2, _, hdep⟩ :=
      reachable_spec siblings (by decide) (by decide) _ rt hrun2
    have hself : DependsOn siblings 2 2 := ⟨"Tool.z", by decide, by decide⟩
    exact (cycle_not_ready hinv hinv2 (Relation.TransGen.single ((hdep 2 2).2 hself))).1

/-- C16, amended: in a state reachable from the static `init` on a registry
built by the constructor, let `generateButton` fail for the component X of the
`init` call `i`. Then the call is failed and its `catch` rejects the promise
of `init`; in every state that follows the call is failed or rejected, X is
not ready and has dispatched no ready event, and every component of the array
of required components has an `init` call. A component other than X that does
not reach X through dependency edges and that was grounded before the failure
(its `init` and, inductively, those of the components it depends on have not
failed, which excludes a dependency cycle) can still be made ready from every
such state reached without a further failure of `generateButton`. -/
theorem button_failure_is_isolated (s : State) (hwf : s.WF) (hfresh : s.Fresh)
    (acts : List Action) (rt : Runtime)
    (hrun : run acts (Component.init "Component" s) = some rt)
    (i : Nat) (t : InitCall) (ht : rt.inits[i]? = some t)
    (hd : (rt.reg.deref t.this).displayed = true) (rt1 : Runtime)
    (hfail : step (Action.depsDone i true) rt = some rt1)
    (r : Ref) (hne : r ≠ t.this) (hg : Grounded rt r)
    (hind : ¬ Relation.TransGen (DependsOn s) r t.this) :
    rt1.inits[i]? = some { t with phase := Phase.failed } ∧
    (∃ rt2, step (Action.settle i) rt1 = some rt2 ∧
      rt2.inits[i]? = some { t with phase := Phase.rejected }) ∧
    (getRequiredComponents "Component" s).2 = Except.ok rt.required ∧
    ∀ acts2 rt2, run acts2 rt1 = some rt2 →
      (∃ t2, rt2.inits[i]? = some t2 ∧ t2.this = t.this ∧
        (t2.phase = Phase.failed ∨ t2.phase = Phase.rejected)) ∧
      (rt2.reg.deref t.this).is_ready = false ∧ t.this ∉ rt2.broadcasts ∧
      (∀ r2, Value.object r2 ∈ rt.required → ∃ t2 ∈ rt2.inits, t2.this = r2) ∧
      ((∀ a ∈ acts2, a.fails = false) →
        ∃ acts3 rt3, (∀ a ∈ acts3, a.fails = false) ∧ run acts3 rt2 = some rt3 ∧
          (rt3.reg.deref r).is_ready = true) := by
  obtain ⟨hinv, hinv2, hl, hdep⟩ := reachable_spec s hwf hfresh acts rt hrun
  have hget : rt.inits.get? i = some t := by rw [List.get?_eq_getElem?]; exact ht
  have hrt1 : rt1 = rt.setPhase i Phase.failed := by
    simp only [step, hget] at hfail
    by_cases hc : t.phase = Phase.waiting ∧ t.waits.all rt.fulfilled = true
    · rw [if_pos hc, if_pos hd] at hfail
      simp only [if_true, Option.some.injEq] at hfail
      exact hfail.symm
    · rw [if_neg hc] at hfail; cases hfail
  have hi1 : rt1.inits[i]? = some { t with phase := Phase.failed } := by
    rw [hrt1]
    show (rt.inits.modify (fun t => { t with phase := Phase.failed }) i)[i]? = _
    rw [List.getElem?_modify, ht]; simp
  have hinv1 : Inv rt1 := hinv.step_inv _ hfail
  have hinv21 : Inv2 rt1 := Inv2.effect hinv hinv2 (step_effect _ hfail)
  have hreq : (getRequiredComponents "Component" s).2 = Except.ok rt.required := by
    rcases hl.2 with h | ⟨_, h, _⟩
    · exact h
    · rw [h] at ht; simp at ht
  have hg1 : Grounded rt1 r := by
    rw [hrt1]
    apply Grounded.setPhase_failed i t ht hg hne
    intro hp
    exact hind (Relation.TransGen.mono (fun a b hab => (hdep a b).1 hab) hp)
  refine ⟨hi1, ?_, hreq, ?_⟩
  · have hget1 : rt1.inits.get? i = some { t with phase := Phase.failed } := by
      rw [List.get?_eq_getElem?]; exact hi1
    simp only [step, hget1]
    rw [if_pos trivial]
    refine ⟨_, rfl, ?_⟩
    show (rt1.inits.modify (fun t => { t with phase := Phase.rejected }) i)[i]? = _
    rw [List.getElem?_modify, hi1]; simp
  · intro acts2 rt2 hr2
    have hrun2 : run ((acts ++ [Action.depsDone i true]) ++ acts2)
        (Component.init "Component" s) = some rt2 := by
      rw [run_append, run_append, hrun]
      simp only [Option.some_bind, run, hfail]
      exact hr2
    obtain ⟨hinv3, hinv23, hl3, _⟩ := reachable_spec s hwf hfresh _ rt2 hrun2
    obtain ⟨t2, ht2, e2, _, p2⟩ := failed_run acts2 hinv1 hr2 i _ hi1 (Or.inl rfl)
    have e3 : t2.this = t.this := e2
    have hmem2 : t2 ∈ rt2.inits := List.getElem?_mem ht2
    have hnr : (rt2.reg.deref t.this).is_ready = false := by
      cases hready : (rt2.reg.deref t.this).is_ready with
      | false => rfl
      | true =>
        rw [← e3] at hready
        rcases hinv23.ready_phase t2 hmem2 hready with q | q <;> rcases p2 with p | p <;>
          · rw [q] at p; cases p
    refine ⟨⟨t2, ht2, e3, p2⟩, hnr, ?_, ?_, ?_⟩
    · intro hb
      have := hinv23.broadcast_ready _ hb
      rw [hnr] at this
      cases this
    · intro r2 hr
      have hreq2 : rt2.required = rt.required := by
        rcases hl3.2 with h | ⟨_, h, _⟩
        · rw [hreq] at h
          simp only [Except.ok.injEq] at h
          exact h.symm
        · rw [h] at hmem2; cases hmem2
      rw [← hreq2] at hr
      exact init_of_required hl3 hr
    · intro hnf
      exact Grounded.reaches hinv1 hinv21 hg1 acts2 rt2 hnf hr2

/-- C16, amended, on W, V and Z: the button of W fails; V has no dependency
and can still be made ready, as the schedule of its two callbacks shows. -/
theorem button_failure_is_isolated_witness :
    siblings.WF ∧ siblings.Fresh ∧
      (Component.init "Component" siblings).inits[2]? = some ⟨0, [], Phase.waiting⟩ ∧
      ((Component.init "Component" siblings).reg.deref 0).displayed = true ∧
      step (Action.depsDone 2 true) (Component.init "Component" siblings) = some siblingsFailed ∧
      Grounded (Component.init "Component" siblings) 1 ∧
      ¬ Relation.TransGen (DependsOn siblings) 1 0 ∧
      (run [Action.depsDone 1 false, Action.ready 1] siblingsFailed).map
        (fun rt => (rt.reg.deref 1).is_ready) = some true ∧
      (siblingsFailed.inits[2]? = some ⟨0, [], Phase.failed⟩ ∧
      (∃ rt2, step (Action.settle 2) siblingsFailed = some rt2 ∧
        rt2.inits[2]? = some ⟨0, [], Phase.rejected⟩) ∧
      (getRequiredComponents "Component" siblings).2 =
        Except.ok (Component.init "Component" siblings).required ∧
      ∀ acts2 rt2, run acts2 siblingsFailed = some rt2 →
        (∃ t2, rt2.inits[2]? = some t2 ∧ t2.this = 0 ∧
          (t2.phase = Phase.failed ∨ t2.phase = Phase.rejected)) ∧
        (rt2.reg.deref 0).is_ready = false ∧ 0 ∉ rt2.broadcasts ∧
        (∀ r2, Value.object r2 ∈ (Component.init "Component" siblings).required →
          ∃ t2 ∈ rt2.inits, t2.this = r2) ∧
        ((∀ a ∈ acts2, a.fails = false) →
          ∃ acts3 rt3, (∀ a ∈ acts3, a.fails = false) ∧ run acts3 rt2 = some rt3 ∧
            (rt3.reg.deref 1).is_ready = true)) :=
  ⟨by decide, by decide, by decide, by decide, by decide, siblings_grounded,
    siblings_independent, by decide,
    button_failure_is_isolated siblings (by decide) (by decide) []
      (Component.init "Component" siblings) rfl 2 ⟨0, [], Phase.waiting⟩ (by decide) (by decide)
      siblingsFailed (by decide) 1 (by decide) siblings_grounded siblings_independent⟩

end Flowcus
